import Mathlib

set_option maxRecDepth 10000
set_option maxHeartbeats 1000000

deriving instance DecidableEq for Except

/-!
# Verification of the TreeNode codecs

A shallow embedding in Lean 4 of the C++ sources of the TreeNode R package
(`write_binary_tree.cpp`, `read_binary_tree.cpp`, `read_nwka.cpp`,
`write_nwka.cpp`, `common.cpp`), together with theorems settling the claims
of the specification.

Modelling conventions:
* a byte is a `Nat` (kept `< 256` by all writers);
* a C++ `double` in the binary codec is its raw 64-bit IEEE-754 pattern as a
  `Nat` (`< 2 ^ 64`); `std::isnan` is the IEEE-754 test on the pattern;
* a `double` in the text codecs is `RD` (an exact rational or NaN), since
  there values only arise from and flow to decimal text;
* file streams are a `List Nat` of bytes (or `List Char` for text) with an
  explicit read position; reading past the end of the stream, an
  out-of-range vector access and a `std::get` on the wrong variant
  alternative are modelled as `Except.error` (the C++ code throws for the
  variant case and the batch readers treat any thrown failure as a decode
  failure);
* `Rcpp::stop` is `Except.error`;
* loops whose termination is not structural take an explicit fuel argument.
-/

/-! ## Byte-level primitives (write_binary_tree.cpp / read_binary_tree.cpp) -/

/-- `writeInt32`: 4 little-endian bytes of a 32-bit integer. -/
def writeInt32 (val : Nat) : List Nat :=
  [val &&& 0xff, (val >>> 8) &&& 0xff, (val >>> 16) &&& 0xff, (val >>> 24) &&& 0xff]

/-- `writeInt64`: 8 little-endian bytes of a 64-bit integer. -/
def writeInt64 (val : Nat) : List Nat :=
  [val &&& 0xff, (val >>> 8) &&& 0xff, (val >>> 16) &&& 0xff, (val >>> 24) &&& 0xff,
   (val >>> 32) &&& 0xff, (val >>> 40) &&& 0xff, (val >>> 48) &&& 0xff, (val >>> 56) &&& 0xff]

/-- `writeInt`: variable-width integer; 1 byte if `< 254`, else `254` + int32. -/
def writeInt (val : Nat) : List Nat :=
  if val < 254 then [val] else 254 :: writeInt32 val

/-- `readByte`: one byte from the stream at position `p`. -/
def rdByte (s : List Nat) (p : Nat) : Except String (Nat × Nat) :=
  if h : p < s.length then .ok (s.get ⟨p, h⟩, p + 1) else .error "end of stream"

/-- `readBytes`: `n` bytes from the stream. -/
def rdBytes (s : List Nat) (p : Nat) : Nat → Except String (List Nat × Nat)
  | 0 => .ok ([], p)
  | n + 1 => do
      let (b, p1) ← rdByte s p
      let (bs, p2) ← rdBytes s p1 n
      .ok (b :: bs, p2)

/-- `readInt32`: 4 little-endian bytes summed as `num += bytes[i] << (8*i)`. -/
def rdInt32 (s : List Nat) (p : Nat) : Except String (Nat × Nat) := do
  let (bs, p1) ← rdBytes s p 4
  .ok (bs.foldr (fun b acc => acc * 256 + b) 0, p1)

/-- `readInt64`: 8 little-endian bytes summed as `num += bytes[i] << (8*i)`. -/
def rdInt64 (s : List Nat) (p : Nat) : Except String (Nat × Nat) := do
  let (bs, p1) ← rdBytes s p 8
  .ok (bs.foldr (fun b acc => acc * 256 + b) 0, p1)

/-- `readInt`: variable-width integer; 1 byte if `< 254`, else an int32 follows. -/
def rdInt (s : List Nat) (p : Nat) : Except String (Nat × Nat) := do
  let (b, p1) ← rdByte s p
  if b < 254 then .ok (b, p1) else rdInt32 s p1

/-! ## Bit-packed short integers

`writeShortInt` packs one child count into the bitstream, 2 or 4 bits at a
time (escaping to a full variable-width integer for counts above 5).  The
state is the byte being filled (`currByte`) and the bit cursor (`currIndex`,
one of 0/2/4/6).  The unreachable final `Rcpp::stop("Unexpected code path!")`
is an `Except.error`. -/

def writeShortInt (value : Nat) (currByte : Nat) (currIndex : Nat) :
    Except String (List Nat × Nat × Nat) :=
  if value == 0 then
    if currIndex == 0 then .ok ([], currByte, 2)
    else if currIndex == 2 then .ok ([], currByte, 4)
    else if currIndex == 4 then .ok ([], currByte, 6)
    else if currIndex == 6 then .ok ([currByte], 0, 0)
    else .error "Unexpected code path!"
  else if value == 2 then
    if currIndex == 0 then .ok ([], currByte ||| 0b00000001, 2)
    else if currIndex == 2 then .ok ([], currByte ||| 0b00000100, 4)
    else if currIndex == 4 then .ok ([], currByte ||| 0b00010000, 6)
    else if currIndex == 6 then .ok ([currByte ||| 0b01000000], 0, 0)
    else .error "Unexpected code path!"
  else if value == 3 then
    if currIndex == 0 then .ok ([], currByte ||| 0b00000010, 2)
    else if currIndex == 2 then .ok ([], currByte ||| 0b00001000, 4)
    else if currIndex == 4 then .ok ([], currByte ||| 0b00100000, 6)
    else if currIndex == 6 then .ok ([currByte ||| 0b10000000], 0, 0)
    else .error "Unexpected code path!"
  else if value == 1 then
    if currIndex == 0 then .ok ([], currByte ||| 0b00000011, 4)
    else if currIndex == 2 then .ok ([], currByte ||| 0b00001100, 6)
    else if currIndex == 4 then .ok ([currByte ||| 0b00110000], 0, 0)
    else if currIndex == 6 then .ok ([currByte ||| 0b11000000], 0, 2)
    else .error "Unexpected code path!"
  else if value == 4 then
    if currIndex == 0 then .ok ([], currByte ||| 0b00000111, 4)
    else if currIndex == 2 then .ok ([], currByte ||| 0b00011100, 6)
    else if currIndex == 4 then .ok ([currByte ||| 0b01110000], 0, 0)
    else if currIndex == 6 then .ok ([currByte ||| 0b11000000], 0b00000001, 2)
    else .error "Unexpected code path!"
  else if value == 5 then
    if currIndex == 0 then .ok ([], currByte ||| 0b00001011, 4)
    else if currIndex == 2 then .ok ([], currByte ||| 0b00101100, 6)
    else if currIndex == 4 then .ok ([currByte ||| 0b10110000], 0, 0)
    else if currIndex == 6 then .ok ([currByte ||| 0b11000000], 0b00000010, 2)
    else .error "Unexpected code path!"
  else
    if currIndex == 0 then .ok ((currByte ||| 0b00001111) :: writeInt value, 0, 0)
    else if currIndex == 2 then .ok ((currByte ||| 0b00111100) :: writeInt value, 0, 0)
    else if currIndex == 4 then .ok ((currByte ||| 0b11110000) :: writeInt value, 0, 0)
    else if currIndex == 6 then
      .ok ((currByte ||| 0b11000000) :: 0b00000011 :: writeInt value, 0, 0)
    else .error "Unexpected code path!"

/-- The loop issuing successive `writeShortInt` calls with the shared
`currByte`/`currPos` state (the per-node loop of `writeBinaryTree`). -/
def writeShortInts_go (vals : List Nat) (currByte currIndex : Nat) :
    Except String (List Nat × Nat × Nat) :=
  match vals with
  | [] => .ok ([], currByte, currIndex)
  | v :: vs => do
      let (e, cb1, idx1) ← writeShortInt v currByte currIndex
      let (bs, cb2, idx2) ← writeShortInts_go vs cb1 idx1
      .ok (e ++ bs, cb2, idx2)

/-- Write a whole sequence of child counts, flushing the partially filled
byte at the end when the cursor is non-zero (`writeBinaryTree`,
`if (currPos != 0) writeByte(file, currByte)`). -/
def writeShortInts (vals : List Nat) : Except String (List Nat) := do
  let (bs, cb, idx) ← writeShortInts_go vals 0 0
  .ok (bs ++ if idx ≠ 0 then [cb] else [])

/-- `readShortInt`: read one bit-packed count.  Returns the value, the new
stream position, the new `currByte` and the new `currIndex`. -/
def readShortInt (s : List Nat) (p : Nat) (currByte : Nat) (currIndex : Nat) :
    Except String (Nat × Nat × Nat × Nat) :=
  if currIndex == 0 then
    let twoBits := currByte &&& 0b00000011
    if twoBits == 0b00 then .ok (0, p, currByte, 2)
    else if twoBits == 0b01 then .ok (2, p, currByte, 2)
    else if twoBits == 0b10 then .ok (3, p, currByte, 2)
    else
      let fourBits := currByte &&& 0b00001111
      if fourBits == 0b0011 then .ok (1, p, currByte, 4)
      else if fourBits == 0b0111 then .ok (4, p, currByte, 4)
      else if fourBits == 0b1011 then .ok (5, p, currByte, 4)
      else do
        let (tbr, p1) ← rdInt s p
        let (b, p2) ← rdByte s p1
        .ok (tbr, p2, b, 0)
  else if currIndex == 2 then
    let twoBits := (currByte &&& 0b00001100) >>> 2
    if twoBits == 0b00 then .ok (0, p, currByte, 4)
    else if twoBits == 0b01 then .ok (2, p, currByte, 4)
    else if twoBits == 0b10 then .ok (3, p, currByte, 4)
    else
      let fourBits := (currByte &&& 0b00111100) >>> 2
      if fourBits == 0b0011 then .ok (1, p, currByte, 6)
      else if fourBits == 0b0111 then .ok (4, p, currByte, 6)
      else if fourBits == 0b1011 then .ok (5, p, currByte, 6)
      else do
        let (tbr, p1) ← rdInt s p
        let (b, p2) ← rdByte s p1
        .ok (tbr, p2, b, 0)
  else if currIndex == 4 then
    let twoBits := (currByte &&& 0b00110000) >>> 4
    if twoBits == 0b00 then .ok (0, p, currByte, 6)
    else if twoBits == 0b01 then .ok (2, p, currByte, 6)
    else if twoBits == 0b10 then .ok (3, p, currByte, 6)
    else
      let fourBits := (currByte &&& 0b11110000) >>> 4
      if fourBits == 0b0011 then do
        let (b, p1) ← rdByte s p
        .ok (1, p1, b, 0)
      else if fourBits == 0b0111 then do
        let (b, p1) ← rdByte s p
        .ok (4, p1, b, 0)
      else if fourBits == 0b1011 then do
        let (b, p1) ← rdByte s p
        .ok (5, p1, b, 0)
      else do
        let (tbr, p1) ← rdInt s p
        let (b, p2) ← rdByte s p1
        .ok (tbr, p2, b, 0)
  else if currIndex == 6 then
    let twoBits := (currByte &&& 0b11000000) >>> 6
    do
      let (b, p1) ← rdByte s p
      if twoBits == 0b00 then .ok (0, p1, b, 0)
      else if twoBits == 0b01 then .ok (2, p1, b, 0)
      else if twoBits == 0b10 then .ok (3, p1, b, 0)
      else
        let fourBits := twoBits ||| ((b &&& 0b00000011) <<< 2)
        if fourBits == 0b0011 then .ok (1, p1, b, 2)
        else if fourBits == 0b0111 then .ok (4, p1, b, 2)
        else if fourBits == 0b1011 then .ok (5, p1, b, 2)
        else do
          let (tbr, p2) ← rdInt s p1
          let (b2, p3) ← rdByte s p2
          .ok (tbr, p3, b2, 0)
  else .error "Unexpected code path!"

/-- Read `n` consecutive bit-packed counts with the shared state. -/
def readShortInts_go (s : List Nat) (n : Nat) (p currByte currIndex : Nat) :
    Except String (List Nat × Nat × Nat) :=
  match n with
  | 0 => .ok ([], p, currIndex)
  | n + 1 => do
      let (v, p1, cb, idx) ← readShortInt s p currByte currIndex
      let (vs, p2, idx2) ← readShortInts_go s n p1 cb idx
      .ok (v :: vs, p2, idx2)

/-- The reading protocol of `readBinaryTree`: read the initial byte, read `n`
counts, and if the cursor is 0 after the last one seek back by one byte. -/
def readShortInts (s : List Nat) (n : Nat) (p : Nat) :
    Except String (List Nat × Nat) := do
  let (b, p1) ← rdByte s p
  let (vs, p2, idx) ← readShortInts_go s n p1 b 0
  .ok (vs, if idx == 0 then p2 - 1 else p2)

/-! ## Helper lemmas for the short-int round-trip -/

/-- The valid bit-cursor values. -/
def idxOK (idx : Nat) : Prop := idx = 0 ∨ idx = 2 ∨ idx = 4 ∨ idx = 6

theorem land_mask (x n : Nat) : x &&& (2 ^ n - 1) = x % 2 ^ n := by
  apply Nat.eq_of_testBit_eq
  intro i
  rw [Nat.testBit_land, Nat.testBit_mod_two_pow, Nat.testBit_two_pow_sub_one]
  by_cases h : i < n <;> simp [h]

theorem except_ok_bind {α β : Type} (a : α) (f : α → Except String β) :
    (Except.ok a >>= f) = f a := rfl

theorem getD_append_cons (B l : List Nat) (x : Nat) : (B ++ x :: l).getD B.length 0 = x := by
  simp [List.getD_append_right, List.getElem_append_right]

theorem getD_append_off (B l : List Nat) (k : Nat) :
    (B ++ l).getD (B.length + k) 0 = l.getD k 0 := by
  simp [List.getD_append_right, List.getElem?_append_right, List.getD]

theorem rdByte_ok (s : List Nat) (p : Nat) (h : p < s.length) :
    rdByte s p = .ok (s.getD p 0, p + 1) := by
  simp [rdByte, h, List.getD_eq_getElem, List.get_eq_getElem]

theorem rdBytes_append (B l t : List Nat) :
    rdBytes (B ++ l ++ t) B.length l.length = .ok (l, B.length + l.length) := by
  induction l generalizing B with
  | nil => simp [rdBytes]
  | cons x xs ih =>
    rw [show (x :: xs).length = xs.length + 1 from rfl]
    simp only [rdBytes]
    rw [rdByte_ok _ _ (by simp)]
    have hget : (B ++ x :: xs ++ t).getD B.length 0 = x := by
      simpa using getD_append_cons B (xs ++ t) x
    simp only [show B ++ x :: xs ++ t = (B ++ [x]) ++ xs ++ t by simp] at hget ⊢
    rw [hget, except_ok_bind]
    show (rdBytes ((B ++ [x]) ++ xs ++ t) (B.length + 1) xs.length).bind _ = _
    have hlen1 : B.length + 1 = (B ++ [x]).length := by simp
    rw [hlen1, ih]
    show Except.ok (x :: xs, (B ++ [x]).length + xs.length) = _
    simp
    omega

theorem rdInt_writeInt (v : Nat) (hv : v < 2 ^ 31) (B t : List Nat) :
    rdInt (B ++ writeInt v ++ t) B.length = .ok (v, B.length + (writeInt v).length) := by
  by_cases h : v < 254
  · simp only [writeInt, if_pos h]
    simp only [rdInt]
    rw [rdByte_ok _ _ (by simp)]
    have hget : (B ++ [v] ++ t).getD B.length 0 = v := by
      simpa using getD_append_cons B t v
    rw [hget, except_ok_bind]
    simp [h]
  · simp only [writeInt, if_neg h]
    simp only [rdInt]
    rw [rdByte_ok _ _ (by simp)]
    have hget : (B ++ 254 :: writeInt32 v ++ t).getD B.length 0 = 254 := by
      simpa using getD_append_cons B (writeInt32 v ++ t) 254
    rw [hget, except_ok_bind]
    simp only [show ¬ (254 : Nat) < 254 by omega, if_false]
    simp only [rdInt32]
    have hre : B ++ 254 :: writeInt32 v ++ t = (B ++ [254]) ++ writeInt32 v ++ t := by simp
    rw [hre, show B.length + 1 = (B ++ [254]).length by simp,
       show (4 : Nat) = (writeInt32 v).length from rfl, rdBytes_append, except_ok_bind]
    have hfold : (writeInt32 v).foldr (fun b acc => acc * 256 + b) 0 = v := by
      simp only [writeInt32, List.foldr]
      rw [show (0xff : Nat) = 2 ^ 8 - 1 from rfl]
      rw [land_mask, land_mask, land_mask, land_mask]
      rw [Nat.shiftRight_eq_div_pow, Nat.shiftRight_eq_div_pow, Nat.shiftRight_eq_div_pow]
      have h32 : v < 2 ^ 32 := by omega
      omega
    rw [hfold]
    simp [writeInt32]

theorem writeInt_lt (v : Nat) : ∀ e ∈ writeInt v, e < 256 := by
  intro e he
  by_cases h : v < 254 <;> simp [writeInt, h, writeInt32] at he
  · omega
  · rcases he with h1 | h1 | h1 | h1 | h1 <;> subst h1 <;>
      first
        | omega
        | (rw [show (255 : Nat) = 2 ^ 8 - 1 from rfl, land_mask]; omega)
theorem writeShortInt_spec (v cb idx : Nat) (hidx : idxOK idx) (hcb : cb < 2 ^ idx) :
    ∃ E cb₂ idx₂, writeShortInt v cb idx = .ok (E, cb₂, idx₂) ∧
      idxOK idx₂ ∧ cb₂ < 2 ^ idx₂ ∧
      (∀ e ∈ E, e < 256) ∧
      (E = [] → idx < idx₂ ∧ cb₂ % 2 ^ idx = cb) ∧
      (∀ e t, E = e :: t → e % 2 ^ idx = cb) := by
  rcases hidx with h | h | h | h <;> subst h
  · -- idx = 0
    have hcb0 : cb = 0 := by omega
    subst hcb0
    rcases Nat.lt_or_ge v 6 with h6 | h6
    · interval_cases v
      · exact ⟨[], 0, 2, rfl, by simp [idxOK], by norm_num, by simp, fun _ => by norm_num, by simp⟩
      · exact ⟨[], 3, 4, rfl, by simp [idxOK], by norm_num, by simp, fun _ => by norm_num, by simp⟩
      · exact ⟨[], 1, 2, rfl, by simp [idxOK], by norm_num, by simp, fun _ => by norm_num, by simp⟩
      · exact ⟨[], 2, 2, rfl, by simp [idxOK], by norm_num, by simp, fun _ => by norm_num, by simp⟩
      · exact ⟨[], 7, 4, rfl, by simp [idxOK], by norm_num, by simp, fun _ => by norm_num, by simp⟩
      · exact ⟨[], 11, 4, rfl, by simp [idxOK], by norm_num, by simp, fun _ => by norm_num, by simp⟩
    · have h0 : ¬ v = 0 := by omega
      have h1 : ¬ v = 1 := by omega
      have h2 : ¬ v = 2 := by omega
      have h3 : ¬ v = 3 := by omega
      have h4 : ¬ v = 4 := by omega
      have h5 : ¬ v = 5 := by omega
      refine ⟨15 :: writeInt v, 0, 0, ?_, by simp [idxOK], by norm_num, ?_, by simp, ?_⟩
      · simp [writeShortInt, h0, h1, h2, h3, h4, h5]
      · intro e he
        rcases List.mem_cons.mp he with h | h
        · omega
        · exact writeInt_lt v e h
      · intro e t h
        injection h with h hrest
        omega
  · -- idx = 2
    rcases Nat.lt_or_ge v 6 with h6 | h6
    · interval_cases v
      · exact ⟨[], cb, 4, rfl, by simp [idxOK], by omega, by simp,
          fun _ => ⟨by norm_num, Nat.mod_eq_of_lt hcb⟩, by simp⟩
      · exact ⟨[], cb ||| 12, 6, rfl, by simp [idxOK],
          (by decide : ∀ c < 4, c ||| 12 < 64) cb hcb, by simp,
          fun _ => ⟨by norm_num, (by decide : ∀ c < 4, (c ||| 12) % 4 = c) cb hcb⟩, by simp⟩
      · exact ⟨[], cb ||| 4, 4, rfl, by simp [idxOK],
          (by decide : ∀ c < 4, c ||| 4 < 16) cb hcb, by simp,
          fun _ => ⟨by norm_num, (by decide : ∀ c < 4, (c ||| 4) % 4 = c) cb hcb⟩, by simp⟩
      · exact ⟨[], cb ||| 8, 4, rfl, by simp [idxOK],
          (by decide : ∀ c < 4, c ||| 8 < 16) cb hcb, by simp,
          fun _ => ⟨by norm_num, (by decide : ∀ c < 4, (c ||| 8) % 4 = c) cb hcb⟩, by simp⟩
      · exact ⟨[], cb ||| 28, 6, rfl, by simp [idxOK],
          (by decide : ∀ c < 4, c ||| 28 < 64) cb hcb, by simp,
          fun _ => ⟨by norm_num, (by decide : ∀ c < 4, (c ||| 28) % 4 = c) cb hcb⟩, by simp⟩
      · exact ⟨[], cb ||| 44, 6, rfl, by simp [idxOK],
          (by decide : ∀ c < 4, c ||| 44 < 64) cb hcb, by simp,
          fun _ => ⟨by norm_num, (by decide : ∀ c < 4, (c ||| 44) % 4 = c) cb hcb⟩, by simp⟩
    · have h0 : ¬ v = 0 := by omega
      have h1 : ¬ v = 1 := by omega
      have h2 : ¬ v = 2 := by omega
      have h3 : ¬ v = 3 := by omega
      have h4 : ¬ v = 4 := by omega
      have h5 : ¬ v = 5 := by omega
      refine ⟨(cb ||| 60) :: writeInt v, 0, 0, ?_, by simp [idxOK], by norm_num, ?_, by simp, ?_⟩
      · simp [writeShortInt, h0, h1, h2, h3, h4, h5]
      · intro e he
        rcases List.mem_cons.mp he with h | h
        · have := (by decide : ∀ c < 4, c ||| 60 < 256) cb hcb
          omega
        · exact writeInt_lt v e h
      · intro e t h
        injection h with h hrest
        subst h
        exact (by decide : ∀ c < 4, (c ||| 60) % 4 = c) cb hcb
  · -- idx = 4
    rcases Nat.lt_or_ge v 6 with h6 | h6
    · interval_cases v
      · exact ⟨[], cb, 6, rfl, by simp [idxOK], by omega, by simp,
          fun _ => ⟨by norm_num, Nat.mod_eq_of_lt hcb⟩, by simp⟩
      · refine ⟨[cb ||| 48], 0, 0, rfl, by simp [idxOK], by norm_num, ?_, by simp, ?_⟩
        · intro e he
          rcases List.mem_cons.mp he with h | h
          · have := (by decide : ∀ c < 16, c ||| 48 < 256) cb hcb
            omega
          · simp at h
        · intro e t h
          injection h with h1 h2
          subst h1
          exact (by decide : ∀ c < 16, (c ||| 48) % 16 = c) cb hcb
      · exact ⟨[], cb ||| 16, 6, rfl, by simp [idxOK],
          (by decide : ∀ c < 16, c ||| 16 < 64) cb hcb, by simp,
          fun _ => ⟨by norm_num, (by decide : ∀ c < 16, (c ||| 16) % 16 = c) cb hcb⟩, by simp⟩
      · exact ⟨[], cb ||| 32, 6, rfl, by simp [idxOK],
          (by decide : ∀ c < 16, c ||| 32 < 64) cb hcb, by simp,
          fun _ => ⟨by norm_num, (by decide : ∀ c < 16, (c ||| 32) % 16 = c) cb hcb⟩, by simp⟩
      · refine ⟨[cb ||| 112], 0, 0, rfl, by simp [idxOK], by norm_num, ?_, by simp, ?_⟩
        · intro e he
          rcases List.mem_cons.mp he with h | h
          · have := (by decide : ∀ c < 16, c ||| 112 < 256) cb hcb
            omega
          · simp at h
        · intro e t h
          injection h with h1 h2
          subst h1
          exact (by decide : ∀ c < 16, (c ||| 112) % 16 = c) cb hcb
      · refine ⟨[cb ||| 176], 0, 0, rfl, by simp [idxOK], by norm_num, ?_, by simp, ?_⟩
        · intro e he
          rcases List.mem_cons.mp he with h | h
          · have := (by decide : ∀ c < 16, c ||| 176 < 256) cb hcb
            omega
          · simp at h
        · intro e t h
          injection h with h1 h2
          subst h1
          exact (by decide : ∀ c < 16, (c ||| 176) % 16 = c) cb hcb
    · have h0 : ¬ v = 0 := by omega
      have h1 : ¬ v = 1 := by omega
      have h2 : ¬ v = 2 := by omega
      have h3 : ¬ v = 3 := by omega
      have h4 : ¬ v = 4 := by omega
      have h5 : ¬ v = 5 := by omega
      refine ⟨(cb ||| 240) :: writeInt v, 0, 0, ?_, by simp [idxOK], by norm_num, ?_, by simp, ?_⟩
      · simp [writeShortInt, h0, h1, h2, h3, h4, h5]
      · intro e he
        rcases List.mem_cons.mp he with h | h
        · have := (by decide : ∀ c < 16, c ||| 240 < 256) cb hcb
          omega
        · exact writeInt_lt v e h
      · intro e t h
        injection h with h hrest
        subst h
        exact (by decide : ∀ c < 16, (c ||| 240) % 16 = c) cb hcb
  · -- idx = 6
    rcases Nat.lt_or_ge v 6 with h6 | h6
    · interval_cases v
      · refine ⟨[cb], 0, 0, rfl, by simp [idxOK], by norm_num, ?_, by simp, ?_⟩
        · intro e he
          rcases List.mem_cons.mp he with h | h
          · omega
          · simp at h
        · intro e t h
          injection h with h1 h2
          subst h1
          exact Nat.mod_eq_of_lt hcb
      · refine ⟨[cb ||| 192], 0, 2, rfl, by simp [idxOK], by norm_num, ?_, by simp, ?_⟩
        · intro e he
          rcases List.mem_cons.mp he with h | h
          · have := (by decide : ∀ c < 64, c ||| 192 < 256) cb hcb
            omega
          · simp at h
        · intro e t h
          injection h with h1 h2
          subst h1
          exact ((by decide : ∀ c < 64, (c ||| 192) % 64 = c)) cb hcb
      · refine ⟨[cb ||| 64], 0, 0, rfl, by simp [idxOK], by norm_num, ?_, by simp, ?_⟩
        · intro e he
          rcases List.mem_cons.mp he with h | h
          · have := (by decide : ∀ c < 64, c ||| 64 < 256) cb hcb
            omega
          · simp at h
        · intro e t h
          injection h with h1 h2
          subst h1
          exact (by decide : ∀ c < 64, (c ||| 64) % 64 = c) cb hcb
      · refine ⟨[cb ||| 128], 0, 0, rfl, by simp [idxOK], by norm_num, ?_, by simp, ?_⟩
        · intro e he
          rcases List.mem_cons.mp he with h | h
          · have := (by decide : ∀ c < 64, c ||| 128 < 256) cb hcb
            omega
          · simp at h
        · intro e t h
          injection h with h1 h2
          subst h1
          exact (by decide : ∀ c < 64, (c ||| 128) % 64 = c) cb hcb
      · refine ⟨[cb ||| 192], 1, 2, rfl, by simp [idxOK], by norm_num, ?_, by simp, ?_⟩
        · intro e he
          rcases List.mem_cons.mp he with h | h
          · have := (by decide : ∀ c < 64, c ||| 192 < 256) cb hcb
            omega
          · simp at h
        · intro e t h
          injection h with h1 h2
          subst h1
          exact ((by decide : ∀ c < 64, (c ||| 192) % 64 = c)) cb hcb
      · refine ⟨[cb ||| 192], 2, 2, rfl, by simp [idxOK], by norm_num, ?_, by simp, ?_⟩
        · intro e he
          rcases List.mem_cons.mp he with h | h
          · have := (by decide : ∀ c < 64, c ||| 192 < 256) cb hcb
            omega
          · simp at h
        · intro e t h
          injection h with h1 h2
          subst h1
          exact ((by decide : ∀ c < 64, (c ||| 192) % 64 = c)) cb hcb
    · have h0 : ¬ v = 0 := by omega
      have h1 : ¬ v = 1 := by omega
      have h2 : ¬ v = 2 := by omega
      have h3 : ¬ v = 3 := by omega
      have h4 : ¬ v = 4 := by omega
      have h5 : ¬ v = 5 := by omega
      refine ⟨(cb ||| 192) :: 3 :: writeInt v, 0, 0, ?_, by simp [idxOK], by norm_num, ?_,
        by simp, ?_⟩
      · simp [writeShortInt, h0, h1, h2, h3, h4, h5]
      · intro e he
        rcases List.mem_cons.mp he with h | h
        · have := (by decide : ∀ c < 64, c ||| 192 < 256) cb hcb
          omega
        · rcases List.mem_cons.mp h with h | h
          · omega
          · exact writeInt_lt v e h
      · intro e t h
        injection h with h hrest
        subst h
        exact (by decide : ∀ c < 64, (c ||| 192) % 64 = c) cb hcb
theorem writeShortInts_go_spec (vals : List Nat) :
    ∀ cb idx, idxOK idx → cb < 2 ^ idx →
    ∃ bs cb1 idx1, writeShortInts_go vals cb idx = .ok (bs, cb1, idx1) ∧
      idxOK idx1 ∧ cb1 < 2 ^ idx1 ∧ (∀ e ∈ bs, e < 256) ∧
      (idx ≠ 0 → ∃ b t, bs ++ (if idx1 ≠ 0 then [cb1] else []) = b :: t ∧ b % 2 ^ idx = cb) := by
  induction vals with
  | nil =>
    intro cb idx hidx hcb
    refine ⟨[], cb, idx, rfl, hidx, hcb, by simp, fun h0 => ⟨cb, [], by simp [h0], Nat.mod_eq_of_lt hcb⟩⟩
  | cons v vs ih =>
    intro cb idx hidx hcb
    obtain ⟨E, cb₂, idx₂, hw, hidx₂, hcb₂, hEb, hEnil, hEhead⟩ := writeShortInt_spec v cb idx hidx hcb
    obtain ⟨bs', cb1, idx1, hgo, hidx1, hcb1, hbs, hhead⟩ := ih cb₂ idx₂ hidx₂ hcb₂
    refine ⟨E ++ bs', cb1, idx1, ?_, hidx1, hcb1, ?_, ?_⟩
    · simp only [writeShortInts_go, hw, except_ok_bind, hgo]
    · intro e he
      rcases List.mem_append.mp he with h | h
      exacts [hEb e h, hbs e h]
    · intro hidxne
      cases E with
      | nil =>
        obtain ⟨hlt, hmod⟩ := hEnil rfl
        have hidx₂ne : idx₂ ≠ 0 := by omega
        obtain ⟨b, t, hbt, hbmod⟩ := hhead hidx₂ne
        refine ⟨b, t, by simpa using hbt, ?_⟩
        calc b % 2 ^ idx = b % 2 ^ idx₂ % 2 ^ idx :=
              (Nat.mod_mod_of_dvd b (pow_dvd_pow 2 (le_of_lt hlt))).symm
          _ = cb₂ % 2 ^ idx := by rw [hbmod]
          _ = cb := hmod
      | cons e t' =>
        exact ⟨e, t' ++ (bs' ++ (if idx1 ≠ 0 then [cb1] else [])), by simp, hEhead e t' rfl⟩
theorem rdEscape (v b : Nat) (hv : v < 2 ^ 31) (B t : List Nat) :
    (do
      let (tbr, p1) ← rdInt (B ++ writeInt v ++ b :: t) B.length
      let (b2, p2) ← rdByte (B ++ writeInt v ++ b :: t) p1
      Except.ok (tbr, p2, b2, (0 : Nat)))
      = Except.ok (v, B.length + (writeInt v).length + 1, b, 0) := by
  rw [rdInt_writeInt v hv B (b :: t), except_ok_bind]
  show (do
      let (b2, p2) ← rdByte (B ++ writeInt v ++ b :: t) (B.length + (writeInt v).length)
      Except.ok (v, p2, b2, (0 : Nat))) = _
  rw [show B.length + (writeInt v).length = (B ++ writeInt v).length from
    (List.length_append _ _).symm]
  rw [show B ++ writeInt v ++ b :: t = (B ++ writeInt v) ++ b :: t from rfl]
  rw [rdByte_ok _ _ (by simp), except_ok_bind, getD_append_cons]
theorem readShortInt_escape2 (s : List Nat) (p cbr : Nat)
    (h1 : (cbr &&& 12) >>> 2 = 3) (h2 : (cbr &&& 60) >>> 2 = 15) :
    readShortInt s p cbr 2 =
      (do
        let (tbr, p1) ← rdInt s p
        let (b2, p2) ← rdByte s p1
        Except.ok (tbr, p2, b2, (0 : Nat))) := by
  simp [readShortInt, h1, h2]

theorem readShortInt_escape4 (s : List Nat) (p cbr : Nat)
    (h1 : (cbr &&& 48) >>> 4 = 3) (h2 : (cbr &&& 240) >>> 4 = 15) :
    readShortInt s p cbr 4 =
      (do
        let (tbr, p1) ← rdInt s p
        let (b2, p2) ← rdByte s p1
        Except.ok (tbr, p2, b2, (0 : Nat))) := by
  simp [readShortInt, h1, h2]
theorem getD_cons1 (B l : List Nat) (x y : Nat) :
    (B ++ x :: y :: l).getD (B.length + 1) 0 = y := by
  rw [show B ++ x :: y :: l = (B ++ [x]) ++ y :: l by simp,
     show B.length + 1 = (B ++ [x]).length by simp]
  exact getD_append_cons _ _ _

theorem rdByte_cons1 (B l : List Nat) (x y : Nat) :
    rdByte (B ++ x :: y :: l) (B.length + 1) = .ok (y, B.length + 2) := by
  rw [show B ++ x :: y :: l = (B ++ [x]) ++ y :: l by simp,
     show B.length + 1 = (B ++ [x]).length by simp]
  rw [rdByte_ok _ _ (by simp), getD_append_cons]
  simp
theorem readShortInt_sim (v cb idx : Nat) (E : List Nat) (cb₂ idx₂ : Nat)
    (B t : List Nat) (b : Nat)
    (hidx : idxOK idx) (hcb : cb < 2 ^ idx) (hv : v < 2 ^ 31) (hb : b < 256)
    (hw : writeShortInt v cb idx = .ok (E, cb₂, idx₂))
    (hagree : idx₂ ≠ 0 → b % 2 ^ idx₂ = cb₂) :
    readShortInt (B ++ E ++ b :: t) (B.length + 1)
        ((B ++ E ++ b :: t).getD B.length 0) idx
      = .ok (v, B.length + E.length + 1, (B ++ E ++ b :: t).getD (B.length + E.length) 0, idx₂) := by
  rcases hidx with h | h | h | h <;> subst h
  · -- idx = 0
    have hcb0 : cb = 0 := by omega
    subst hcb0
    rcases Nat.lt_or_ge v 6 with h6 | h6
    · interval_cases v
      · -- v = 0
        simp only [writeShortInt, Nat.zero_or] at hw
        injection hw with hw; injection hw with hE hw; injection hw with hcb₂ hidx₂
        subst hE; subst hcb₂; subst hidx₂
        have hmod := hagree (by norm_num)
        simp only [List.append_nil, List.nil_append, List.length_nil, Nat.add_zero]
        rw [getD_append_cons]
        have h3 : b &&& 3 = 0 := by rw [show (3:Nat) = 2^2-1 from rfl, land_mask]; omega
        simp [readShortInt, h3]
      · -- v = 1
        simp only [writeShortInt, Nat.zero_or] at hw
        injection hw with hw; injection hw with hE hw; injection hw with hcb₂ hidx₂
        subst hE; subst hcb₂; subst hidx₂
        have hmod := hagree (by norm_num)
        simp only [List.append_nil, List.nil_append, List.length_nil, Nat.add_zero]
        rw [getD_append_cons]
        have h3 : b &&& 3 = 3 := by rw [show (3:Nat) = 2^2-1 from rfl, land_mask]; omega
        have h15 : b &&& 15 = 3 := by rw [show (15:Nat) = 2^4-1 from rfl, land_mask]; omega
        simp [readShortInt, h3, h15]
      · -- v = 2
        simp only [writeShortInt, Nat.zero_or] at hw
        injection hw with hw; injection hw with hE hw; injection hw with hcb₂ hidx₂
        subst hE; subst hcb₂; subst hidx₂
        have hmod := hagree (by norm_num)
        simp only [List.append_nil, List.nil_append, List.length_nil, Nat.add_zero]
        rw [getD_append_cons]
        have h3 : b &&& 3 = 1 := by rw [show (3:Nat) = 2^2-1 from rfl, land_mask]; omega
        simp [readShortInt, h3]
      · -- v = 3
        simp only [writeShortInt, Nat.zero_or] at hw
        injection hw with hw; injection hw with hE hw; injection hw with hcb₂ hidx₂
        subst hE; subst hcb₂; subst hidx₂
        have hmod := hagree (by norm_num)
        simp only [List.append_nil, List.nil_append, List.length_nil, Nat.add_zero]
        rw [getD_append_cons]
        have h3 : b &&& 3 = 2 := by rw [show (3:Nat) = 2^2-1 from rfl, land_mask]; omega
        simp [readShortInt, h3]
      · -- v = 4
        simp only [writeShortInt, Nat.zero_or] at hw
        injection hw with hw; injection hw with hE hw; injection hw with hcb₂ hidx₂
        subst hE; subst hcb₂; subst hidx₂
        have hmod := hagree (by norm_num)
        simp only [List.append_nil, List.nil_append, List.length_nil, Nat.add_zero]
        rw [getD_append_cons]
        have h3 : b &&& 3 = 3 := by rw [show (3:Nat) = 2^2-1 from rfl, land_mask]; omega
        have h15 : b &&& 15 = 7 := by rw [show (15:Nat) = 2^4-1 from rfl, land_mask]; omega
        simp [readShortInt, h3, h15]
      · -- v = 5
        simp only [writeShortInt, Nat.zero_or] at hw
        injection hw with hw; injection hw with hE hw; injection hw with hcb₂ hidx₂
        subst hE; subst hcb₂; subst hidx₂
        have hmod := hagree (by norm_num)
        simp only [List.append_nil, List.nil_append, List.length_nil, Nat.add_zero]
        rw [getD_append_cons]
        have h3 : b &&& 3 = 3 := by rw [show (3:Nat) = 2^2-1 from rfl, land_mask]; omega
        have h15 : b &&& 15 = 11 := by rw [show (15:Nat) = 2^4-1 from rfl, land_mask]; omega
        simp [readShortInt, h3, h15]
    · -- v ≥ 6, escape
      have h0 : ¬ v = 0 := by omega
      have h1 : ¬ v = 1 := by omega
      have h2 : ¬ v = 2 := by omega
      have h3 : ¬ v = 3 := by omega
      have h4 : ¬ v = 4 := by omega
      have h5 : ¬ v = 5 := by omega
      simp only [writeShortInt, h0, h1, h2, h3, h4, h5, beq_iff_eq, if_false, if_true,
        Nat.zero_or] at hw
      injection hw with hw; injection hw with hE hw; injection hw with hcb₂ hidx₂
      subst hE; subst hcb₂; subst hidx₂
      have hget : (B ++ 15 :: writeInt v ++ b :: t).getD B.length 0 = 15 := by
        rw [show B ++ 15 :: writeInt v ++ b :: t = B ++ (15 :: (writeInt v ++ b :: t)) by simp]
        exact getD_append_cons B (writeInt v ++ b :: t) 15
      rw [hget]
      have hred : ∀ s p, readShortInt s p 15 0 =
          (do
            let (tbr, p1) ← rdInt s p
            let (b2, p2) ← rdByte s p1
            Except.ok (tbr, p2, b2, (0 : Nat))) := fun s p => rfl
      rw [hred]
      rw [show B ++ 15 :: writeInt v = (B ++ [15]) ++ writeInt v by simp]
      rw [show B.length + 1 = (B ++ [15]).length by simp]
      rw [rdEscape v b hv (B ++ [15]) t]
      have hidxe : B.length + (15 :: writeInt v).length = ((B ++ [15]) ++ writeInt v).length := by
        simp
      rw [hidxe, getD_append_cons]
      simp
      omega
  · -- idx = 2
    rcases Nat.lt_or_ge v 6 with h6 | h6
    · interval_cases v
      · -- v = 0
        simp only [writeShortInt] at hw
        injection hw with hw; injection hw with hE hw; injection hw with hcb₂ hidx₂
        subst hE; subst hcb₂; subst hidx₂
        have hmod := hagree (by norm_num)
        simp only [List.append_nil, List.nil_append, List.length_nil, Nat.add_zero]
        rw [getD_append_cons]
        have hf : (b &&& 12) >>> 2 = 0 :=
          (by decide : ∀ x < 256, ∀ c < 4, x % 16 = c → (x &&& 12) >>> 2 = 0) b hb cb hcb hmod
        simp [readShortInt, hf]
      · -- v = 1
        simp only [writeShortInt] at hw
        injection hw with hw; injection hw with hE hw; injection hw with hcb₂ hidx₂
        subst hE; subst hcb₂; subst hidx₂
        have hmod := hagree (by norm_num)
        simp only [List.append_nil, List.nil_append, List.length_nil, Nat.add_zero]
        rw [getD_append_cons]
        have hf : (b &&& 12) >>> 2 = 3 :=
          (by decide : ∀ x < 256, ∀ c < 4, x % 64 = c ||| 12 → (x &&& 12) >>> 2 = 3) b hb cb hcb hmod
        have hg : (b &&& 60) >>> 2 = 3 :=
          (by decide : ∀ x < 256, ∀ c < 4, x % 64 = c ||| 12 → (x &&& 60) >>> 2 = 3) b hb cb hcb hmod
        simp [readShortInt, hf, hg]
      · -- v = 2
        simp only [writeShortInt] at hw
        injection hw with hw; injection hw with hE hw; injection hw with hcb₂ hidx₂
        subst hE; subst hcb₂; subst hidx₂
        have hmod := hagree (by norm_num)
        simp only [List.append_nil, List.nil_append, List.length_nil, Nat.add_zero]
        rw [getD_append_cons]
        have hf : (b &&& 12) >>> 2 = 1 :=
          (by decide : ∀ x < 256, ∀ c < 4, x % 16 = c ||| 4 → (x &&& 12) >>> 2 = 1) b hb cb hcb hmod
        simp [readShortInt, hf]
      · -- v = 3
        simp only [writeShortInt] at hw
        injection hw with hw; injection hw with hE hw; injection hw with hcb₂ hidx₂
        subst hE; subst hcb₂; subst hidx₂
        have hmod := hagree (by norm_num)
        simp only [List.append_nil, List.nil_append, List.length_nil, Nat.add_zero]
        rw [getD_append_cons]
        have hf : (b &&& 12) >>> 2 = 2 :=
          (by decide : ∀ x < 256, ∀ c < 4, x % 16 = c ||| 8 → (x &&& 12) >>> 2 = 2) b hb cb hcb hmod
        simp [readShortInt, hf]
      · -- v = 4
        simp only [writeShortInt] at hw
        injection hw with hw; injection hw with hE hw; injection hw with hcb₂ hidx₂
        subst hE; subst hcb₂; subst hidx₂
        have hmod := hagree (by norm_num)
        simp only [List.append_nil, List.nil_append, List.length_nil, Nat.add_zero]
        rw [getD_append_cons]
        have hf : (b &&& 12) >>> 2 = 3 :=
          (by decide : ∀ x < 256, ∀ c < 4, x % 64 = c ||| 28 → (x &&& 12) >>> 2 = 3) b hb cb hcb hmod
        have hg : (b &&& 60) >>> 2 = 7 :=
          (by decide : ∀ x < 256, ∀ c < 4, x % 64 = c ||| 28 → (x &&& 60) >>> 2 = 7) b hb cb hcb hmod
        simp [readShortInt, hf, hg]
      · -- v = 5
        simp only [writeShortInt] at hw
        injection hw with hw; injection hw with hE hw; injection hw with hcb₂ hidx₂
        subst hE; subst hcb₂; subst hidx₂
        have hmod := hagree (by norm_num)
        simp only [List.append_nil, List.nil_append, List.length_nil, Nat.add_zero]
        rw [getD_append_cons]
        have hf : (b &&& 12) >>> 2 = 3 :=
          (by decide : ∀ x < 256, ∀ c < 4, x % 64 = c ||| 44 → (x &&& 12) >>> 2 = 3) b hb cb hcb hmod
        have hg : (b &&& 60) >>> 2 = 11 :=
          (by decide : ∀ x < 256, ∀ c < 4, x % 64 = c ||| 44 → (x &&& 60) >>> 2 = 11) b hb cb hcb hmod
        simp [readShortInt, hf, hg]
    · -- v ≥ 6, escape
      have h0 : ¬ v = 0 := by omega
      have h1 : ¬ v = 1 := by omega
      have h2 : ¬ v = 2 := by omega
      have h3 : ¬ v = 3 := by omega
      have h4 : ¬ v = 4 := by omega
      have h5 : ¬ v = 5 := by omega
      simp only [writeShortInt, h0, h1, h2, h3, h4, h5, beq_iff_eq, if_false, if_true] at hw
      injection hw with hw; injection hw with hE hw; injection hw with hcb₂ hidx₂
      subst hE; subst hcb₂; subst hidx₂
      have hget : (B ++ (cb ||| 60) :: writeInt v ++ b :: t).getD B.length 0 = cb ||| 60 := by
        rw [show B ++ (cb ||| 60) :: writeInt v ++ b :: t
            = B ++ ((cb ||| 60) :: (writeInt v ++ b :: t)) by simp]
        exact getD_append_cons B (writeInt v ++ b :: t) (cb ||| 60)
      rw [hget]
      have hf : ((cb ||| 60) &&& 12) >>> 2 = 3 :=
        (by decide : ∀ c < 4, ((c ||| 60) &&& 12) >>> 2 = 3) cb hcb
      have hg : ((cb ||| 60) &&& 60) >>> 2 = 15 :=
        (by decide : ∀ c < 4, ((c ||| 60) &&& 60) >>> 2 = 15) cb hcb
      rw [readShortInt_escape2 _ _ _ hf hg]
      rw [show B ++ (cb ||| 60) :: writeInt v = (B ++ [cb ||| 60]) ++ writeInt v by simp]
      rw [show B.length + 1 = (B ++ [cb ||| 60]).length by simp]
      rw [rdEscape v b hv (B ++ [cb ||| 60]) t]
      have hidxe : B.length + ((cb ||| 60) :: writeInt v).length
          = ((B ++ [cb ||| 60]) ++ writeInt v).length := by
        simp
      rw [hidxe, getD_append_cons]
      simp
      omega
  · -- idx = 4
    rcases Nat.lt_or_ge v 6 with h6 | h6
    · interval_cases v
      · -- v = 0
        simp only [writeShortInt] at hw
        injection hw with hw; injection hw with hE hw; injection hw with hcb₂ hidx₂
        subst hE; subst hcb₂; subst hidx₂
        have hmod := hagree (by norm_num)
        simp only [List.append_nil, List.nil_append, List.length_nil, Nat.add_zero]
        rw [getD_append_cons]
        have hf : (b &&& 48) >>> 4 = 0 :=
          (by decide : ∀ x < 256, ∀ c < 16, x % 64 = c → (x &&& 48) >>> 4 = 0) b hb cb hcb hmod
        simp [readShortInt, hf]
      · -- v = 1
        simp only [writeShortInt] at hw
        injection hw with hw; injection hw with hE hw; injection hw with hcb₂ hidx₂
        subst hE; subst hcb₂; subst hidx₂
        have hget : ((B ++ [cb ||| 48]) ++ b :: t).getD B.length 0 = cb ||| 48 := by
          rw [show (B ++ [cb ||| 48]) ++ b :: t = B ++ ((cb ||| 48) :: (b :: t)) by simp]
          exact getD_append_cons B (b :: t) (cb ||| 48)
        rw [hget]
        have hf : ((cb ||| 48) &&& 48) >>> 4 = 3 :=
          (by decide : ∀ c < 16, ((c ||| 48) &&& 48) >>> 4 = 3) cb hcb
        have hg : ((cb ||| 48) &&& 240) >>> 4 = 3 :=
          (by decide : ∀ c < 16, ((c ||| 48) &&& 240) >>> 4 = 3) cb hcb
        have hred : ∀ s p, readShortInt s p (cb ||| 48) 4 =
            (do
              let (b2, p1) ← rdByte s p
              Except.ok (1, p1, b2, (0 : Nat))) := by
          intro s p
          simp [readShortInt, hf, hg]
        rw [hred]
        rw [show B.length + 1 = (B ++ [cb ||| 48]).length by simp]
        rw [rdByte_ok _ _ (by simp), except_ok_bind, getD_append_cons]
        have hrhs : ((B ++ [cb ||| 48]) ++ b :: t).getD (B.length + [cb ||| 48].length) 0 = b := by
          rw [show B.length + [cb ||| 48].length = (B ++ [cb ||| 48]).length by simp]
          exact getD_append_cons _ t b
        rw [hrhs]
        simp
      · -- v = 2
        simp only [writeShortInt] at hw
        injection hw with hw; injection hw with hE hw; injection hw with hcb₂ hidx₂
        subst hE; subst hcb₂; subst hidx₂
        have hmod := hagree (by norm_num)
        simp only [List.append_nil, List.nil_append, List.length_nil, Nat.add_zero]
        rw [getD_append_cons]
        have hf : (b &&& 48) >>> 4 = 1 :=
          (by decide : ∀ x < 256, ∀ c < 16, x % 64 = c ||| 16 → (x &&& 48) >>> 4 = 1) b hb cb hcb hmod
        simp [readShortInt, hf]
      · -- v = 3
        simp only [writeShortInt] at hw
        injection hw with hw; injection hw with hE hw; injection hw with hcb₂ hidx₂
        subst hE; subst hcb₂; subst hidx₂
        have hmod := hagree (by norm_num)
        simp only [List.append_nil, List.nil_append, List.length_nil, Nat.add_zero]
        rw [getD_append_cons]
        have hf : (b &&& 48) >>> 4 = 2 :=
          (by decide : ∀ x < 256, ∀ c < 16, x % 64 = c ||| 32 → (x &&& 48) >>> 4 = 2) b hb cb hcb hmod
        simp [readShortInt, hf]
      · -- v = 4
        simp only [writeShortInt] at hw
        injection hw with hw; injection hw with hE hw; injection hw with hcb₂ hidx₂
        subst hE; subst hcb₂; subst hidx₂
        have hget : ((B ++ [cb ||| 112]) ++ b :: t).getD B.length 0 = cb ||| 112 := by
          rw [show (B ++ [cb ||| 112]) ++ b :: t = B ++ ((cb ||| 112) :: (b :: t)) by simp]
          exact getD_append_cons B (b :: t) (cb ||| 112)
        rw [hget]
        have hf : ((cb ||| 112) &&& 48) >>> 4 = 3 :=
          (by decide : ∀ c < 16, ((c ||| 112) &&& 48) >>> 4 = 3) cb hcb
        have hg : ((cb ||| 112) &&& 240) >>> 4 = 7 :=
          (by decide : ∀ c < 16, ((c ||| 112) &&& 240) >>> 4 = 7) cb hcb
        have hred : ∀ s p, readShortInt s p (cb ||| 112) 4 =
            (do
              let (b2, p1) ← rdByte s p
              Except.ok (4, p1, b2, (0 : Nat))) := by
          intro s p
          simp [readShortInt, hf, hg]
        rw [hred]
        rw [show B.length + 1 = (B ++ [cb ||| 112]).length by simp]
        rw [rdByte_ok _ _ (by simp), except_ok_bind, getD_append_cons]
        have hrhs : ((B ++ [cb ||| 112]) ++ b :: t).getD (B.length + [cb ||| 112].length) 0 = b := by
          rw [show B.length + [cb ||| 112].length = (B ++ [cb ||| 112]).length by simp]
          exact getD_append_cons _ t b
        rw [hrhs]
        simp
      · -- v = 5
        simp only [writeShortInt] at hw
        injection hw with hw; injection hw with hE hw; injection hw with hcb₂ hidx₂
        subst hE; subst hcb₂; subst hidx₂
        have hget : ((B ++ [cb ||| 176]) ++ b :: t).getD B.length 0 = cb ||| 176 := by
          rw [show (B ++ [cb ||| 176]) ++ b :: t = B ++ ((cb ||| 176) :: (b :: t)) by simp]
          exact getD_append_cons B (b :: t) (cb ||| 176)
        rw [hget]
        have hf : ((cb ||| 176) &&& 48) >>> 4 = 3 :=
          (by decide : ∀ c < 16, ((c ||| 176) &&& 48) >>> 4 = 3) cb hcb
        have hg : ((cb ||| 176) &&& 240) >>> 4 = 11 :=
          (by decide : ∀ c < 16, ((c ||| 176) &&& 240) >>> 4 = 11) cb hcb
        have hred : ∀ s p, readShortInt s p (cb ||| 176) 4 =
            (do
              let (b2, p1) ← rdByte s p
              Except.ok (5, p1, b2, (0 : Nat))) := by
          intro s p
          simp [readShortInt, hf, hg]
        rw [hred]
        rw [show B.length + 1 = (B ++ [cb ||| 176]).length by simp]
        rw [rdByte_ok _ _ (by simp), except_ok_bind, getD_append_cons]
        have hrhs : ((B ++ [cb ||| 176]) ++ b :: t).getD (B.length + [cb ||| 176].length) 0 = b := by
          rw [show B.length + [cb ||| 176].length = (B ++ [cb ||| 176]).length by simp]
          exact getD_append_cons _ t b
        rw [hrhs]
        simp
    · -- v ≥ 6, escape
      have h0 : ¬ v = 0 := by omega
      have h1 : ¬ v = 1 := by omega
      have h2 : ¬ v = 2 := by omega
      have h3 : ¬ v = 3 := by omega
      have h4 : ¬ v = 4 := by omega
      have h5 : ¬ v = 5 := by omega
      simp only [writeShortInt, h0, h1, h2, h3, h4, h5, beq_iff_eq, if_false, if_true] at hw
      injection hw with hw; injection hw with hE hw; injection hw with hcb₂ hidx₂
      subst hE; subst hcb₂; subst hidx₂
      have hget : (B ++ (cb ||| 240) :: writeInt v ++ b :: t).getD B.length 0 = cb ||| 240 := by
        rw [show B ++ (cb ||| 240) :: writeInt v ++ b :: t
            = B ++ ((cb ||| 240) :: (writeInt v ++ b :: t)) by simp]
        exact getD_append_cons B (writeInt v ++ b :: t) (cb ||| 240)
      rw [hget]
      have hf : ((cb ||| 240) &&& 48) >>> 4 = 3 :=
        (by decide : ∀ c < 16, ((c ||| 240) &&& 48) >>> 4 = 3) cb hcb
      have hg : ((cb ||| 240) &&& 240) >>> 4 = 15 :=
        (by decide : ∀ c < 16, ((c ||| 240) &&& 240) >>> 4 = 15) cb hcb
      rw [readShortInt_escape4 _ _ _ hf hg]
      rw [show B ++ (cb ||| 240) :: writeInt v = (B ++ [cb ||| 240]) ++ writeInt v by simp]
      rw [show B.length + 1 = (B ++ [cb ||| 240]).length by simp]
      rw [rdEscape v b hv (B ++ [cb ||| 240]) t]
      have hidxe : B.length + ((cb ||| 240) :: writeInt v).length
          = ((B ++ [cb ||| 240]) ++ writeInt v).length := by
        simp
      rw [hidxe, getD_append_cons]
      simp
      omega
  · -- idx = 6
    rcases Nat.lt_or_ge v 6 with h6 | h6
    · interval_cases v
      · -- v = 0
        simp only [writeShortInt] at hw
        injection hw with hw; injection hw with hE hw; injection hw with hcb₂ hidx₂
        subst hE; subst hcb₂; subst hidx₂
        simp only [List.cons_append, List.append_assoc, List.singleton_append,
          List.nil_append, List.length_cons, List.length_nil]
        have ht : ((cb) &&& 192) >>> 6 = 0 :=
          (by decide : ∀ c < 64, ((c) &&& 192) >>> 6 = 0) cb hcb
        have hget : (B ++ (cb) :: b :: t).getD B.length 0 = cb :=
          getD_append_cons B (b :: t) (cb)
        have hbyte : rdByte (B ++ (cb) :: b :: t) (B.length + 1) = .ok (b, B.length + 2) :=
          rdByte_cons1 B t (cb) b
        rw [hget, getD_cons1]
        simp [readShortInt, ht, hbyte, except_ok_bind]
      · -- v = 1
        simp only [writeShortInt] at hw
        injection hw with hw; injection hw with hE hw; injection hw with hcb₂ hidx₂
        subst hE; subst hcb₂; subst hidx₂
        have hmod := hagree (by norm_num)
        simp only [List.cons_append, List.append_assoc, List.singleton_append,
          List.nil_append, List.length_cons, List.length_nil]
        have ht : ((cb ||| 192) &&& 192) >>> 6 = 3 :=
          (by decide : ∀ c < 64, ((c ||| 192) &&& 192) >>> 6 = 3) cb hcb
        have hb3 : b &&& 3 = 0 := by
          rw [show (3 : Nat) = 2 ^ 2 - 1 from rfl, land_mask]
          omega
        have hget : (B ++ (cb ||| 192) :: b :: t).getD B.length 0 = cb ||| 192 :=
          getD_append_cons B (b :: t) (cb ||| 192)
        have hbyte : rdByte (B ++ (cb ||| 192) :: b :: t) (B.length + 1)
            = .ok (b, B.length + 2) :=
          rdByte_cons1 B t (cb ||| 192) b
        rw [hget, getD_cons1]
        simp [readShortInt, ht, hbyte, except_ok_bind, hb3]
      · -- v = 2
        simp only [writeShortInt] at hw
        injection hw with hw; injection hw with hE hw; injection hw with hcb₂ hidx₂
        subst hE; subst hcb₂; subst hidx₂
        simp only [List.cons_append, List.append_assoc, List.singleton_append,
          List.nil_append, List.length_cons, List.length_nil]
        have ht : ((cb ||| 64) &&& 192) >>> 6 = 1 :=
          (by decide : ∀ c < 64, ((c ||| 64) &&& 192) >>> 6 = 1) cb hcb
        have hget : (B ++ (cb ||| 64) :: b :: t).getD B.length 0 = cb ||| 64 :=
          getD_append_cons B (b :: t) (cb ||| 64)
        have hbyte : rdByte (B ++ (cb ||| 64) :: b :: t) (B.length + 1) = .ok (b, B.length + 2) :=
          rdByte_cons1 B t (cb ||| 64) b
        rw [hget, getD_cons1]
        simp [readShortInt, ht, hbyte, except_ok_bind]
      · -- v = 3
        simp only [writeShortInt] at hw
        injection hw with hw; injection hw with hE hw; injection hw with hcb₂ hidx₂
        subst hE; subst hcb₂; subst hidx₂
        simp only [List.cons_append, List.append_assoc, List.singleton_append,
          List.nil_append, List.length_cons, List.length_nil]
        have ht : ((cb ||| 128) &&& 192) >>> 6 = 2 :=
          (by decide : ∀ c < 64, ((c ||| 128) &&& 192) >>> 6 = 2) cb hcb
        have hget : (B ++ (cb ||| 128) :: b :: t).getD B.length 0 = cb ||| 128 :=
          getD_append_cons B (b :: t) (cb ||| 128)
        have hbyte : rdByte (B ++ (cb ||| 128) :: b :: t) (B.length + 1) = .ok (b, B.length + 2) :=
          rdByte_cons1 B t (cb ||| 128) b
        rw [hget, getD_cons1]
        simp [readShortInt, ht, hbyte, except_ok_bind]
      · -- v = 4
        simp only [writeShortInt] at hw
        injection hw with hw; injection hw with hE hw; injection hw with hcb₂ hidx₂
        subst hE; subst hcb₂; subst hidx₂
        have hmod := hagree (by norm_num)
        simp only [List.cons_append, List.append_assoc, List.singleton_append,
          List.nil_append, List.length_cons, List.length_nil]
        have ht : ((cb ||| 192) &&& 192) >>> 6 = 3 :=
          (by decide : ∀ c < 64, ((c ||| 192) &&& 192) >>> 6 = 3) cb hcb
        have hb3 : b &&& 3 = 1 := by
          rw [show (3 : Nat) = 2 ^ 2 - 1 from rfl, land_mask]
          omega
        have hget : (B ++ (cb ||| 192) :: b :: t).getD B.length 0 = cb ||| 192 :=
          getD_append_cons B (b :: t) (cb ||| 192)
        have hbyte : rdByte (B ++ (cb ||| 192) :: b :: t) (B.length + 1)
            = .ok (b, B.length + 2) :=
          rdByte_cons1 B t (cb ||| 192) b
        rw [hget, getD_cons1]
        simp [readShortInt, ht, hbyte, except_ok_bind, hb3]
      · -- v = 5
        simp only [writeShortInt] at hw
        injection hw with hw; injection hw with hE hw; injection hw with hcb₂ hidx₂
        subst hE; subst hcb₂; subst hidx₂
        have hmod := hagree (by norm_num)
        simp only [List.cons_append, List.append_assoc, List.singleton_append,
          List.nil_append, List.length_cons, List.length_nil]
        have ht : ((cb ||| 192) &&& 192) >>> 6 = 3 :=
          (by decide : ∀ c < 64, ((c ||| 192) &&& 192) >>> 6 = 3) cb hcb
        have hb3 : b &&& 3 = 2 := by
          rw [show (3 : Nat) = 2 ^ 2 - 1 from rfl, land_mask]
          omega
        have hget : (B ++ (cb ||| 192) :: b :: t).getD B.length 0 = cb ||| 192 :=
          getD_append_cons B (b :: t) (cb ||| 192)
        have hbyte : rdByte (B ++ (cb ||| 192) :: b :: t) (B.length + 1)
            = .ok (b, B.length + 2) :=
          rdByte_cons1 B t (cb ||| 192) b
        rw [hget, getD_cons1]
        simp [readShortInt, ht, hbyte, except_ok_bind, hb3]
    · -- v ≥ 6, escape
      have h0 : ¬ v = 0 := by omega
      have h1 : ¬ v = 1 := by omega
      have h2 : ¬ v = 2 := by omega
      have h3 : ¬ v = 3 := by omega
      have h4 : ¬ v = 4 := by omega
      have h5 : ¬ v = 5 := by omega
      simp only [writeShortInt, h0, h1, h2, h3, h4, h5, beq_iff_eq, if_false, if_true] at hw
      injection hw with hw; injection hw with hE hw; injection hw with hcb₂ hidx₂
      subst hE; subst hcb₂; subst hidx₂
      simp only [List.cons_append, List.append_assoc, List.singleton_append,
        List.nil_append, List.length_cons, List.length_nil]
      have ht : ((cb ||| 192) &&& 192) >>> 6 = 3 :=
        (by decide : ∀ c < 64, ((c ||| 192) &&& 192) >>> 6 = 3) cb hcb
      have hget : (B ++ (cb ||| 192) :: 3 :: (writeInt v ++ b :: t)).getD B.length 0
          = cb ||| 192 :=
        getD_append_cons B (3 :: (writeInt v ++ b :: t)) (cb ||| 192)
      have hbyte : rdByte (B ++ (cb ||| 192) :: 3 :: (writeInt v ++ b :: t)) (B.length + 1)
          = .ok (3, B.length + 2) :=
        rdByte_cons1 B (writeInt v ++ b :: t) (cb ||| 192) 3
      rw [hget]
      have hesc : readShortInt (B ++ (cb ||| 192) :: 3 :: (writeInt v ++ b :: t))
          (B.length + 1) (cb ||| 192) 6 =
          (do
            let (tbr, p2) ← rdInt (B ++ (cb ||| 192) :: 3 :: (writeInt v ++ b :: t))
              (B.length + 2)
            let (b3, p3) ← rdByte (B ++ (cb ||| 192) :: 3 :: (writeInt v ++ b :: t)) p2
            Except.ok (tbr, p3, b3, (0 : Nat))) := by
        simp [readShortInt, ht, hbyte, except_ok_bind]
      rw [hesc]
      rw [show B ++ (cb ||| 192) :: 3 :: (writeInt v ++ b :: t)
          = (B ++ [cb ||| 192, 3]) ++ writeInt v ++ b :: t by simp]
      rw [show B.length + 2 = (B ++ [cb ||| 192, 3]).length by simp]
      rw [rdEscape v b hv (B ++ [cb ||| 192, 3]) t]
      have hidxe : B.length + ((writeInt v).length + 1 + 1)
          = ((B ++ [cb ||| 192, 3]) ++ writeInt v).length := by
        simp
      rw [show (B ++ [cb ||| 192, 3]) ++ writeInt v ++ b :: t
          = ((B ++ [cb ||| 192, 3]) ++ writeInt v) ++ b :: t from rfl]
      rw [hidxe, getD_append_cons]
      simp
      omega
theorem readShortInts_go_sim (vals : List Nat) :
    ∀ B cb idx bs cb1 idx1 rest,
    idxOK idx → cb < 2 ^ idx → (∀ v ∈ vals, v < 2 ^ 31) →
    writeShortInts_go vals cb idx = .ok (bs, cb1, idx1) →
    rest ≠ [] → (∀ x ∈ rest, x < 256) →
    readShortInts_go (B ++ bs ++ (if idx1 ≠ 0 then [cb1] else []) ++ rest) vals.length
        (B.length + 1)
        ((B ++ bs ++ (if idx1 ≠ 0 then [cb1] else []) ++ rest).getD B.length 0) idx
      = .ok (vals, B.length + bs.length + 1, idx1) := by
  induction vals with
  | nil =>
    intro B cb idx bs cb1 idx1 rest hidx hcb _ hgo hr hrb
    simp only [writeShortInts_go] at hgo
    injection hgo with hgo
    injection hgo with hbs hgo
    injection hgo with hcb1 hidx1
    subst hbs; subst hcb1; subst hidx1
    simp [readShortInts_go]
  | cons v vs ih =>
    intro B cb idx bs cb1 idx1 rest hidx hcb hv hgo hr hrb
    obtain ⟨E, cb₂, idx₂, hw, hidx₂, hcb₂, hEb, hEnil, hEhead⟩ :=
      writeShortInt_spec v cb idx hidx (by omega)
    obtain ⟨bs', cb1', idx1', hgo', hidx1', hcb1', hbs', hhead'⟩ :=
      writeShortInts_go_spec vs cb₂ idx₂ hidx₂ hcb₂
    simp only [writeShortInts_go, hw, except_ok_bind, hgo'] at hgo
    injection hgo with hgo
    injection hgo with hbs hgo
    injection hgo with hcb1 hidx1
    subst hbs; subst hcb1; subst hidx1
    -- find the head of the remaining stream
    have htail : ∃ b t, (bs' ++ (if idx1' ≠ 0 then [cb1'] else [])) ++ rest = b :: t ∧
        b < 256 ∧ (idx₂ ≠ 0 → b % 2 ^ idx₂ = cb₂) := by
      by_cases hz : idx₂ = 0
      · subst hz
        cases hF : bs' ++ (if idx1' ≠ 0 then [cb1'] else []) with
        | nil =>
          cases rest with
          | nil => exact absurd rfl hr
          | cons r t => exact ⟨r, t, by simp [hF], hrb r (by simp), by simp⟩
        | cons x xs =>
          refine ⟨x, xs ++ rest, by simp [hF], ?_, by simp⟩
          have hx : x ∈ bs' ++ (if idx1' ≠ 0 then [cb1'] else []) := by
            rw [hF]; simp
          rcases List.mem_append.mp hx with h | h
          · exact hbs' x h
          · rcases hidx1' with h1 | h1 | h1 | h1 <;> subst h1 <;> simp at h <;> omega
      · obtain ⟨b, t0, hbt, hbmod⟩ := hhead' hz
        refine ⟨b, t0 ++ rest, by rw [hbt]; simp, ?_, fun _ => hbmod⟩
        have hx : b ∈ bs' ++ (if idx1' ≠ 0 then [cb1'] else []) := by
          rw [hbt]; simp
        rcases List.mem_append.mp hx with h | h
        · exact hbs' b h
        · rcases hidx1' with h1 | h1 | h1 | h1 <;> subst h1 <;> simp at h <;> omega
    obtain ⟨b, t, hbt, hblt, hbmod⟩ := htail
    -- rewrite the stream in the (B ++ E) ++ b :: t shape
    have hS : B ++ (E ++ bs') ++ (if idx1' ≠ 0 then [cb1'] else []) ++ rest
        = (B ++ E) ++ b :: t := by
      rw [← hbt]
      simp
    have hstep := readShortInt_sim v cb idx E cb₂ idx₂ B t b hidx (by omega)
      (hv v (by simp)) hblt hw hbmod
    rw [← hS] at hstep
    have hrec := ih (B ++ E) cb₂ idx₂ bs' cb1' idx1' rest hidx₂ hcb₂
      (fun x hx => hv x (by simp [hx])) hgo' hr hrb
    have hSrec : (B ++ E) ++ bs' ++ (if idx1' ≠ 0 then [cb1'] else []) ++ rest
        = B ++ (E ++ bs') ++ (if idx1' ≠ 0 then [cb1'] else []) ++ rest := by
      simp
    rw [hSrec] at hrec
    rw [show (B ++ E).length = B.length + E.length by simp] at hrec
    simp only [List.length_cons, readShortInts_go]
    rw [hstep, except_ok_bind, hrec, except_ok_bind]
    simp
    omega
/-- **Claim C2.**  For every sequence of child counts, writing them with the
bit-packed short-int writer (`writeShortInt`, with the final partial-byte
flush) and then reading the same number of values back with the short-int
reader (`readShortInt`, with the initial byte read and the final rewind rule)
recovers exactly the original sequence; moreover the reader's final stream
position equals the number of bytes written — when the last value ends
exactly on a byte boundary (cursor 0 after the last value) this is because
the reader rewinds the speculatively read byte.  `rest` is the data following
the bitstream in the file (the reader may speculatively read its first
byte). -/
theorem claim_C2 (vals rest : List Nat)
    (hv : ∀ v ∈ vals, v < 2 ^ 31) (hr : rest ≠ []) (hrb : ∀ x ∈ rest, x < 256) :
    ∃ bs, writeShortInts vals = .ok bs ∧
      readShortInts (bs ++ rest) vals.length 0 = .ok (vals, bs.length) := by
  obtain ⟨bs0, cb1, idx1, hgo, hidx1, hcb1, hbs0, _⟩ :=
    writeShortInts_go_spec vals 0 0 (Or.inl rfl) (by norm_num)
  refine ⟨bs0 ++ (if idx1 ≠ 0 then [cb1] else []), ?_, ?_⟩
  · simp only [writeShortInts, hgo, except_ok_bind]
  · have hsim := readShortInts_go_sim vals [] 0 0 bs0 cb1 idx1 rest (Or.inl rfl)
      (by norm_num) hv hgo hr hrb
    simp only [List.nil_append, List.length_nil, Nat.zero_add] at hsim
    have hlen : 0 < ((bs0 ++ (if idx1 ≠ 0 then [cb1] else [])) ++ rest).length := by
      rcases rest with _ | ⟨r, t⟩
      · exact absurd rfl hr
      · simp
    simp only [readShortInts]
    rw [rdByte_ok _ _ hlen, except_ok_bind]
    rw [show (bs0 ++ (if idx1 ≠ 0 then [cb1] else [])) ++ rest
        = bs0 ++ (if idx1 ≠ 0 then [cb1] else []) ++ rest from rfl] at hsim ⊢
    rw [hsim, except_ok_bind]
    by_cases hz : idx1 = 0
    · subst hz
      simp
    · rcases hidx1 with h1 | h1 | h1 | h1 <;> subst h1
      · exact absurd rfl hz
      all_goals simp [hz]
/-- Witness for C2 at the sequence `{0,1,2,3,4,5,6,1000}` from the
specification (10 bytes are written; the last value ends on a byte boundary,
so the rewind rule fires and the reader consumes exactly the 10 bytes). -/
theorem claim_C2_witness :
    (∃ bs, writeShortInts [0, 1, 2, 3, 4, 5, 6, 1000] = .ok bs ∧
      readShortInts (bs ++ [0]) ([0, 1, 2, 3, 4, 5, 6, 1000] : List Nat).length 0
        = .ok ([0, 1, 2, 3, 4, 5, 6, 1000], bs.length)) ∧
    writeShortInts [0, 1, 2, 3, 4, 5, 6, 1000]
      = .ok [76, 222, 62, 6, 15, 254, 232, 3, 0, 0] :=
  ⟨claim_C2 [0, 1, 2, 3, 4, 5, 6, 1000] [0] (by decide) (by decide) (by decide), by decide⟩
/-! ## Data model (common.h)

`phylo` is parametrised over the type `D` modelling a C++ `double`: the
binary codec instantiates `D := Nat` (the raw 64-bit IEEE-754 pattern,
read and written as 8 raw bytes), the text codecs instantiate `D := RD`
(an exact rational or NaN). -/

/-- `std::variant<std::vector<std::string>, std::vector<double>>`. -/
inductive AttrVec (D : Type) where
  | svec (l : List String)
  | dvec (l : List D)
deriving DecidableEq, Repr

/-- A per-node `std::variant<std::string, double>` value. -/
inductive AV (D : Type) where
  | s (v : String)
  | d (x : D)
deriving DecidableEq, Repr

/-- `struct Attribute`. -/
structure Attribute where
  AttributeName : String
  IsNumeric : Bool
deriving DecidableEq, Repr

/-- `struct phylo` (node ids in `edge` are 1-based as supplied by R on the
writing side; the binary reader produces 0-based ids which the out-of-scope
marshalling layer converts). -/
structure phylo (D : Type) where
  Nnode : Nat
  rootEdge : D
  edge : List (List Nat)
  tipLabel : List String
  nodeLabel : List String
  edgeLength : List D
  tipAttributes : List (AttrVec D)
  nodeAttributes : List (AttrVec D)
  attributes : List Attribute
  hasEdgeLength : Bool
  hasNodeLabel : Bool
deriving DecidableEq, Repr

/-- `struct multiPhylo`. -/
structure multiPhylo (D : Type) where
  trees : List (phylo D)
  treeNames : List String
deriving DecidableEq, Repr

/-- Standard attribute names (common.h). -/
def LENGTHATTRIBUTE : String := "length"

def SUPPORTATTRIBUTE : String := "support"

def NAMEATTRIBUTE : String := "name"

def TREENAMEATTRIBUTE : String := "treename"

/-- `equalCI` (common.cpp): case-insensitive string comparison via
`std::toupper` on each character pair. -/
def equalCI (str1 str2 : String) : Bool :=
  str1.length == str2.length &&
    (List.zip str1.data str2.data).all fun p => p.1 == p.2 || p.1.toUpper == p.2.toUpper

/-- `attributeIndex` (common.cpp): index of the first attribute whose name
matches case-insensitively and whose numeric-ness matches; `-1` if none. -/
def attributeIndex (attributes : List Attribute) (attr : Attribute) : Int :=
  match attributes.findIdx? (fun a =>
      equalCI a.AttributeName attr.AttributeName && a.IsNumeric == attr.IsNumeric) with
  | some i => (i : Int)
  | none => -1

/-! ## Doubles as raw IEEE-754 bit patterns (binary codec) -/

/-- The bit pattern produced by `std::nan("")` (quiet NaN). -/
def nanC : Nat := 0x7FF8000000000000

/-- `std::isnan` on a raw 64-bit pattern: exponent all ones, mantissa
non-zero. -/
def isnanBits (b : Nat) : Bool :=
  ((b >>> 52) &&& 2047) == 2047 && (b &&& (2 ^ 52 - 1)) != 0

/-- `writeDouble`: the 8 raw (little-endian) bytes of the pattern. -/
def writeDouble (value : Nat) : List Nat :=
  (List.range 8).map fun i => (value >>> (8 * i)) &&& 255

/-- `readDouble`: 8 raw bytes back into the pattern. -/
def rdDouble (s : List Nat) (p : Nat) : Except String (Nat × Nat) := do
  let (bs, p1) ← rdBytes s p 8
  .ok (bs.foldr (fun b acc => acc * 256 + b) 0, p1)

/-- `writeMyString`: a variable-width integer length, then one
variable-width integer per character code. -/
def writeMyString (val : String) : List Nat :=
  writeInt val.length ++ (val.data.map fun c => writeInt c.toNat).flatten

/-- Character-reading loop of `readMyString`. -/
def rdChars (s : List Nat) (p : Nat) : Nat → Except String (List Char × Nat)
  | 0 => .ok ([], p)
  | n + 1 => do
      let (c, p1) ← rdInt s p
      let (cs, p2) ← rdChars s p1 n
      .ok (Char.ofNat c :: cs, p2)

/-- `readMyString`. -/
def rdMyString (s : List Nat) (p : Nat) : Except String (String × Nat) := do
  let (len, p1) ← rdInt s p
  let (cs, p2) ← rdChars s p1 len
  .ok (String.mk cs, p2)

/-! ## Canonical traversal (`addChildren`, common.cpp) -/

/-- The mutable state of `addChildren`: the sorted parent/children/node
arrays (preallocated to the node count) and the running index. -/
structure SortState where
  sortedParents : List Int
  sortedChildren : List (List Nat)
  sortedNodes : List Nat
  currIndex : Nat
deriving Repr

/-- `addChildren` (common.cpp): depth-first walk from the root, children in
adjacency order, filling the sorted arrays.  Returns the DFS index given to
`currNonSortedIndex`.  `fuel` bounds the recursion depth (the C++ version
recurses on the, assumed acyclic, child structure). -/
def addChildren (children : List (List Nat)) :
    Nat → SortState → Nat → Int → Except String (SortState × Nat)
  | 0, _, _, _ => .error "out of fuel"
  | fuel + 1, st, currNonSortedIndex, currSortedParent => do
      let myIndex := st.currIndex
      let st := { st with
        sortedParents := st.sortedParents.set myIndex currSortedParent,
        sortedNodes := st.sortedNodes.set myIndex currNonSortedIndex,
        currIndex := st.currIndex + 1 }
      let kids := children.getD currNonSortedIndex []
      let st ← kids.foldlM (fun st child => do
        let (st, childInd) ← addChildren children fuel st child (myIndex : Int)
        .ok { st with
          sortedChildren := st.sortedChildren.set myIndex
            (st.sortedChildren.getD myIndex [] ++ [childInd]) }) st
      .ok (st, myIndex)
/-! ## Binary writer (write_binary_tree.cpp) -/

/-- `std::get<std::vector<std::string>>` on an attribute-value vector
(throws `bad_variant_access` on the wrong alternative). -/
def AttrVec.strs {D : Type} : AttrVec D → Except String (List String)
  | .svec l => .ok l
  | .dvec _ => .error "bad variant access"

/-- `std::get<std::vector<double>>` on an attribute-value vector. -/
def AttrVec.nums {D : Type} : AttrVec D → Except String (List D)
  | .dvec l => .ok l
  | .svec _ => .error "bad variant access"

/-- `std::get<std::string>` on a per-node value. -/
def AV.str {D : Type} : AV D → Except String String
  | .s v => .ok v
  | .d _ => .error "bad variant access"

/-- `std::get<double>` on a per-node value. -/
def AV.num {D : Type} : AV D → Except String D
  | .d x => .ok x
  | .s _ => .error "bad variant access"

/-- The attribute byte block written by `writeBinaryTree` for one node
(lines 377-532).  `vecs` is `tipAttributes` or `nodeAttributes`, `elemIdx`
the index of this node within them, and `nameIndexOffset` the offset added
to a shared-name-table index (`+ 1` on the tip branch, `0` on the internal
branch).  The `std::map` keyed by `Attribute` under `AttributeLess`
(which compares only the names) is an association list from attribute name
to insertion index. -/
def writeAttrValues (vecs : List (AttrVec Nat)) (elemIdx : Nat) (globalNames : Bool)
    (names : List String) (attributesMap : List (String × Nat))
    (rev : List Attribute) (nameIndexOffset : Nat) : Except String (List Nat) := do
  let present ← (List.range rev.length).mapM fun j => do
    let a := rev.getD j ⟨"", false⟩
    let v ← match vecs.get? j with
      | some vec => Except.ok vec
      | none => Except.error "attribute vector out of range"
    if a.IsNumeric then do
      let l ← v.nums
      match l.get? elemIdx with
      | some value => Except.ok (!isnanBits value)
      | none => Except.error "attribute value out of range"
    else do
      let l ← v.strs
      match l.get? elemIdx with
      | some value => Except.ok (value ≠ "")
      | none => Except.error "attribute value out of range"
  let currAttributeCount := (present.filter id).length
  let valueBytes ← (List.range rev.length).mapM fun j => do
    let a := rev.getD j ⟨"", false⟩
    let v ← match vecs.get? j with
      | some vec => Except.ok vec
      | none => Except.error "attribute vector out of range"
    -- `(*attributes)[attr]`; every member of `rev` is a key of the map
    let index := match attributesMap.find? (fun kv => kv.1 == a.AttributeName) with
      | some kv => kv.2
      | none => 0
    if !a.IsNumeric && equalCI a.AttributeName NAMEATTRIBUTE && globalNames then do
      let l ← v.strs
      let value := l.getD elemIdx ""
      if value ≠ "" then
        Except.ok (writeInt index ++
          (match names.findIdx? (fun nm => nm == value) with
           | some k => writeInt (k + nameIndexOffset)
           | none => 255 :: writeMyString value))
      else Except.ok []
    else if a.IsNumeric then do
      let l ← v.nums
      let value := l.getD elemIdx nanC
      if !isnanBits value then Except.ok (writeInt index ++ writeDouble value)
      else Except.ok []
    else do
      let l ← v.strs
      let value := l.getD elemIdx ""
      if value ≠ "" then Except.ok (writeInt index ++ writeMyString value)
      else Except.ok []
  Except.ok (writeInt currAttributeCount ++ valueBytes.flatten)

/-- `writeBinaryTree`: one tree record.  With `globalAttributes` a single
zero byte stands in for the local attribute table; with local tables the
table is deduplicated from the tree's own attribute list. -/
def writeBinaryTree (fuel : Nat) (tree : phylo Nat) (globalNames : Bool)
    (globalAttributes : Bool) (names : List String)
    (attributesMapIn : List (String × Nat)) (attributesLookupReverseIn : List Attribute) :
    Except String (List Nat) := do
  let (attributesMap, attributesLookupReverse, tableBytes) :=
    if !globalAttributes then
      let mr := tree.attributes.foldl
        (fun (acc : List (String × Nat) × List Attribute) a =>
          if acc.1.any (fun kv => kv.1 == a.AttributeName) then acc
          else (acc.1 ++ [(a.AttributeName, acc.1.length)], acc.2 ++ [a]))
        ([], [])
      (mr.1, mr.2,
        writeInt mr.2.length ++
          (mr.2.map fun a =>
            writeMyString a.AttributeName ++ writeInt (if a.IsNumeric then 2 else 1)).flatten)
    else (attributesMapIn, attributesLookupReverseIn, [0])
  let n := tree.Nnode + tree.tipLabel.length
  let cp := tree.edge.foldl
    (fun (acc : List (List Nat) × List Nat) e =>
      (acc.1.set (e.getD 0 0) (acc.1.getD (e.getD 0 0) [] ++ [e.getD 1 0]),
       acc.2.set (e.getD 1 0) (e.getD 0 0)))
    (List.replicate (n + 1) [], List.replicate (n + 1) 0)
  let children := cp.1
  let parents := cp.2
  let rootNode ← match ((List.range (n + 1)).drop 1).find? (fun i => parents.getD i 1 == 0) with
    | some i => Except.ok i
    | none => Except.error "no root found"
  let st0 : SortState :=
    { sortedParents := List.replicate n 0,
      sortedChildren := List.replicate n [],
      sortedNodes := List.replicate n 0,
      currIndex := 0 }
  let (st, _) ← addChildren children fuel st0 rootNode (-1)
  let shortBytes ← writeShortInts (st.sortedChildren.map List.length)
  let tipCount := tree.tipLabel.length
  let nodeBytes ← (List.range st.sortedParents.length).mapM fun i => do
    let node := st.sortedNodes.getD i 0
    if node ≤ tipCount then
      writeAttrValues tree.tipAttributes (node - 1) globalNames names
        attributesMap attributesLookupReverse 1
    else
      writeAttrValues tree.nodeAttributes (node - tipCount - 1) globalNames names
        attributesMap attributesLookupReverse 0
  Except.ok (tableBytes ++ shortBytes ++ nodeBytes.flatten)
/-- One tree's contribution to the deduplication scan of `writeBinaryTrees`
(lines 552-557): the index of the non-numeric "Name" attribute (last
case-sensitive match, `-1` when absent). -/
def scanNameIndex (tree : phylo Nat) : Int :=
  (tree.attributes.foldl (fun (acc : Int × Nat) a =>
      (if equalCI a.AttributeName NAMEATTRIBUTE && !a.IsNumeric then (acc.2 : Int) else acc.1,
       acc.2 + 1)) ((-1 : Int), 0)).1

/-- One tree's contribution to the attribute table of the deduplication
scan (lines 560-568): append each attribute whose name is not yet a key
of the map. -/
def scanTreeAttrs (tree : phylo Nat) (attrMap : List (String × Nat))
    (attrRev : List Attribute) : List (String × Nat) × List Attribute :=
  tree.attributes.foldl
    (fun (acc : List (String × Nat) × List Attribute) a =>
      if acc.1.any (fun kv => kv.1 == a.AttributeName) then acc
      else (acc.1 ++ [(a.AttributeName, acc.1.length)], acc.2 ++ [a]))
    (attrMap, attrRev)

/-- One tree's contribution to the name table of the deduplication scan
(lines 571-597): fold the internal-node names then the tip names into the
table, counting the non-empty occurrences. -/
def scanTreeNames (tree : phylo Nat) (names : List String) :
    Except String (List String × Nat) := do
  let nameIndex := scanNameIndex tree
  let nodeNames ← match
      (if nameIndex < 0 then none else tree.nodeAttributes.get? nameIndex.toNat) with
    | some v => v.strs
    | none => Except.error "node attribute vector out of range"
  let tipNames ← match
      (if nameIndex < 0 then none else tree.tipAttributes.get? nameIndex.toNat) with
    | some v => v.strs
    | none => Except.error "tip attribute vector out of range"
  Except.ok ((nodeNames ++ tipNames).foldl
    (fun (acc : List String × Nat) nm =>
      if nm.length > 0 then
        (if acc.1.contains nm then acc.1 else acc.1 ++ [nm], acc.2 + 1)
      else acc)
    (names, 0))

/-- The greedy deduplication scan of `writeBinaryTrees` (lines 538-616):
builds the shared name and attribute tables while scanning the trees in
order, and switches to per-tree tables when, for a tree scanned after at
least one name (resp. attribute) is already in the table, the newly seen
names (resp. attributes) exceed half of the tree's own name-occurrence
count (resp. attribute count).  Scanning stops early once both flags are
set (the `break`). -/
def dedupScanGo : List (phylo Nat) → List String → List (String × Nat) → List Attribute →
    Bool → Bool → Except String (Bool × Bool × List String × List (String × Nat) × List Attribute)
  | [], names, attrMap, attrRev, flagN, flagA => .ok (flagN, flagA, names, attrMap, attrRev)
  | tree :: rest, names, attrMap, attrRev, flagN, flagA => do
      let prevNameCount := names.length
      let prevAttributeCount := attrMap.length
      let ma := scanTreeAttrs tree attrMap attrRev
      let nc ← scanTreeNames tree names
      let maxAttributeCount := max tree.nodeAttributes.length tree.tipAttributes.length
      let flagN := flagN ||
        (prevNameCount != 0 && decide ((nc.1.length - prevNameCount) * 2 > nc.2))
      let flagA := flagA ||
        (prevAttributeCount != 0 &&
          decide ((ma.1.length - prevAttributeCount) * 2 > maxAttributeCount))
      if flagN && flagA then .ok (flagN, flagA, nc.1, ma.1, ma.2)
      else dedupScanGo rest nc.1 ma.1 ma.2 flagN flagA

/-- `writeBinaryTrees`: whole-collection write, producing the complete byte
stream of the file (magic, header byte, shared tables, tree records,
trailing raw data, label section, trailer). -/
def writeBinaryTrees (fuel : Nat) (trees : multiPhylo Nat) (additionalData : List Nat) :
    Except String (List Nat) := do
  let (includeNamesPerTree, includeAttributesPerTree, allNames, allAttrMap, allAttrRev) ←
    dedupScanGo trees.trees [] [] [] false false
  let headerByte : Nat :=
    if !includeNamesPerTree && !includeAttributesPerTree then 0b00000011
    else if !includeNamesPerTree && includeAttributesPerTree then 0b00000001
    else if includeNamesPerTree && !includeAttributesPerTree then 0b00000010
    else 0b00000000
  let namesTable := if !includeNamesPerTree then
      writeInt allNames.length ++ (allNames.map writeMyString).flatten
    else []
  let attrTable := if !includeAttributesPerTree then
      writeInt allAttrRev.length ++
        (allAttrRev.map fun a =>
          writeMyString a.AttributeName ++ writeInt (if a.IsNumeric then 2 else 1)).flatten
    else []
  let hdr := [0x23, 0x54, 0x52, 0x45] ++ [headerByte] ++ namesTable ++ attrTable
  let ta ← trees.trees.foldlM
    (fun (acc : List Nat × List Nat) tree => do
      let address := (hdr ++ acc.1).length
      let bytes ← writeBinaryTree fuel tree (!includeNamesPerTree) (!includeAttributesPerTree)
        allNames allAttrMap allAttrRev
      Except.ok (acc.1 ++ bytes, acc.2 ++ [address]))
    (([] : List Nat), ([] : List Nat))
  let body := ta.1 ++ additionalData
  let addresses := ta.2
  let labelAddress := (hdr ++ body).length
  Except.ok (hdr ++ body ++ writeInt addresses.length ++ (addresses.map writeInt64).flatten
    ++ writeInt64 labelAddress ++ [0x45, 0x4e, 0x44, 0xff])
/-! ## Binary reader (read_binary_tree.cpp) -/

/-- The inner climb of the topology loop of `readBinaryTree`: while the
current parent has received all of its children, move up.  Parents always
have smaller indices than their children, so `counts.length + 1` fuel always
suffices. -/
def climb (parents : List Int) (counts added : List Nat) : Nat → Int → Int
  | 0, currParent => currParent
  | fuel + 1, currParent =>
      if currParent ≥ 0 &&
          counts.getD currParent.toNat 0 == added.getD currParent.toNat 0 then
        climb parents counts added fuel (parents.getD currParent.toNat (-1))
      else currParent

/-- The topology-decoding loop of `readBinaryTree` (lines 337-362): read one
child count per node from the bit-packed stream, building the parent list
and the per-node child counts.  Returns
`(parents, childCounts, tipCount, pos, currByte, currIndex)`. -/
def readTopoGo (s : List Nat) :
    Nat → Nat → Nat → Nat → List Int → List Nat → List Nat → Int → Nat →
    Except String (List Int × List Nat × Nat × Nat × Nat × Nat)
  | 0, _, _, _, _, _, _, _, _ => .error "out of fuel"
  | fuel + 1, p, cb, idx, parents, counts, added, currParent, tipCount =>
      if currParent < 0 then .ok (parents, counts, tipCount, p, cb, idx)
      else do
        let (currCount, p, cb, idx) ← readShortInt s p cb idx
        let counts := counts ++ [currCount]
        let tipCount := if currCount == 0 then tipCount + 1 else tipCount
        let currParent := climb parents counts added (counts.length + 1) currParent
        if currParent ≥ 0 then
          let newNode := parents.length
          let added := (added.set currParent.toNat (added.getD currParent.toNat 0 + 1)) ++ [0]
          let parents := parents ++ [currParent]
          readTopoGo s fuel p cb idx parents counts added (newNode : Int) tipCount
        else
          readTopoGo s fuel p cb idx parents counts added currParent tipCount

/-- Read `n` `(name, type)` attribute pairs (both the local table of
`readBinaryTree` and the global table of `readBinaryTrees`). -/
def readAttrPairs (s : List Nat) (p : Nat) : Nat → Except String (List Attribute × Nat)
  | 0 => .ok ([], p)
  | n + 1 => do
      let (nm, p1) ← rdMyString s p
      let (ty, p2) ← rdInt s p1
      let (rest, p3) ← readAttrPairs s p2 n
      .ok (⟨nm, ty == 2⟩ :: rest, p3)

/-- Read `n` strings (the global name table of `readBinaryTrees`). -/
def readStringList (s : List Nat) (p : Nat) : Nat → Except String (List String × Nat)
  | 0 => .ok ([], p)
  | n + 1 => do
      let (nm, p1) ← rdMyString s p
      let (rest, p2) ← readStringList s p1 n
      .ok (nm :: rest, p2)

/-- Read `n` 8-byte addresses (the label section of `readBinaryTrees`). -/
def readInt64List (s : List Nat) (p : Nat) : Nat → Except String (List Nat × Nat)
  | 0 => .ok ([], p)
  | n + 1 => do
      let (a, p1) ← rdInt64 s p
      let (rest, p2) ← readInt64List s p1 n
      .ok (a :: rest, p2)

/-- The per-node value state of the attribute-reading loop of
`readBinaryTree` (node-major index `i`, attribute-major `nodeAttributes`). -/
structure ReadAttrState where
  edgeLengths : List Nat
  nodeSupport : List Nat
  nodeNames : List String
  nodeAttributes : List (List (AV Nat))
deriving Repr

/-- Set `nodeAttributes[j][i] := v`. -/
def setAV (l : List (List (AV Nat))) (j i : Nat) (v : AV Nat) : List (List (AV Nat)) :=
  l.set j ((l.getD j []).set i v)

/-- Read one `(attribute index, value)` pair for node `i` (lines 412-469). -/
def readOneAttr (s : List Nat) (attributes : List Attribute) (globalNames : Bool)
    (names : List String) (i : Nat) (st : ReadAttrState) (p : Nat) :
    Except String (ReadAttrState × Nat) := do
  let (attributeIdx, p) ← rdInt s p
  let a ← match attributes.get? attributeIdx with
    | some a => Except.ok a
    | none => Except.error "attribute index out of range"
  if a.IsNumeric then
    if equalCI a.AttributeName LENGTHATTRIBUTE then do
      let (d, p) ← rdDouble s p
      Except.ok ({ st with
        edgeLengths := st.edgeLengths.set i d,
        nodeAttributes := setAV st.nodeAttributes attributeIdx i (AV.d d) }, p)
    else if equalCI a.AttributeName SUPPORTATTRIBUTE then do
      let (d, p) ← rdDouble s p
      Except.ok ({ st with
        nodeSupport := st.nodeSupport.set i d,
        nodeAttributes := setAV st.nodeAttributes attributeIdx i (AV.d d) }, p)
    else do
      let (d, p) ← rdDouble s p
      Except.ok ({ st with nodeAttributes := setAV st.nodeAttributes attributeIdx i (AV.d d) }, p)
  else if !equalCI a.AttributeName NAMEATTRIBUTE then do
    let (str, p) ← rdMyString s p
    Except.ok ({ st with nodeAttributes := setAV st.nodeAttributes attributeIdx i (AV.s str) }, p)
  else do
    let (nm, p) ←
      if !globalNames then rdMyString s p
      else do
        let (b, p1) ← rdByte s p
        if b == 0 then Except.ok ("", p1)
        else if b ≤ 254 then do
          -- seekg(-1) then readInt
          let (index, p2) ← rdInt s (p1 - 1)
          match names.get? (index - 1) with
          | some nm => Except.ok (nm, p2)
          | none => Except.error "name index out of range"
        else rdMyString s p1
    Except.ok ({ st with
      nodeNames := st.nodeNames.set i nm,
      nodeAttributes := setAV st.nodeAttributes attributeIdx i (AV.s nm) }, p)

/-- The inner loop over one node's `attributeCount` pairs. -/
def readAttrLoop (s : List Nat) (attributes : List Attribute) (globalNames : Bool)
    (names : List String) (i : Nat) :
    Nat → ReadAttrState → Nat → Except String (ReadAttrState × Nat)
  | 0, st, p => .ok (st, p)
  | n + 1, st, p => do
      let (st, p) ← readOneAttr s attributes globalNames names i st p
      readAttrLoop s attributes globalNames names i n st p

/-- The outer loop over the nodes (lines 408-470). -/
def readNodesLoop (s : List Nat) (attributes : List Attribute) (globalNames : Bool)
    (names : List String) :
    List Nat → ReadAttrState → Nat → Except String (ReadAttrState × Nat)
  | [], st, p => .ok (st, p)
  | i :: rest, st, p => do
      let (attributeCount, p) ← rdInt s p
      let (st, p) ← readAttrLoop s attributes globalNames names i attributeCount st p
      readNodesLoop s attributes globalNames names rest st p
/-- The exact rational value of a finite IEEE-754 bit pattern (used only by
the decimal rendering of support node labels). -/
def bitsToRat (b : Nat) : ℚ :=
  let sign : Nat := b >>> 63
  let e : Nat := (b >>> 52) &&& 2047
  let m : Nat := b &&& (2 ^ 52 - 1)
  let mag : ℚ :=
    if e = 0 then (m : ℚ) * (2 : ℚ) ^ (-(1074 : ℤ))
    else ((2 ^ 52 + m : Nat) : ℚ) * (2 : ℚ) ^ ((e : ℤ) - 1075)
  if sign = 1 then -mag else mag

/-- `std::to_string(double)`: `%f` fixed 6-decimal formatting with
round-to-nearest, ties to even. -/
def toStdString (b : Nat) : String :=
  if (b >>> 52) &&& 2047 == 2047 then
    (if b &&& (2 ^ 52 - 1) != 0 then (if b >>> 63 == 1 then "-nan" else "nan")
     else (if b >>> 63 == 1 then "-inf" else "inf"))
  else
    let q := bitsToRat b
    let aq : ℚ := |q| * 1000000
    let fl : ℤ := ⌊aq⌋
    let rem : ℚ := aq - (fl : ℚ)
    let k : ℤ :=
      if rem > 1 / 2 then fl + 1
      else if rem < 1 / 2 then fl
      else if fl % 2 = 0 then fl else fl + 1
    let kn := k.toNat
    let fs := toString (kn % 1000000)
    (if b >>> 63 == 1 then "-" else "") ++ toString (kn / 1000000) ++ "." ++
      String.mk (List.replicate (6 - fs.length) (Char.ofNat 48)) ++ fs

/-- `readBinaryTree`: decode one tree record starting at position `p`,
returning the tree and the position after the record. -/
def readBinaryTree (fuel : Nat) (s : List Nat) (p : Nat) (globalNames : Bool)
    (names : List String) (attributesIn : List Attribute) :
    Except String (phylo Nat × Nat) := do
  let (numAttributes, p) ← rdInt s p
  let ap ← if numAttributes > 0 then readAttrPairs s p numAttributes
    else Except.ok (attributesIn, p)
  let attributes := ap.1
  let p := ap.2
  let (b0, p) ← rdByte s p
  let (parents, counts, tipCount, p, _cb, idx) ←
    readTopoGo s fuel p b0 0 [-1] [] [0] 0 0
  let p := if idx == 0 then p - 1 else p
  let nodeCount := parents.length
  let st0 : ReadAttrState :=
    { edgeLengths := List.replicate nodeCount nanC,
      nodeSupport := List.replicate nodeCount nanC,
      nodeNames := List.replicate nodeCount "",
      nodeAttributes := attributes.map fun a =>
        if a.IsNumeric then List.replicate nodeCount (AV.d nanC)
        else List.replicate nodeCount (AV.s "") }
  let nsi := attributes.foldl
    (fun (acc : Int × Int × Nat) a =>
      let j := acc.2.2
      if equalCI a.AttributeName NAMEATTRIBUTE && !a.IsNumeric then ((j : Int), acc.2.1, j + 1)
      else if equalCI a.AttributeName SUPPORTATTRIBUTE && a.IsNumeric then
        (acc.1, (j : Int), j + 1)
      else (acc.1, acc.2.1, j + 1))
    ((-1 : Int), (-1 : Int), 0)
  let nameAttributeIndex := nsi.1
  let supportAttributeIndex := nsi.2.1
  let (st, p) ← readNodesLoop s attributes globalNames names (List.range nodeCount) st0 p
  let tipNodes := (List.range nodeCount).filter fun i => counts.getD i 0 == 0
  let internalNodes := (List.range nodeCount).filter fun i => counts.getD i 0 != 0
  let correspondences := (List.range nodeCount).map fun i =>
    if counts.getD i 0 == 0 then ((counts.take (i + 1)).filter (fun c => c == 0)).length - 1
    else tipCount + ((counts.take (i + 1)).filter (fun c => c != 0)).length - 1
  let tipLabels := tipNodes.map fun i => st.nodeNames.getD i ""
  let tipAttributes ← (List.range attributes.length).mapM fun j => do
    let a := attributes.getD j ⟨"", false⟩
    if a.IsNumeric then do
      let vals ← tipNodes.mapM fun i => ((st.nodeAttributes.getD j []).getD i (AV.d nanC)).num
      Except.ok (AttrVec.dvec vals)
    else do
      let vals ← tipNodes.mapM fun i => ((st.nodeAttributes.getD j []).getD i (AV.s "")).str
      Except.ok (AttrVec.svec vals)
  let internalNodeAttributes ← (List.range attributes.length).mapM fun j => do
    let a := attributes.getD j ⟨"", false⟩
    if a.IsNumeric then do
      let vals ← internalNodes.mapM fun i =>
        ((st.nodeAttributes.getD j []).getD i (AV.d nanC)).num
      Except.ok (AttrVec.dvec vals)
    else do
      let vals ← internalNodes.mapM fun i =>
        ((st.nodeAttributes.getD j []).getD i (AV.s "")).str
      Except.ok (AttrVec.svec vals)
  let edges := (List.range (nodeCount - 1)).map fun k =>
    [correspondences.getD (parents.getD (k + 1) (-1)).toNat 0, correspondences.getD (k + 1) 0]
  let correspEdgeLengths := (List.range (nodeCount - 1)).map fun k =>
    st.edgeLengths.getD (k + 1) nanC
  let labels ←
    (do
      let withName ←
        if nameAttributeIndex ≥ 0 then do
          let l ← (internalNodeAttributes.getD nameAttributeIndex.toNat
            (AttrVec.svec [])).strs
          if l.any (fun x => x ≠ "") then Except.ok (some l) else Except.ok none
        else Except.ok none
      match withName with
      | some l => Except.ok (l, true)
      | none =>
        if supportAttributeIndex ≥ 0 then do
          let l ← (internalNodeAttributes.getD supportAttributeIndex.toNat
            (AttrVec.dvec [])).nums
          if l.any (fun d => (d >>> 63) == 0 && d % 2 ^ 63 != 0 && !isnanBits d) then
            Except.ok (l.map toStdString, true)
          else Except.ok ([], false)
        else Except.ok (([] : List String), false))
  let tbr : phylo Nat :=
    { Nnode := nodeCount - tipCount,
      rootEdge := st.edgeLengths.getD 0 nanC,
      edge := edges,
      tipLabel := tipLabels,
      nodeLabel := labels.1,
      edgeLength := correspEdgeLengths,
      tipAttributes := tipAttributes,
      nodeAttributes := internalNodeAttributes,
      attributes := attributes,
      hasEdgeLength := correspEdgeLengths.any fun d => !isnanBits d,
      hasNodeLabel := labels.2 }
  Except.ok (tbr, p)
/-- `hasValidTrailer`: the last four bytes are `45 4E 44 FF`. -/
def hasValidTrailer (s : List Nat) : Bool :=
  decide (4 ≤ s.length) &&
    (s.getD (s.length - 4) 0 == 0x45 && s.getD (s.length - 3) 0 == 0x4e &&
     s.getD (s.length - 2) 0 == 0x44 && s.getD (s.length - 1) 0 == 0xff)

/-- The tree-naming rule of `readBinaryTrees` (both branches): the name is
`tree{ordinal}` (1-based, `ordinal = i + 1`) unless a "TreeName" attribute
exists (first case-insensitive match, numeric or not) and its value at the
first internal node is non-empty. -/
def treeNameIdx (tree : phylo Nat) : Int :=
  match tree.attributes.findIdx? (fun a => equalCI a.AttributeName TREENAMEATTRIBUTE) with
  | some j => (j : Int)
  | none => -1

/-- The naming decision itself (tail of the loop body). -/
def treeNameOf (i : Nat) (tree : phylo Nat) : Except String String := do
  let treeName := "tree" ++ toString (i + 1)
  let treeNameIndex : Int := treeNameIdx tree
  if decide (treeNameIndex ≥ 0) && decide (tree.nodeAttributes.length > 0) then do
    let l ← (tree.nodeAttributes.getD treeNameIndex.toNat (AttrVec.svec [])).strs
    if l.getD 0 "" ≠ "" then Except.ok (l.getD 0 "")
    else Except.ok treeName
  else Except.ok treeName

/-- The sequential fallback scan of `readBinaryTrees` (lines 751-789):
repeatedly decode one tree record at the current position, stopping at the
first failure and keeping everything decoded before it.  `scanFuel` bounds
the loop (each successful decode consumes at least one byte). -/
def seqScan (fuel : Nat) (s : List Nat) (globalNames : Bool) (allNames : List String)
    (allAttributes : List Attribute) :
    Nat → Nat → List (phylo Nat) → List String →
    Except String (List (phylo Nat) × List String)
  | 0, _, trees, names => .ok (trees, names)
  | scanFuel + 1, p, trees, names =>
      match readBinaryTree fuel s p globalNames allNames allAttributes with
      | .error _ => .ok (trees, names)
      | .ok (tree, p2) => do
          let nm ← treeNameOf trees.length tree
          seqScan fuel s globalNames allNames allAttributes scanFuel p2
            (trees ++ [tree]) (names ++ [nm])

/-- Reading the global tables of `readBinaryTrees` (lines 670-697), starting
right after the magic and the header byte (`file->seekg(5)`).  Returns the
tables and the position of the first tree record. -/
def readGlobalTables (s : List Nat) (globalNames globalAttributes : Bool) :
    Except String (List String × List Attribute × Nat) := do
  let p := 5
  let np ← if globalNames then do
      let (numNames, p1) ← rdInt s p
      readStringList s p1 numNames
    else Except.ok ([], p)
  let allNames := np.1
  let p := np.2
  let ap ← if globalAttributes then do
      let (numAttributes, p1) ← rdInt s p
      readAttrPairs s p1 numAttributes
    else Except.ok ([], p)
  Except.ok (allNames, ap.1, ap.2)

/-- Result of `readBinaryTrees`: the trees with their names, plus whether
the invalid-trailer diagnostic (`Rcpp::warning`) was emitted. -/
structure ReadTreesResult where
  trees : List (phylo Nat)
  treeNames : List String
  warnedInvalidTrailer : Bool
deriving DecidableEq, Repr

/-- `readBinaryTrees`: whole-file read.  Validates the magic and the
reserved header bits (fatal `Rcpp::stop` on mismatch), reads the global
tables, and decodes either through the address table of a valid trailer or
through the sequential fallback scan after the invalid-trailer warning. -/
def readBinaryTrees (fuel : Nat) (s : List Nat) : Except String ReadTreesResult := do
  let (header, p) ← rdBytes s 0 4
  if header.getD 0 0 != 0x23 || header.getD 1 0 != 0x54 || header.getD 2 0 != 0x52 ||
      header.getD 3 0 != 0x45 then
    Except.error "Invalid file header!"
  else do
  let (headerByte, _) ← rdByte s p
  if headerByte &&& 0xfc != 0 then Except.error "Invalid file header!"
  else do
  let globalNames := headerByte &&& 0x01 != 0
  let globalAttributes := headerByte &&& 0x02 != 0
  let validTrailer := hasValidTrailer s
  let treeAddresses ← if validTrailer then do
      let (labelAddress, _) ← rdInt64 s (s.length - 12)
      let (numOfTrees, p2) ← rdInt s labelAddress
      let (addrs, _) ← readInt64List s p2 numOfTrees
      Except.ok addrs
    else Except.ok []
  let (allNames, allAttributes, p) ← readGlobalTables s globalNames globalAttributes
  if validTrailer then do
    let tn ← treeAddresses.foldlM
      (fun (acc : List (phylo Nat) × List String) addr => do
        let (tree, _) ← readBinaryTree fuel s addr globalNames allNames allAttributes
        let nm ← treeNameOf acc.1.length tree
        Except.ok (acc.1 ++ [tree], acc.2 ++ [nm]))
      (([] : List (phylo Nat)), ([] : List String))
    Except.ok ⟨tn.1, tn.2, false⟩
  else do
    let tn ← seqScan fuel s globalNames allNames allAttributes (s.length + 1) p [] []
    Except.ok ⟨tn.1, tn.2, true⟩
/-! ## Claim C1: binary whole-collection round trip -/

/-- Failing input for claim C1: a single-tree collection whose internal
node carries the name "X". -/
def exTreeC1 : phylo Nat :=
  { Nnode := 1, rootEdge := nanC,
    edge := [[3, 1], [3, 2]],
    tipLabel := ["A", "B"], nodeLabel := ["X"],
    edgeLength := [nanC, nanC],
    tipAttributes := [AttrVec.svec ["A", "B"]],
    nodeAttributes := [AttrVec.svec ["X"]],
    attributes := [⟨"Name", false⟩],
    hasEdgeLength := false, hasNodeLabel := true }

/-- The single-tree collection for claim C1. -/
def exCollC1 : multiPhylo Nat := { trees := [exTreeC1], treeNames := ["tree1"] }

/-- **Claim C1 (code bug).**  The whole-collection binary round trip does
not preserve internal-node names whenever the shared name table is in
effect: on the tip branch the writer emits the shared-table index plus one
(`writeInt(iter->second + 1)`), but on the internal-node branch it emits
the raw index (`writeInt(iter->second)`), while the reader decodes a zero
byte as "no name" and otherwise uses `names[index - 1]`.  Here the single
tree's internal node is named "X" (the first entry of the shared table, so
the writer emits the byte 0) and it reads back as the empty string: tip
labels survive but the internal node's name is lost, contradicting the
round-trip claim. -/
theorem claim_C1 :
    exCollC1.trees.map phylo.tipLabel = [["A", "B"]] ∧
    exCollC1.trees.map phylo.nodeAttributes = [[AttrVec.svec ["X"]]] ∧
    ((writeBinaryTrees 100 exCollC1 []).bind (readBinaryTrees 100)).map
        (fun r => (r.trees.map phylo.tipLabel, r.trees.map phylo.nodeAttributes))
      = .ok ([["A", "B"]], [[AttrVec.svec [""]]]) := by
  exact ⟨rfl, rfl, by decide⟩
/-! ## Claim C8: fatal header validation -/

theorem rdBytes_take (s : List Nat) (n : Nat) : ∀ p, p + n ≤ s.length →
    rdBytes s p n = .ok ((s.drop p).take n, p + n) := by
  induction n with
  | zero => intro p h; simp [rdBytes]
  | succ n ih =>
      intro p h
      have hp : p < s.length := by omega
      have hdrop : s.drop p = s[p] :: s.drop (p + 1) := List.drop_eq_getElem_cons hp
      simp only [rdBytes, rdByte, dif_pos hp, except_ok_bind, ih (p + 1) (by omega), hdrop]
      rw [List.take_succ_cons]
      simp [List.get_eq_getElem]
      omega

theorem rdBytes_past_end (s : List Nat) (n : Nat) : ∀ p, s.length < p + n → 1 ≤ n →
    ∃ msg, rdBytes s p n = .error msg := by
  induction n with
  | zero => intro p h hn; omega
  | succ n ih =>
      intro p h hn
      by_cases hp : p < s.length
      · obtain ⟨msg, hmsg⟩ := ih (p + 1) (by omega) (by omega)
        exact ⟨msg, by simp only [rdBytes, rdByte, dif_pos hp, except_ok_bind, hmsg]; rfl⟩
      · exact ⟨"end of stream", by simp only [rdBytes, rdByte, dif_neg hp]; rfl⟩

/-- **Claim C8 (confirmed).**  `readBinaryTrees` raises a fatal error
(`Rcpp::stop("Invalid file header!")`, or an end-of-stream error on a file
shorter than the four-byte magic number) whenever the first four bytes
differ from `0x23 0x54 0x52 0x45` ("#TRE") or the header byte at offset 4
has any of its six high bits (`0xfc`) set; no tree is returned in either
case. -/
theorem claim_C8 (fuel : Nat) (s : List Nat)
    (h : s.take 4 ≠ [0x23, 0x54, 0x52, 0x45] ∨ (s.getD 4 0) &&& 0xfc ≠ 0) :
    ∃ msg, readBinaryTrees fuel s = .error msg := by
  by_cases hlen : 4 ≤ s.length
  · have hb : rdBytes s 0 4 = .ok (s.take 4, 4) := by
      have := rdBytes_take s 4 0 (by omega)
      simpa using this
    by_cases hm : s.take 4 = [0x23, 0x54, 0x52, 0x45]
    · have h2 : (s.getD 4 0) &&& 0xfc ≠ 0 := by
        rcases h with h | h
        · exact absurd hm h
        · exact h
      have hlen5 : 4 < s.length := by
        by_contra hc
        push_neg at hc
        rw [List.getD_eq_default _ _ (by omega)] at h2
        exact h2 rfl
      have h2' : s[4] &&& 0xfc ≠ 0 := by
        rwa [List.getD_eq_getElem?_getD, List.getElem?_eq_getElem hlen5] at h2
      refine ⟨"Invalid file header!", ?_⟩
      unfold readBinaryTrees
      rw [hb]
      simp only [except_ok_bind, hm]
      norm_num
      simp only [rdByte, dif_pos hlen5, except_ok_bind]
      simp [List.get_eq_getElem, h2']
    · refine ⟨"Invalid file header!", ?_⟩
      unfold readBinaryTrees
      rw [hb]
      simp only [except_ok_bind]
      have hlen4 : (s.take 4).length = 4 := by rw [List.length_take]; omega
      rcases h4 : s.take 4 with _ | ⟨a, _ | ⟨b, _ | ⟨c, _ | ⟨d, _ | t⟩⟩⟩⟩ <;>
        rw [h4] at hlen4 <;> simp at hlen4
      rw [h4] at hm
      have hdisj : a ≠ 35 ∨ b ≠ 84 ∨ c ≠ 82 ∨ d ≠ 69 := by
        by_contra hc
        push_neg at hc
        exact hm (by simp [hc.1, hc.2.1, hc.2.2.1, hc.2.2.2])
      rcases hdisj with hA | hA | hA | hA <;> simp [bne_iff_ne, hA]
  · obtain ⟨msg, hmsg⟩ := rdBytes_past_end s 4 0 (by omega) (by omega)
    refine ⟨msg, ?_⟩
    unfold readBinaryTrees
    rw [hmsg]
    rfl

/-- Witness for claim C8 at a concrete input: five zero bytes fail the
magic check. -/
theorem claim_C8_witness :
    ([0, 0, 0, 0, 0] : List Nat).take 4 ≠ [0x23, 0x54, 0x52, 0x45] ∧
    ∃ msg, readBinaryTrees 5 [0, 0, 0, 0, 0] = .error msg := by
  exact ⟨by decide, claim_C8 5 [0, 0, 0, 0, 0] (Or.inl (by decide))⟩
/-! ## Claim C7: deduplication heuristic -/

/-- Modelled from the claim: the name-table clause of claim C7 as stated,
with no requirement on the accumulated table — the switch is triggered by
any tree after the first whose newly seen names exceed half of its own
name-occurrence count. -/
def namesSwitchClaimed : List (phylo Nat) → List String → Bool → Except String Bool
  | [], _, _ => .ok false
  | tree :: rest, names, isFirst => do
      let nc ← scanTreeNames tree names
      let trig := !isFirst && decide ((nc.1.length - names.length) * 2 > nc.2)
      let rb ← namesSwitchClaimed rest nc.1 false
      .ok (trig || rb)

/-- The name-table switch of the deduplication scan, stated declaratively
over the amended condition: a tree triggers the switch only when the
accumulated name table is already non-empty before it and the newly seen
names exceed half of the tree's own name-occurrence count. -/
def namesScanSpec : List (phylo Nat) → List String → Except String (Bool × List String)
  | [], names => .ok (false, names)
  | tree :: rest, names => do
      let nc ← scanTreeNames tree names
      let trig := names.length != 0 && decide ((nc.1.length - names.length) * 2 > nc.2)
      let rb ← namesScanSpec rest nc.1
      .ok (trig || rb.1, rb.2)

/-- The attribute-table switch of the deduplication scan, stated
declaratively over the amended condition (accumulated attribute table
non-empty before the tree, newly seen attributes exceed half of
`max(nodeAttributes.length, tipAttributes.length)`). -/
def attrsScanSpec : List (phylo Nat) → List (String × Nat) → List Attribute → Bool
  | [], _, _ => false
  | tree :: rest, attrMap, attrRev =>
      let ma := scanTreeAttrs tree attrMap attrRev
      let trig := attrMap.length != 0 &&
        decide ((ma.1.length - attrMap.length) * 2 >
          max tree.nodeAttributes.length tree.tipAttributes.length)
      trig || attrsScanSpec rest ma.1 ma.2

/-- First counterexample tree: one tip whose name is empty, so it adds
nothing to the name table. -/
def exTreeC7a : phylo Nat :=
  { Nnode := 0, rootEdge := nanC, edge := [], tipLabel := [""], nodeLabel := [],
    edgeLength := [], tipAttributes := [AttrVec.svec [""]],
    nodeAttributes := [AttrVec.svec []], attributes := [⟨"Name", false⟩],
    hasEdgeLength := false, hasNodeLabel := false }

/-- Second counterexample tree: two named tips, so it introduces two new
names against its own name count of two. -/
def exTreeC7b : phylo Nat :=
  { Nnode := 1, rootEdge := nanC, edge := [[3, 1], [3, 2]],
    tipLabel := ["A", "B"], nodeLabel := [],
    edgeLength := [nanC, nanC], tipAttributes := [AttrVec.svec ["A", "B"]],
    nodeAttributes := [AttrVec.svec [""]], attributes := [⟨"Name", false⟩],
    hasEdgeLength := false, hasNodeLabel := false }

/-- The two-tree counterexample collection for claim C7. -/
def exCollC7 : multiPhylo Nat :=
  { trees := [exTreeC7a, exTreeC7b], treeNames := ["t1", "t2"] }


theorem except_err_bind {α β : Type} (e : String) (f : α → Except String β) :
    (Except.error e >>= f) = Except.error e := rfl

theorem bool_or_keep (a b c : Bool) (h : (a || b) = true) : (a || b) = (a || (b || c)) := by
  cases a <;> cases b <;> simp_all

/-- The flags computed by the deduplication scan coincide with the two
declarative switch conditions (each flag is the disjunction of its incoming
value and its spec-side scan), regardless of the early `break`. -/
theorem dedupScanGo_flags (trees : List (phylo Nat)) :
    ∀ names attrMap attrRev flagN flagA bN names1,
      namesScanSpec trees names = .ok (bN, names1) →
      ∃ ns ms rs, dedupScanGo trees names attrMap attrRev flagN flagA =
        .ok (flagN || bN, flagA || attrsScanSpec trees attrMap attrRev, ns, ms, rs) := by
  induction trees with
  | nil =>
      intro names attrMap attrRev flagN flagA bN names1 h
      simp only [namesScanSpec] at h
      injection h with h
      injection h with h1 h2
      exact ⟨names, attrMap, attrRev, by
        simp [dedupScanGo, attrsScanSpec, ← h1]⟩
  | cons tree rest ih =>
      intro names attrMap attrRev flagN flagA bN names1 h
      simp only [namesScanSpec] at h
      cases hnc : scanTreeNames tree names with
      | error e => rw [hnc, except_err_bind] at h; exact absurd h (by simp)
      | ok nc =>
          rw [hnc, except_ok_bind] at h
          cases hrb : namesScanSpec rest nc.1 with
          | error e => rw [hrb, except_err_bind] at h; exact absurd h (by simp)
          | ok rb =>
              rw [hrb, except_ok_bind] at h
              injection h with h
              injection h with h1 h2
              obtain ⟨ns, ms, rs, hd⟩ := ih nc.1 (scanTreeAttrs tree attrMap attrRev).1
                (scanTreeAttrs tree attrMap attrRev).2
                (flagN || (names.length != 0 && decide ((nc.1.length - names.length) * 2 > nc.2)))
                (flagA || (attrMap.length != 0 &&
                  decide (((scanTreeAttrs tree attrMap attrRev).1.length - attrMap.length) * 2 >
                    max tree.nodeAttributes.length tree.tipAttributes.length)))
                rb.1 rb.2 hrb
              simp only [dedupScanGo, hnc, except_ok_bind]
              by_cases hbrk :
                ((flagN || (names.length != 0 && decide ((nc.1.length - names.length) * 2 > nc.2))) &&
                 (flagA || (attrMap.length != 0 &&
                   decide (((scanTreeAttrs tree attrMap attrRev).1.length - attrMap.length) * 2 >
                     max tree.nodeAttributes.length tree.tipAttributes.length)))) = true
              · refine ⟨nc.1, (scanTreeAttrs tree attrMap attrRev).1,
                  (scanTreeAttrs tree attrMap attrRev).2, ?_⟩
                rw [if_pos hbrk]
                obtain ⟨hbn, hba⟩ := Bool.and_eq_true_iff.mp hbrk
                rw [← h1]
                simp only [attrsScanSpec]
                rw [← bool_or_keep _ _ _ hbn, ← bool_or_keep _ _ _ hba]
              · refine ⟨ns, ms, rs, ?_⟩
                rw [if_neg hbrk, hd, ← h1]
                simp only [attrsScanSpec]
                rw [← Bool.or_assoc, ← Bool.or_assoc]

theorem except_bind_ok_inv {α β : Type} (x : Except String α) (f : α → Except String β)
    (b : β) (h : (x >>= f) = .ok b) : ∃ a, x = .ok a ∧ f a = .ok b := by
  cases x with
  | error e => rw [except_err_bind] at h; exact absurd h (by simp)
  | ok a => exact ⟨a, rfl, by rwa [except_ok_bind] at h⟩

/-- **Claim C7 (corrected).**  The writer decides between shared and
per-tree tables by a greedy scan of all trees before writing, and reflects
the decision in header bits 0 (shared names) and 1 (shared attributes) —
but the switch condition as claimed is wrong: a tree whose newly seen
names (attributes) exceed half of its own count triggers the switch only
when the accumulated table is already non-empty before that tree
(`previousNameCount != 0` / `previousAttributeCount != 0` in the source),
not for every tree after the first.  With the amended condition
(`namesScanSpec` / `attrsScanSpec`), the header byte of every written file
is exactly `(switchNames ? 0 : 1) + (switchAttributes ? 0 : 2)`. -/
theorem claim_C7 (fuel : Nat) (trees : multiPhylo Nat) (additionalData bytes : List Nat)
    (bN : Bool) (names1 : List String)
    (hN : namesScanSpec trees.trees [] = .ok (bN, names1))
    (hW : writeBinaryTrees fuel trees additionalData = .ok bytes) :
    bytes.take 4 = [0x23, 0x54, 0x52, 0x45] ∧
    bytes.getD 4 0 =
      (if bN then 0 else 1) + (if attrsScanSpec trees.trees [] [] then 0 else 2) := by
  obtain ⟨ns, ms, rs, hd⟩ := dedupScanGo_flags trees.trees [] [] [] false false bN names1 hN
  simp only [Bool.false_or] at hd
  unfold writeBinaryTrees at hW
  rw [hd] at hW
  simp only [except_ok_bind] at hW
  obtain ⟨ta, hta, hW⟩ := except_bind_ok_inv _ _ _ hW
  simp only [List.append_assoc] at hW
  injection hW with hW
  subst hW
  cases bN <;> cases hA : attrsScanSpec trees.trees [] [] <;>
    refine ⟨?_, ?_⟩ <;>
    simp [hA, List.getD]

/-- Counterexample to claim C7 as stated: the first tree has one tip with
an empty name, so after it the name table is still empty; the second tree
then introduces two new names against its own name count of two (2·2 > 2),
which by the claim should switch the writer to per-tree name tables — yet
the scan keeps both flags off and the written header byte keeps bit 0
(shared names) set. -/
theorem claim_C7_counterexample :
    namesSwitchClaimed exCollC7.trees [] true = .ok true ∧
    (dedupScanGo exCollC7.trees [] [] [] false false).map (fun r => r.1) = .ok false ∧
    (writeBinaryTrees 100 exCollC7 []).map (fun bs => bs.getD 4 0 &&& 1) = .ok 1 := by
  exact ⟨by decide, by decide, by decide⟩

/-- The bytes written for the claim C7 counterexample collection. -/
def exBytesC7 : List Nat :=
  [35, 84, 82, 69, 3, 2, 1, 65, 1, 66, 1, 4, 78, 97, 109, 101, 1, 0, 0, 0, 0, 1, 0, 1,
   0, 1, 1, 0, 2, 2, 17, 0, 0, 0, 0, 0, 0, 0, 20, 0, 0, 0, 0, 0, 0, 0, 29, 0, 0, 0, 0,
   0, 0, 0, 69, 78, 68, 255]

/-- Witness for the amended claim C7 at a concrete collection. -/
theorem claim_C7_witness :
    namesScanSpec exCollC7.trees [] = .ok (false, ["A", "B"]) ∧
    writeBinaryTrees 100 exCollC7 [] = .ok exBytesC7 ∧
    (exBytesC7.take 4 = [0x23, 0x54, 0x52, 0x45] ∧
      exBytesC7.getD 4 0 =
        (if false then 0 else 1) + (if attrsScanSpec exCollC7.trees [] [] then 0 else 2)) :=
  ⟨by decide, by decide,
    claim_C7 100 exCollC7 [] exBytesC7 false ["A", "B"] (by decide) (by decide)⟩
/-! ## Claim C3: invalid-trailer fallback -/

theorem except_bind_mk_map (x : Except String (List (phylo Nat) × List String)) :
    (x >>= fun tn => Except.ok (⟨tn.1, tn.2, true⟩ : ReadTreesResult))
      = x.map (fun tn => ⟨tn.1, tn.2, true⟩) := by
  cases x <;> rfl

/-- **Claim C3 (confirmed).**  On a file with a valid magic and header but
an invalid trailer, `readBinaryTrees` returns (modulo errors raised by the
naming step itself) exactly the sequential fallback scan `seqScan` started
right after the global tables — decoding one tree record at a time,
advancing by however much each decode consumed, stopping at the first
failed decode and keeping the trees decoded before it — with the
invalid-trailer diagnostic recorded; and each tree is named
`tree{1-based ordinal}` unless a "TreeName" attribute exists and its value
at the root is non-empty, in which case that value is used. -/
theorem claim_C3 (fuel : Nat) (s : List Nat) (names : List String)
    (attrs : List Attribute) (p : Nat)
    (hlen : 4 < s.length)
    (hmagic : s.take 4 = [0x23, 0x54, 0x52, 0x45])
    (hheader : s.getD 4 0 &&& 0xfc = 0)
    (htrailer : hasValidTrailer s = false)
    (htables : readGlobalTables s (s.getD 4 0 &&& 1 != 0) (s.getD 4 0 &&& 2 != 0)
      = .ok (names, attrs, p)) :
    (readBinaryTrees fuel s
      = (seqScan fuel s (s.getD 4 0 &&& 1 != 0) names attrs (s.length + 1) p [] []).map
          (fun tn => ⟨tn.1, tn.2, true⟩)) ∧
    (∀ i t, treeNameIdx t < 0 → treeNameOf i t = .ok ("tree" ++ toString (i + 1))) ∧
    (∀ i t l, treeNameIdx t ≥ 0 → 0 < t.nodeAttributes.length →
      (t.nodeAttributes.getD (treeNameIdx t).toNat (AttrVec.svec [])).strs = .ok l →
      l.getD 0 "" ≠ "" → treeNameOf i t = .ok (l.getD 0 "")) := by
  refine ⟨?_, ?_, ?_⟩
  · have hb : rdBytes s 0 4 = .ok (s.take 4, 4) := by
      have := rdBytes_take s 4 0 (by omega)
      simpa using this
    have h4 : s.getD 4 0 = s[4] := by
      simp [List.getD_eq_getElem?_getD, List.getElem?_eq_getElem hlen]
    rw [h4] at hheader htables
    unfold readBinaryTrees
    rw [hb]
    simp only [except_ok_bind, hmagic]
    norm_num
    simp only [rdByte, dif_pos hlen, except_ok_bind]
    simp only [List.get_eq_getElem, htrailer]
    norm_num [hheader]
    simp at htables
    simp [htables, except_ok_bind, except_bind_mk_map, List.getD_eq_getElem?_getD,
      List.getElem?_eq_getElem hlen]
  · intro i t h
    unfold treeNameOf
    simp [show decide (treeNameIdx t ≥ 0) = false by simp; omega]
  · intro i t l h0 h1 h2 h3
    unfold treeNameOf
    simp [List.getD_eq_getElem?_getD] at h3
    simp only [show decide (treeNameIdx t ≥ 0) = true by simp; omega,
      show decide (t.nodeAttributes.length > 0) = true by simp; omega, Bool.and_self,
      if_pos rfl, h2, except_ok_bind]
    simp [h3]

/-- A corrupted copy of the claim C7 example file: the final trailer byte
is zeroed, so the trailer is invalid. -/
def exBytesC3 : List Nat := exBytesC7.dropLast ++ [0]

/-- Witness for claim C3 at the concrete corrupted file: the fallback scan
decodes the two genuine tree records, then happens to decode one stray
record from the address-table bytes, and the next decode fails; the result
carries the diagnostic flag. -/
theorem claim_C3_witness :
    (hasValidTrailer exBytesC3 = false ∧
      readGlobalTables exBytesC3 (exBytesC3.getD 4 0 &&& 1 != 0)
          (exBytesC3.getD 4 0 &&& 2 != 0)
        = .ok (["A", "B"], [⟨"Name", false⟩], 17)) ∧
    ((readBinaryTrees 100 exBytesC3
      = (seqScan 100 exBytesC3 (exBytesC3.getD 4 0 &&& 1 != 0) ["A", "B"] [⟨"Name", false⟩]
          (exBytesC3.length + 1) 17 [] []).map (fun tn => ⟨tn.1, tn.2, true⟩)) ∧
    (∀ i t, treeNameIdx t < 0 → treeNameOf i t = .ok ("tree" ++ toString (i + 1))) ∧
    (∀ i t l, treeNameIdx t ≥ 0 → 0 < t.nodeAttributes.length →
      (t.nodeAttributes.getD (treeNameIdx t).toNat (AttrVec.svec [])).strs = .ok l →
      l.getD 0 "" ≠ "" → treeNameOf i t = .ok (l.getD 0 ""))) :=
  ⟨⟨by decide, by decide⟩,
    claim_C3 100 exBytesC3 ["A", "B"] [⟨"Name", false⟩] 17 (by decide) (by decide)
      (by decide) (by decide) (by decide)⟩
/-! ## NWKA text codec (read_nwka.cpp): doubles as exact values

The text codecs parse and print doubles through `std::stod` /
`std::to_string`.  Here a double is modelled by `RD`: NaN, an infinity, or
an exact rational value (`std::stod` rounding to the nearest binary64 and
overflow/underflow are outside the model; every numeric literal in this
development is exactly representable).  Hexadecimal float literals and
`nan(...)` character sequences accepted by `std::stod` are likewise outside
the modelled subset. -/

inductive RD where
  | nan
  | inf (neg : Bool)
  | val (x : ℚ)
deriving DecidableEq, Repr

/-- `std::isnan` on an `RD` value. -/
def RD.isnan : RD → Bool
  | .nan => true
  | _ => false

/-- `value > 0` on an `RD` value (NaN compares false). -/
def RD.gtZero : RD → Bool
  | .nan => false
  | .inf neg => !neg
  | .val x => decide (0 < x)

/-- `std::isspace` on the character set relevant here. -/
def isspaceC (c : Char) : Bool :=
  c == ' ' || c == '\t' || c == '\n' || c == '\x0b' || c == '\x0c' || c == '\r'

/-- `std::tolower` (ASCII). -/
def tolowerC (c : Char) : Char :=
  if 'A' ≤ c && c ≤ 'Z' then Char.ofNat (c.toNat + 32) else c

/-- `ci_less` (common.h): lexicographic comparison of the `tolower` images. -/
def ci_lt : List Char → List Char → Bool
  | [], [] => false
  | [], _ :: _ => true
  | _ :: _, [] => false
  | a :: as, b :: bs =>
      if tolowerC a < tolowerC b then true
      else if tolowerC b < tolowerC a then false
      else ci_lt as bs

def ciLess (a b : String) : Bool := ci_lt a.data b.data

/-- `ltrim`/`rtrim`/`trim` (read_nwka.cpp). -/
def trimC (cs : List Char) : List Char :=
  ((cs.dropWhile isspaceC).reverse.dropWhile isspaceC).reverse

/-- The attribute map of a NWKA node:
`std::map<std::string, std::variant<std::string, double>, ci_less>`,
modelled as an association list sorted by `ci_less` (the map's iteration
order).  `mapSet` is `operator[] = v`: it keeps the original key of an
equivalent entry and replaces the value. -/
abbrev AttrMap : Type := List (String × AV RD)

def mapSet : AttrMap → String → AV RD → AttrMap
  | [], k, v => [(k, v)]
  | (k0, v0) :: rest, k, v =>
      if ciLess k k0 then (k, v) :: (k0, v0) :: rest
      else if ciLess k0 k then (k0, v0) :: mapSet rest k v
      else (k0, v) :: rest

/-- `map::find` / `containsKey` under `ci_less` equivalence. -/
def mapFind? : AttrMap → String → Option (AV RD)
  | [], _ => none
  | (k0, v0) :: rest, k =>
      if !ciLess k k0 && !ciLess k0 k then some v0 else mapFind? rest k

def containsKey (m : AttrMap) (k : String) : Bool := (mapFind? m k).isSome

/-- `std::stod` on the modelled subset: optional whitespace and sign, then
`inf`/`infinity`, `nan`, or decimal digits with an optional point and
exponent.  Returns the value and the number of characters consumed, or
`none` when no conversion is possible (`std::invalid_argument`). -/
def stod (cs : List Char) : Option (RD × Nat) :=
  let ws := (cs.takeWhile isspaceC).length
  let rest := cs.drop ws
  let (sign, rest1, signLen) :=
    match rest with
    | '-' :: t => (true, t, 1)
    | '+' :: t => (false, t, 1)
    | t => (false, t, 0)
  let lower := (rest1.map tolowerC)
  if lower.take 3 = ['i', 'n', 'f'] then
    let n := if lower.take 8 = ['i', 'n', 'f', 'i', 'n', 'i', 't', 'y'] then 8 else 3
    some (RD.inf sign, ws + signLen + n)
  else if lower.take 3 = ['n', 'a', 'n'] then
    some (RD.nan, ws + signLen + 3)
  else
    let d1 := rest1.takeWhile Char.isDigit
    let afterD1 := rest1.drop d1.length
    let (d2, fracLen) :=
      match afterD1 with
      | '.' :: t => (t.takeWhile Char.isDigit, (t.takeWhile Char.isDigit).length + 1)
      | _ => ([], 0)
    if d1.length + d2.length = 0 then none
    else
      let mantLen := d1.length + fracLen
      let afterMant := rest1.drop mantLen
      let digitsVal : Nat := (d1 ++ d2).foldl (fun acc c => acc * 10 + (c.toNat - 48)) 0
      let ee : ℤ × Nat :=
        match afterMant with
        | e :: t =>
            if e == 'e' || e == 'E' then
              let (esign, t1, esLen) :=
                match t with
                | '-' :: t1 => ((-1 : ℤ), t1, 1)
                | '+' :: t1 => ((1 : ℤ), t1, 1)
                | t1 => ((1 : ℤ), t1, 0)
              let ed := t1.takeWhile Char.isDigit
              if ed.length = 0 then ((0 : ℤ), 0)
              else (esign * (ed.foldl (fun acc c => acc * 10 + (c.toNat - 48)) 0 : Nat),
                    1 + esLen + ed.length)
            else ((0 : ℤ), 0)
        | [] => ((0 : ℤ), 0)
      let scale : ℤ := ee.1 - (d2.length : ℤ)
      let v : ℚ :=
        if 0 ≤ scale then mkRat ((digitsVal : ℤ) * 10 ^ scale.toNat) 1
        else mkRat (digitsVal : ℤ) (10 ^ (-scale).toNat)
      some (RD.val (if sign then mkRat (-v.num) v.den else v),
        ws + signLen + mantLen + ee.2)

/-- `tryParse(std::string, double*)` (common.cpp): `std::stod` must succeed
and consume the whole string; on failure the output is NaN. -/
def tryParse (cs : List Char) : Bool × RD :=
  match stod cs with
  | some (v, p) => if p = cs.length then (true, v) else (false, RD.nan)
  | none => (false, RD.nan)

/-- The `int` overload of `tryParse` (read_nwka.cpp, via `std::stoi`):
optional whitespace and sign followed by at least one digit, consuming the
whole string.  Only the boolean result is used by `parseAttributes`. -/
def tryParseInt (cs : List Char) : Bool :=
  let ws := (cs.takeWhile isspaceC).length
  let rest := cs.drop ws
  let (rest1, signLen) :=
    match rest with
    | '-' :: t => (t, 1)
    | '+' :: t => (t, 1)
    | t => (t, 0)
  let d := rest1.takeWhile Char.isDigit
  d.length != 0 && ws + signLen + d.length == cs.length
/-! ## nextToken (string version) and parseAttributes -/

/-- The tokenizer state shared across `nextToken` calls: the position in
the source plus the `escaping`/`openQuotes`/`openApostrophe` flags. -/
structure TokState where
  pos : Nat
  escaping : Bool
  openQuotes : Bool
  openApostrophe : Bool
deriving DecidableEq, Repr

/-- The whitespace-skipping loop inside `nextToken` (fueled; the fuel
`source.length + 1` always suffices).  `none` = end of input reached. -/
def skipWS (source : List Char) : Nat → Char → Nat → Option (Char × Nat)
  | 0, _, _ => none
  | fuel + 1, c, pos =>
      if isspaceC c then
        if pos ≥ source.length then none
        else skipWS source fuel (source.getD pos ' ') (pos + 1)
      else some (c, pos)

/-- `nextToken` (string version, read_nwka.cpp lines 92-169): next
non-whitespace character outside quotes, tracking escapes and quote state.
Returns `(char or eof, escaped, new state)`. -/
def nextToken (source : List Char) (st : TokState) : Option Char × Bool × TokState :=
  if st.pos ≥ source.length then (none, false, st)
  else
    let c := source.getD st.pos ' '
    let pos := st.pos + 1
    if !st.escaping then
      if !st.openQuotes && !st.openApostrophe then
        match skipWS source (source.length + 1) c pos with
        | none => (none, false, { st with pos := source.length })
        | some (c, pos) =>
            let st := { st with pos := pos }
            let st :=
              if c == '\\' then { st with escaping := true }
              else if c == '"' then { st with openQuotes := true }
              else if c == '\x27' then { st with openApostrophe := true }
              else st
            (some c, false, st)
      else if st.openQuotes then
        let st := { st with pos := pos }
        let st :=
          if c == '"' then { st with openQuotes := false }
          else if c == '\\' then { st with escaping := true }
          else st
        (some c, false, st)
      else
        let st := { st with pos := pos }
        let st :=
          if c == '\x27' then { st with openApostrophe := false }
          else if c == '\\' then { st with escaping := true }
          else st
        (some c, false, st)
    else
      (some c, true, { st with
        pos := pos
        escaping := false })

/-- `!containsKey(m, "Name") || std::get<std::string>(m["Name"]).empty()`
(a `std::get` on the wrong variant throws). -/
def nameEmptyOrAbsent (m : AttrMap) : Except String Bool :=
  match mapFind? m "Name" with
  | none => .ok true
  | some (.s v) => .ok (v == "")
  | some (.d _) => .error "bad variant access"

/-- `!containsKey(m, k) || std::isnan(std::get<double>(m[k]))`. -/
def absentOrNaN (m : AttrMap) (k : String) : Except String Bool :=
  match mapFind? m k with
  | none => .ok true
  | some (.d x) => .ok x.isnan
  | some (.s _) => .error "bad variant access"

/-- The fresh-key search for unrecognised bare values: "Unknown", then
"Unknown2", "Unknown3", ... (first key not in the map). -/
def unknownNameGo (m : AttrMap) : Nat → Nat → String
  | 0, ind => "Unknown" ++ toString ind
  | fuel + 1, ind =>
      let nm := "Unknown" ++ toString ind
      if containsKey m nm then unknownNameGo m fuel (ind + 1) else nm

def unknownName (m : AttrMap) : String :=
  if containsKey m "Unknown" then unknownNameGo m (m.length + 2) 2 else "Unknown"

/-- `value.rfind(q, 0) == 0 && value.find(q, len-1) == len-1`: the value
is wrapped in matching double quotes or apostrophes. -/
def isQuoted (value : List Char) : Bool :=
  (value.headD ' ' == '"' && value.getLastD ' ' == '"') ||
  (value.headD ' ' == '\x27' && value.getLastD ' ' == '\x27')

def stripQuotes (value : List Char) : List Char := (value.drop 1).dropLast

/-- One committed attribute of `parseAttributes` (read_nwka.cpp lines
376-535): the big separator branch, given the accumulated name and value
buffers and the last separator seen. -/
def commitAttr (childCount : Nat) (attributeName attributeValue : List Char)
    (lastSeparator : Char) (withinBrackets closedOuterBrackets : Bool)
    (attributes : AttrMap) : Except String AttrMap := do
  if attributeValue.length > 0 then
    let name0 := attributeName
    let name1 := if name0.headD ' ' == '&' then name0.drop 1 else name0
    let name := if name1.headD ' ' == '!' then name1.drop 1 else name1
    let nameS := String.mk name
    if equalCI nameS NAMEATTRIBUTE then
      let value := if isQuoted attributeValue then stripQuotes attributeValue
        else attributeValue
      Except.ok (mapSet attributes "Name" (AV.s (String.mk value)))
    else if equalCI nameS SUPPORTATTRIBUTE then
      match stod attributeValue with
      | some (v, _) => Except.ok (mapSet attributes "Support" (AV.d v))
      | none => Except.error "stod: invalid argument"
    else if equalCI nameS LENGTHATTRIBUTE then
      match stod attributeValue with
      | some (v, _) => Except.ok (mapSet attributes "Length" (AV.d v))
      | none => Except.error "stod: invalid argument"
    else
      let tp := tryParse attributeValue
      if tp.1 then Except.ok (mapSet attributes nameS (AV.d tp.2))
      else
        let value := if isQuoted attributeValue then stripQuotes attributeValue
          else attributeValue
        Except.ok (mapSet attributes nameS (AV.s (String.mk value)))
  else if attributeName.length > 0 then
    if lastSeparator == ':' then
      let tp := tryParse attributeName
      if tp.1 then Except.ok (mapSet attributes "Length" (AV.d tp.2))
      else Except.ok (mapSet attributes (unknownName attributes)
        (AV.s (String.mk attributeName)))
    else if lastSeparator == '/' then
      let tp := tryParse attributeName
      if tp.1 then Except.ok (mapSet attributes "Support" (AV.d tp.2))
      else Except.ok (mapSet attributes (unknownName attributes)
        (AV.s (String.mk attributeName)))
    else if lastSeparator == ',' then do
      let quoted := isQuoted attributeName
      let value := if quoted then stripQuotes attributeName else attributeName
      let nameFree ← nameEmptyOrAbsent attributes
      let lengthFree ← absentOrNaN attributes "Length"
      let supportFree ← absentOrNaN attributes "Support"
      let isName := quoted ||
        (childCount == 0 && nameFree && lengthFree && supportFree)
      if nameFree && !withinBrackets && !closedOuterBrackets &&
          (isName || !tryParseInt (value.take 1)) then
        Except.ok (mapSet attributes "Name" (AV.s (String.mk value)))
      else
        let tp := tryParse value
        if supportFree && tp.1 then
          Except.ok (mapSet attributes "Support" (AV.d tp.2))
        else
          Except.ok (mapSet attributes (unknownName attributes)
            (AV.s (String.mk value)))
    else Except.ok attributes
  else Except.ok attributes

/-- The loop state of `parseAttributes`. -/
structure PAState where
  tok : TokState
  eof : Bool
  escaped : Bool
  attributeValue : List Char
  attributeName : List Char
  openSquareCount : Nat
  openCurlyCount : Nat
  nameFinished : Bool
  lastSeparator : Char
  start : Bool
  closedOuterBrackets : Bool
  withinBrackets : Bool
  expectsBracket : Bool
  attributes : AttrMap
deriving Repr

/-- Reset performed whenever `closedOuterBrackets` was carried into an
iteration, plus the `withinBrackets` refresh (read_nwka.cpp lines 361-372,
546-557, 561-572). -/
def paReset (st : PAState) : PAState :=
  let st := if st.closedOuterBrackets then
      { st with
        closedOuterBrackets := false
        expectsBracket := false
        start := true
        withinBrackets := false }
    else st
  if st.expectsBracket then { st with withinBrackets := true } else st

/-- The main loop of `parseAttributes` (read_nwka.cpp lines 334-615),
fueled: every iteration either consumes a source character or clears
`closedOuterBrackets`, so `2 * source.length + 4` always suffices. -/
def parseAttributesGo (source : List Char) (childCount : Nat) :
    Nat → PAState → Except String PAState
  | 0, _ => .error "out of fuel"
  | fuel + 1, st =>
      if st.eof then .ok st
      else do
        let (c2opt, st) :=
          if !st.closedOuterBrackets then
            match nextToken source st.tok with
            | (none, esc, tok) =>
                (none, { st with
                  tok := tok
                  eof := true
                  escaped := esc })
            | (some c, esc, tok) =>
                (some c, { st with
                  tok := tok
                  eof := false
                  escaped := esc })
          else (some ',', st)
        let c2 := c2opt.getD (Char.ofNat 255)
        let (c2, st) :=
          if st.start && c2 == '[' then
            (',', { st with
              expectsBracket := true
              start := false })
          else (c2, st)
        if c2 == '=' && !st.escaped && !st.tok.openQuotes && !st.tok.openApostrophe then
          parseAttributesGo source childCount fuel (paReset { st with nameFinished := true })
        else if (st.eof || ((c2 == ':' || c2 == '/' || c2 == ',') &&
            st.openSquareCount == 0 && st.openCurlyCount == 0)) &&
            !st.escaped && !st.tok.openQuotes && !st.tok.openApostrophe then do
          let m ← commitAttr childCount st.attributeName st.attributeValue
            st.lastSeparator st.withinBrackets st.closedOuterBrackets st.attributes
          parseAttributesGo source childCount fuel (paReset { st with
            attributes := m
            lastSeparator := c2
            nameFinished := false
            attributeName := []
            attributeValue := [] })
        else
          let st := paReset st
          let st :=
            if c2 == '[' && !st.escaped && !st.tok.openQuotes && !st.tok.openApostrophe then
              { st with openSquareCount := st.openSquareCount + 1 }
            else if c2 == ']' && !st.escaped && !st.tok.openQuotes &&
                !st.tok.openApostrophe then
              if st.openSquareCount > 0 then
                { st with openSquareCount := st.openSquareCount - 1 }
              else if st.expectsBracket then { st with closedOuterBrackets := true }
              else st
            else if c2 == '{' && !st.escaped && !st.tok.openQuotes &&
                !st.tok.openApostrophe then
              { st with openCurlyCount := st.openCurlyCount + 1 }
            else if c2 == '}' && !st.escaped && !st.tok.openQuotes &&
                !st.tok.openApostrophe then
              if st.openCurlyCount > 0 then
                { st with openCurlyCount := st.openCurlyCount - 1 }
              else st
            else st
          let st :=
            if !st.closedOuterBrackets then
              if !st.nameFinished then { st with attributeName := st.attributeName ++ [c2] }
              else { st with attributeValue := st.attributeValue ++ [c2] }
            else st
          parseAttributesGo source childCount fuel st

/-- `parseAttributes` (read_nwka.cpp lines 311-633): parse the attributes
of one NWKA node starting at `pos`, merging into `attributes`; afterwards
copy "prob" into a missing or NaN "Support" (lines 617-632).  Returns the
final map. -/
def parseAttributes (source : List Char) (pos : Nat) (eof : Bool)
    (attributes : AttrMap) (childCount : Nat) : Except String AttrMap := do
  let st ← parseAttributesGo source childCount (2 * source.length + 4)
    { tok := ⟨pos, false, false, false⟩
      eof := eof
      escaped := false
      attributeValue := []
      attributeName := []
      openSquareCount := 0
      openCurlyCount := 0
      nameFinished := false
      lastSeparator := ','
      start := true
      closedOuterBrackets := false
      withinBrackets := false
      expectsBracket := false
      attributes := attributes }
  let m := st.attributes
  let supportFree ← absentOrNaN m "Support"
  if supportFree && containsKey m "prob" then
    match mapFind? m "prob" with
    | some (.d x) => Except.ok (mapSet m "Support" (AV.d x))
    | some (.s s) => Except.ok (mapSet m "Support" (AV.d (tryParse s.data).2))
    | none => Except.ok m
  else Except.ok m
/-! ## parseNWKA and convertToPhylo -/

/-- The child-splitting loop of `parseNWKA` (read_nwka.cpp lines 671-721):
scan tokens from just after the opening parenthesis until the matching
closing one, collecting the scanned characters and the positions of the
top-level commas.  Returns
`(childrenString, commaPositions, tokenizer state, eof)`. -/
def splitChildren (source : List Char) :
    Nat → TokState → Nat → Int → Int → List Char → List Nat → Nat →
    List Char × List Nat × TokState × Bool
  | 0, tok, _, _, _, acc, commas, _ => (acc, commas, tok, true)
  | fuel + 1, tok, openCount, openSquareCount, openCurlyCount, acc, commas, position =>
      match nextToken source tok with
      | (none, _, tok) => (acc, commas, tok, true)
      | (some c, escaped, tok) =>
          let quiet := !escaped && !tok.openQuotes && !tok.openApostrophe
          if quiet && c == ')' && openCount == 0 then (acc, commas, tok, false)
          else
            let openCount := if quiet && c == '(' then openCount + 1
              else if quiet && c == ')' then openCount - 1 else openCount
            let openSquareCount := if quiet && c == '[' then openSquareCount + 1
              else if quiet && c == ']' then openSquareCount - 1 else openSquareCount
            let openCurlyCount := if quiet && c == '{' then openCurlyCount + 1
              else if quiet && c == '}' then openCurlyCount - 1 else openCurlyCount
            let commas := if quiet && c == ',' && openCount == 0 &&
                openSquareCount == 0 && openCurlyCount == 0 then commas ++ [position]
              else commas
            splitChildren source fuel tok openCount openSquareCount openCurlyCount
              (acc ++ [c]) commas (position + 1)

/-- The accumulated state of `parseNWKA`: `currIndex` equals
`allParents.length` throughout. -/
structure NWKAState where
  allParents : List Int
  allChildren : List (List Nat)
  allAttributes : List AttrMap
  tipCount : Nat
deriving Repr

/-- `parseNWKA` (read_nwka.cpp lines 637-832): recursively parse one NWKA
node (and its subtree) from `source`, appending to the state vectors and
returning the node's index.  `fuel` bounds the recursion depth. -/
def parseNWKA (parent : Int) :
    Nat → List Char → NWKAState → Except String (Nat × NWKAState)
  | 0, _, _ => .error "out of fuel"
  | fuel + 1, source0, st => do
      let source1 := trimC source0
      let source := if source1.getLastD ' ' == ';' then source1.dropLast else source1
      if source.headD ' ' == '(' then do
        let (childrenString, commas, tok, eof) :=
          splitChildren source (source.length + 2) ⟨1, false, false, false⟩ 0 0 0 [] [] 0
        let children : List (List Char) :=
          if commas.length > 0 then
            (List.range commas.length).map (fun i =>
              let start := if i > 0 then commas.getD (i - 1) 0 + 1 else 0
              (childrenString.drop start).take (commas.getD i 0 - start)) ++
            [childrenString.drop (commas.getLastD 0 + 1)]
          else [childrenString]
        let myIndex := st.allParents.length
        let st : NWKAState :=
          { allParents := st.allParents ++ [parent]
            allChildren := st.allChildren ++ [[]]
            allAttributes := st.allAttributes ++ [([] : AttrMap)]
            tipCount := st.tipCount }
        let attrs ← parseAttributes source tok.pos eof [] children.length
        let st : NWKAState := { st with allAttributes := st.allAttributes.set myIndex attrs }
        let st ← children.foldlM
          (fun (st : NWKAState) child => do
            let (childInd, st) ← parseNWKA (myIndex : Int) fuel child st
            Except.ok { st with
              allChildren := st.allChildren.set myIndex
                (st.allChildren.getD myIndex [] ++ [childInd]) })
          st
        Except.ok (myIndex, st)
      else do
        let myIndex := st.allParents.length
        let attrs ← parseAttributes source 0 false [] 0
        Except.ok (myIndex,
          { allParents := st.allParents ++ [parent]
            allChildren := st.allChildren ++ [[]]
            allAttributes := st.allAttributes ++ [attrs]
            tipCount := st.tipCount + 1 })
/-! ## convertToPhylo (read_nwka.cpp lines 835-1069) -/

/-- Setting one slot of a tip/node attribute vector
(`std::get<std::vector<...>>(vecs[j])[i] = v`; a wrong variant throws). -/
def setAttrVal (vecs : List (AttrVec RD)) (j i : Nat) (v : AV RD) :
    Except String (List (AttrVec RD)) :=
  match vecs.getD j (AttrVec.svec []), v with
  | AttrVec.svec l, AV.s s => .ok (vecs.set j (AttrVec.svec (l.set i s)))
  | AttrVec.dvec l, AV.d d => .ok (vecs.set j (AttrVec.dvec (l.set i d)))
  | _, _ => .error "bad variant access"

/-- `containsKey(m, "Length") && m["Length"].index() == 1 &&
!std::isnan(std::get<double>(m["Length"]))`, returning the value. -/
def lengthOf (m : AttrMap) : Option RD :=
  match mapFind? m "Length" with
  | some (AV.d x) => if !x.isnan then some x else none
  | _ => none

/-- `std::to_string(double)` on an `RD` value (`%f`, six decimals,
round-to-nearest ties-to-even). -/
def toStdStringRD : RD → String
  | RD.nan => "nan"
  | RD.inf neg => if neg then "-inf" else "inf"
  | RD.val q =>
      let num : Nat := q.num.natAbs * 1000000
      let den : Nat := q.den
      let fl : Nat := num / den
      let r2 : Nat := 2 * (num % den)
      let kn : Nat :=
        if r2 > den then fl + 1
        else if r2 < den then fl
        else if fl % 2 = 0 then fl else fl + 1
      let fs := toString (kn % 1000000)
      (if q.num < 0 then "-" else "") ++ toString (kn / 1000000) ++ "." ++
        String.mk (List.replicate (6 - fs.length) (Char.ofNat 48)) ++ fs

/-- The 1-based node correspondence of `convertToPhylo`: tips are numbered
1..tipCount, internal nodes tipCount+1.. in index order. -/
def corresp1 (allChildren : List (List Nat)) (tipCount : Nat) (i : Nat) : Nat :=
  if (allChildren.getD i []).length > 0 then
    tipCount + ((allChildren.take (i + 1)).filter (fun l => l.length > 0)).length
  else ((allChildren.take (i + 1)).filter (fun l => decide (l.length = 0))).length

/-- One attribute of one node in the attribute fold of `convertToPhylo`
(read_nwka.cpp lines 885-931 for internal nodes, 956-1009 for tips):
register the attribute if new and write its value into the node's slot;
for a tip, a non-numeric "Name" value also sets the tip label. -/
def convertOneAttr (tipCount nodeCount : Nat) (isTip : Bool) (tipIdx nodeIdx : Nat)
    (acc : List Attribute × List (AttrVec RD) × List (AttrVec RD) × List String)
    (kv : String × AV RD) :
    Except String (List Attribute × List (AttrVec RD) × List (AttrVec RD) × List String) := do
  let (attrs, tipA, nodeA, tipLabel) := acc
  let isNumeric := match kv.2 with
    | AV.d _ => true
    | AV.s _ => false
  let idx0 := attributeIndex attrs ⟨kv.1, isNumeric⟩
  let (attrs, tipA, nodeA, idx) :=
    if idx0 < 0 then
      (attrs ++ [⟨kv.1, isNumeric⟩],
       tipA ++ [if isNumeric then AttrVec.dvec (List.replicate tipCount RD.nan)
         else AttrVec.svec (List.replicate tipCount "")],
       nodeA ++ [if isNumeric then AttrVec.dvec (List.replicate nodeCount RD.nan)
         else AttrVec.svec (List.replicate nodeCount "")],
       attrs.length)
    else (attrs, tipA, nodeA, idx0.toNat)
  if isTip then do
    let tipLabel := if equalCI kv.1 NAMEATTRIBUTE && !isNumeric then
        tipLabel.set tipIdx (match kv.2 with
          | AV.s v => v
          | AV.d _ => "")
      else tipLabel
    let tipA ← setAttrVal tipA idx tipIdx kv.2
    Except.ok (attrs, tipA, nodeA, tipLabel)
  else do
    let nodeA ← setAttrVal nodeA idx nodeIdx kv.2
    Except.ok (attrs, tipA, nodeA, tipLabel)

/-- One node of the attribute fold of `convertToPhylo`. -/
def convertNode (allChildren : List (List Nat)) (allAttributes : List AttrMap)
    (tipCount nodeCount : Nat)
    (acc : List Attribute × List (AttrVec RD) × List (AttrVec RD) × List String)
    (i : Nat) :
    Except String (List Attribute × List (AttrVec RD) × List (AttrVec RD) × List String) :=
  (allAttributes.getD i []).foldlM
    (convertOneAttr tipCount nodeCount ((allChildren.getD i []).length == 0)
      (((allChildren.take (i + 1)).filter (fun l => decide (l.length = 0))).length - 1)
      (((allChildren.take (i + 1)).filter (fun l => l.length > 0)).length - 1))
    acc

/-- `convertToPhylo` (read_nwka.cpp lines 835-1069): assemble the phylo
record from the parsed parent/child/attribute vectors.  Edge entries are
0-based (the marshalling layer adds one); node `i`'s edge and edge length
live at slot `i - 1`. -/
def convertToPhylo (allParents : List Int) (allChildren : List (List Nat))
    (allAttributes : List AttrMap) (tipCount : Nat) : Except String (phylo RD) := do
  let nodeCount := allParents.length - tipCount
  let rootEdge := match lengthOf (allAttributes.getD 0 []) with
    | some x => x
    | none => RD.nan
  let edge := (List.range (allParents.length - 1)).map fun k =>
    if allParents.getD (k + 1) (-1) ≥ 0 then
      [corresp1 allChildren tipCount (allParents.getD (k + 1) (-1)).toNat - 1,
       corresp1 allChildren tipCount (k + 1) - 1]
    else []
  let edgeLength := (List.range (allParents.length - 1)).map fun k =>
    if allParents.getD (k + 1) (-1) ≥ 0 then
      match lengthOf (allAttributes.getD (k + 1) []) with
      | some x => x
      | none => RD.nan
    else RD.val 0
  let hasEdgeLength := (List.range (allParents.length - 1)).any fun k =>
    decide (allParents.getD (k + 1) (-1) ≥ 0) &&
      (lengthOf (allAttributes.getD (k + 1) [])).isSome
  let res ← (List.range allParents.length).foldlM
    (convertNode allChildren allAttributes tipCount nodeCount)
    ([], [], [], List.replicate tipCount "")
  let (attrs, tipA, nodeA, tipLabel) := res
  let nameAttributeIndex := attributeIndex attrs ⟨"Name", false⟩
  let supportAttributeIndex := attributeIndex attrs ⟨"Support", true⟩
  let labels ←
    (do
      let withName ←
        if nameAttributeIndex ≥ 0 then do
          let l ← (nodeA.getD nameAttributeIndex.toNat (AttrVec.svec [])).strs
          if l.any (fun x => x ≠ "") then Except.ok (some l) else Except.ok none
        else Except.ok none
      match withName with
      | some l => Except.ok (l, true)
      | none =>
        if supportAttributeIndex ≥ 0 then do
          let l ← (nodeA.getD supportAttributeIndex.toNat (AttrVec.dvec [])).nums
          if l.any RD.gtZero then Except.ok (l.map toStdStringRD, true)
          else Except.ok (List.replicate nodeCount "", false)
        else Except.ok (List.replicate nodeCount "", false))
  Except.ok
    { Nnode := nodeCount,
      rootEdge := rootEdge,
      edge := edge,
      tipLabel := tipLabel,
      nodeLabel := labels.1,
      edgeLength := edgeLength,
      tipAttributes := tipA,
      nodeAttributes := nodeA,
      attributes := attrs,
      hasEdgeLength := hasEdgeLength,
      hasNodeLabel := labels.2 }

/-- `parseNWKAStringOneTree` (read_nwka.cpp lines 1072-1100): strip a
leading tree name (everything before the first parenthesis), parse, attach
the name as a "TreeName" attribute of the root, and convert. -/
def parseNWKAStringOneTree (source0 : List Char) : Except String (phylo RD) := do
  let idx := source0.findIdx (fun c => c == '(')
  let (treeName, source) :=
    if idx < source0.length then (source0.take idx, source0.drop idx)
    else ([], source0)
  let (_, st) ← parseNWKA (-1) (source.length + 1) source ⟨[], [], [], 0⟩
  let a0 := st.allAttributes.getD 0 []
  let allAttributes :=
    if !containsKey a0 "TreeName" && treeName.length != 0 then
      st.allAttributes.set 0 (mapSet a0 "TreeName" (AV.s (String.mk treeName)))
    else st.allAttributes
  convertToPhylo st.allParents st.allChildren allAttributes st.tipCount
/-! ## Claim C5: parsing "(A:1.0,(B:2.0,C:3.0)90:4.0);" -/

/-- **Claim C5 (confirmed).**  Parsing `(A:1.0,(B:2.0,C:3.0)90:4.0);`
yields: tips A, B, C (tip indices 0, 1, 2) with Length attribute values
1, 2, 3 and matching `edgeLength` entries (A's edge `[3,0]` carries 1,
B's `[4,1]` carries 2, C's `[4,2]` carries 3); the inner internal node
(internal index 1, 0-based node id 4) has numeric Support 90 and numeric
Length 4, the latter also the `edgeLength` entry of its edge `[3,4]`. -/
theorem claim_C5 :
    (parseNWKAStringOneTree "(A:1.0,(B:2.0,C:3.0)90:4.0);".data).map
        (fun t => t.tipLabel) = .ok ["A", "B", "C"] ∧
    (parseNWKAStringOneTree "(A:1.0,(B:2.0,C:3.0)90:4.0);".data).map
        (fun t => t.attributes)
      = .ok [⟨"Length", true⟩, ⟨"Name", false⟩, ⟨"Support", true⟩] ∧
    (parseNWKAStringOneTree "(A:1.0,(B:2.0,C:3.0)90:4.0);".data).map
        (fun t => t.tipAttributes)
      = .ok [AttrVec.dvec [RD.val 1, RD.val 2, RD.val 3], AttrVec.svec ["A", "B", "C"],
          AttrVec.dvec [RD.nan, RD.nan, RD.nan]] ∧
    (parseNWKAStringOneTree "(A:1.0,(B:2.0,C:3.0)90:4.0);".data).map
        (fun t => t.nodeAttributes)
      = .ok [AttrVec.dvec [RD.nan, RD.val 4], AttrVec.svec ["", ""],
          AttrVec.dvec [RD.nan, RD.val 90]] ∧
    (parseNWKAStringOneTree "(A:1.0,(B:2.0,C:3.0)90:4.0);".data).map
        (fun t => t.edge) = .ok [[3, 0], [3, 4], [4, 1], [4, 2]] ∧
    (parseNWKAStringOneTree "(A:1.0,(B:2.0,C:3.0)90:4.0);".data).map
        (fun t => t.edgeLength)
      = .ok [RD.val 1, RD.val 4, RD.val 2, RD.val 3] := by
  refine ⟨?_, ?_, ?_, ?_, ?_, ?_⟩ <;> decide
/-! ## NEXUS reader (read_nwka.cpp lines 1231-1562)

The `std::fstream` is modelled as the character list with a position and
the stream's eof bit.  A failed `get` (reading at the end) sets the eof
bit and leaves the target unusable; the source relies on the subsequent
`eof()` checks, and the model returns NUL for such a read. -/

structure FStream where
  s : List Char
  pos : Nat
  eofbit : Bool
deriving Repr

def FStream.get (f : FStream) : Char × FStream :=
  if f.pos < f.s.length then (f.s.getD f.pos ' ', { f with pos := f.pos + 1 })
  else (Char.ofNat 0, { f with eofbit := true })

def FStream.peek (f : FStream) : Char × FStream :=
  if f.pos < f.s.length then (f.s.getD f.pos ' ', f)
  else (Char.ofNat 0, { f with eofbit := true })

/-- The leading-whitespace loop of `nextWord` (lines 260-263). -/
def nwSkip (c : Char) (f : FStream) : Nat → Char × FStream
  | 0 => (c, f)
  | fuel + 1 =>
      if !f.eofbit && isspaceC c then
        let (c, f) := f.get
        nwSkip c f fuel
      else (c, f)

/-- The word-accumulation loop of `nextWord` (lines 276-290). -/
def nwAccum (sb : List Char) (f : FStream) : Nat → List Char × FStream
  | 0 => (sb, f)
  | fuel + 1 =>
      let (c, f) := f.peek
      if !f.eofbit && !isspaceC c then
        if c == '[' || c == ']' || c == ',' || c == ';' then (sb, f)
        else
          let (c, f) := f.get
          nwAccum (sb ++ [c]) f fuel
      else (sb, f)

/-- `nextWord` (read_nwka.cpp lines 253-302): the next whitespace-delimited
word, with `[`, `]`, `,` and `;` as single-character words.  Returns
`(word, eof, stream)`. -/
def nextWord (f : FStream) : String × Bool × FStream :=
  let (c, f) := f.get
  let (c, f) := nwSkip c f (f.s.length + 1)
  let sb : List Char := if !f.eofbit then [c] else []
  if c == '[' || c == ']' || c == ',' || c == ';' then (String.mk sb, false, f)
  else
    let (sb, f) := nwAccum sb f (f.s.length + 1)
    (String.mk sb, f.eofbit, f)

/-- The whitespace loop of the stream `nextToken` (lines 192-202). -/
def ntfSkip (c : Char) (f : FStream) : Nat → Option Char × FStream
  | 0 => (some c, f)
  | fuel + 1 =>
      if isspaceC c then
        if f.eofbit then (none, f)
        else
          let (c, f) := f.get
          ntfSkip c f fuel
      else (some c, f)

/-- `nextToken` (stream version, read_nwka.cpp lines 173-249).  Returns
`(char or eof, escaped, escaping, openQuotes, openApostrophe, stream)`. -/
def nextTokenF (f : FStream) (escaping openQuotes openApostrophe : Bool) :
    Option Char × Bool × Bool × Bool × Bool × FStream :=
  if f.eofbit then (none, false, escaping, openQuotes, openApostrophe, f)
  else
    let (c, f) := f.get
    if !escaping then
      if !openQuotes && !openApostrophe then
        match ntfSkip c f (f.s.length + 1) with
        | (none, f) => (none, false, escaping, openQuotes, openApostrophe, f)
        | (some c, f) =>
            if c == '\\' then (some c, false, true, openQuotes, openApostrophe, f)
            else if c == '"' then (some c, false, escaping, true, openApostrophe, f)
            else if c == '\x27' then (some c, false, escaping, openQuotes, true, f)
            else (some c, false, escaping, openQuotes, openApostrophe, f)
      else if openQuotes then
        if c == '"' then (some c, false, escaping, false, openApostrophe, f)
        else if c == '\\' then (some c, false, true, openQuotes, openApostrophe, f)
        else (some c, false, escaping, openQuotes, openApostrophe, f)
      else
        if c == '\x27' then (some c, false, escaping, openQuotes, false, f)
        else if c == '\\' then (some c, false, true, openQuotes, openApostrophe, f)
        else (some c, false, escaping, openQuotes, openApostrophe, f)
    else (some c, true, false, openQuotes, openApostrophe, f)
/-! ## parseNEXUSFile -/

inductive NEXUSStatus where
  | Root
  | InCommentInRoot
  | InOtherBlock
  | InCommentInOtherBlock
  | InTreeBlock
  | InTranslateStatement
  | InTreeStatement
  | InCommentInTreeBlock
  | InCommentInTranslateStatement
  | InCommentInTreeStatementName
deriving DecidableEq, Repr

/-- The translate dictionary `std::map<std::string, std::string>`: exact,
case-sensitive keys (`operator[]` replaces the value of an existing key). -/
def dictSet (d : List (String × String)) (k v : String) : List (String × String) :=
  if d.any (fun kv => kv.1 == k) then
    d.map (fun kv => if kv.1 == k then (kv.1, v) else kv)
  else d ++ [(k, v)]

def dictFind? (d : List (String × String)) (k : String) : Option String :=
  (d.find? (fun kv => kv.1 == k)).map (fun kv => kv.2)

/-- The label-substitution loops of `parseNEXUSFile` (lines 1460-1482):
every non-empty label that is exactly a key of the translate dictionary is
replaced by its mapped value. -/
def substituteLabels (dict : List (String × String)) (labels : List String) :
    List String :=
  labels.map fun l =>
    if l != "" then
      match dictFind? dict l with
      | some v => v
      | none => l
    else l

/-- Tokenizer flag bundle shared by the three scanning loops of the tree
statement. -/
structure TreeScanFlags where
  escaping : Bool
  escaped : Bool
  openQuotes : Bool
  openApostrophe : Bool
  openComment : Bool
deriving Repr

/-- Skip to the `=` of a tree statement (lines 1385-1400). -/
def skipToEq (f : FStream) (fl : TreeScanFlags) (c : Option Char) (eof : Bool) :
    Nat → FStream × TreeScanFlags × Bool
  | 0 => (f, fl, true)
  | fuel + 1 =>
      if !eof && (c.getD (Char.ofNat 0) != '=' || fl.openComment) then
        let fl := if c.getD (Char.ofNat 0) == '[' then { fl with openComment := true }
          else if c.getD (Char.ofNat 0) == ']' then { fl with openComment := false }
          else fl
        let (c, esc, escaping, oq, oa, f) := nextTokenF f fl.escaping fl.openQuotes
          fl.openApostrophe
        skipToEq f { fl with
          escaped := esc
          escaping := escaping
          openQuotes := oq
          openApostrophe := oa } c (c.isNone) fuel
      else (f, fl, eof)

/-- Collect the pre-comments before the opening parenthesis (lines
1402-1422); returns the collected characters, the stream, the flags and
eof. -/
def collectPre (f : FStream) (fl : TreeScanFlags) (c : Option Char) (eof : Bool)
    (acc : List Char) : Nat → List Char × FStream × TreeScanFlags × Option Char × Bool
  | 0 => (acc, f, fl, c, true)
  | fuel + 1 =>
      if !(c.getD (Char.ofNat 0) == '(' && !fl.openComment) && !eof then
        let acc := acc ++ [c.getD (Char.ofNat 0)]
        let fl := if c.getD (Char.ofNat 0) == '[' then { fl with openComment := true }
          else if c.getD (Char.ofNat 0) == ']' then { fl with openComment := false }
          else fl
        let (c, esc, escaping, oq, oa, f) := nextTokenF f fl.escaping fl.openQuotes
          fl.openApostrophe
        collectPre f { fl with
          escaped := esc
          escaping := escaping
          openQuotes := oq
          openApostrophe := oa } c (c.isNone) acc fuel
      else (acc, f, fl, c, eof)

/-- Collect the tree payload up to the terminating top-level `;` (lines
1426-1442). -/
def collectTree (f : FStream) (fl : TreeScanFlags) (c : Option Char) (eof : Bool)
    (acc : List Char) : Nat → List Char × FStream × Bool
  | 0 => (acc, f, true)
  | fuel + 1 =>
      if !(c.getD (Char.ofNat 0) == ';' && !fl.openComment && !fl.escaped &&
          !fl.openQuotes && !fl.openApostrophe) && !eof then
        let acc := acc ++ [c.getD (Char.ofNat 0)]
        let fl := if c.getD (Char.ofNat 0) == '[' then { fl with openComment := true }
          else if c.getD (Char.ofNat 0) == ']' then { fl with openComment := false }
          else fl
        let (c, esc, escaping, oq, oa, f) := nextTokenF f fl.escaping fl.openQuotes
          fl.openApostrophe
        collectTree f { fl with
          escaped := esc
          escaping := escaping
          openQuotes := oq
          openApostrophe := oa } c (c.isNone) acc fuel
      else (acc, f, eof)

/-- Attach a "TreeName" attribute holding `treeName` to the root internal
node, unless one exists (lines 1448-1458).  The source writes slot 0 of
the new internal-node vector unchecked; for a tree without internal nodes
that write is out of bounds and the model leaves the vector unchanged. -/
def attachTreeName (t : phylo RD) (treeName : String) : phylo RD :=
  if attributeIndex t.attributes ⟨"TreeName", false⟩ < 0 then
    { t with
      attributes := t.attributes ++ [⟨"TreeName", false⟩]
      tipAttributes := t.tipAttributes ++ [AttrVec.svec (List.replicate t.tipLabel.length "")]
      nodeAttributes := t.nodeAttributes ++
        [AttrVec.svec ((List.replicate t.Nnode "").set 0 treeName)] }
  else t

/-- Merging one pre-comment attribute into the root internal node (lines
1499-1545): register the attribute if new, then write its value at
internal-node slot 0. -/
def mergeOneAttr (t : phylo RD) (kv : String × AV RD) : Except String (phylo RD) := do
  let isNumeric := match kv.2 with
    | AV.d _ => true
    | AV.s _ => false
  let idx0 := attributeIndex t.attributes ⟨kv.1, isNumeric⟩
  let (t, idx) :=
    if idx0 < 0 then
      ({ t with
        attributes := t.attributes ++ [⟨kv.1, isNumeric⟩]
        tipAttributes := t.tipAttributes ++
          [if isNumeric then AttrVec.dvec (List.replicate t.tipLabel.length RD.nan)
           else AttrVec.svec (List.replicate t.tipLabel.length "")]
        nodeAttributes := t.nodeAttributes ++
          [if isNumeric then AttrVec.dvec (List.replicate t.Nnode RD.nan)
           else AttrVec.svec (List.replicate t.Nnode "")] },
       t.attributes.length)
    else (t, idx0.toNat)
  let na ← setAttrVal t.nodeAttributes idx 0 kv.2
  Except.ok { t with nodeAttributes := na }

/-- Merge the pre-comment attributes into the root internal node (lines
1487-1546). -/
def mergePreAttrs (t : phylo RD) (pre : List Char) : Except String (phylo RD) := do
  let preS := trimC pre
  if String.mk preS != "[&R]" && String.mk preS != "[&U]" then do
    let attrs ← parseAttributes preS 0 false [] 2
    attrs.foldlM mergeOneAttr t
  else Except.ok t

/-- The scanning stage of a tree statement (lines 1379-1444): skip to the
`=`, collect the pre-comments up to the opening parenthesis and then the
payload up to the terminating top-level `;`.  Returns
`(preComments, payload, stream, eof)`. -/
def scanTreeStatement (f : FStream) : List Char × List Char × FStream × Bool :=
  let fl : TreeScanFlags :=
    { escaping := false
      escaped := false
      openQuotes := false
      openApostrophe := false
      openComment := false }
  let (c, esc, escaping, oq, oa, f) := nextTokenF f fl.escaping fl.openQuotes
    fl.openApostrophe
  let fl := { fl with
    escaped := esc
    escaping := escaping
    openQuotes := oq
    openApostrophe := oa }
  let (f, fl, _) := skipToEq f fl c c.isNone (f.s.length + 2)
  let (c, esc, escaping, oq, oa, f) := nextTokenF f fl.escaping fl.openQuotes
    fl.openApostrophe
  let fl := { fl with
    escaped := esc
    escaping := escaping
    openQuotes := oq
    openApostrophe := oa }
  let (pre, f, fl, c, eof) := collectPre f fl c c.isNone [] (f.s.length + 2)
  let (treeChars, f, eof) := collectTree f fl c eof [] (f.s.length + 2)
  (pre, treeChars, f, eof)

/-- One full tree statement (the `InTreeStatement` word branch, lines
1376-1552): scan to `=`, collect pre-comments and the payload, parse,
attach the tree name, apply the translate dictionary to tip and node
labels, and merge pre-comment attributes. -/
def readTreeStatement (f : FStream) (word : String)
    (dict : List (String × String)) : Except String (phylo RD × String × FStream × Bool) := do
  let treeName := word
  let (pre, treeChars, f, eof) := scanTreeStatement f
  let parsedTree ← parseNWKAStringOneTree treeChars
  let parsedTree := attachTreeName parsedTree treeName
  let parsedTree := { parsedTree with
    tipLabel := substituteLabels dict parsedTree.tipLabel
    nodeLabel := substituteLabels dict parsedTree.nodeLabel }
  let parsedTree ← mergePreAttrs parsedTree pre
  Except.ok (parsedTree, treeName, f, eof)

/-- The word-driven state machine of `parseNEXUSFile` (lines 1269-1557). -/
def nexusLoop : Nat → FStream → NEXUSStatus → List (String × String) →
    List (phylo RD) → List String → String → Bool →
    Except String (multiPhylo RD)
  | 0, _, _, _, _, _, _, _ => .error "out of fuel"
  | fuel + 1, f, status, dict, trees, names, word, eof =>
      if eof then .ok ⟨trees, names⟩
      else do
        let (f, status, dict, trees, names) ←
          match status with
          | NEXUSStatus.Root =>
              if equalCI word "begin" then
                let (w2, _, f) := nextWord f
                if equalCI w2 "trees" then pure (f, NEXUSStatus.InTreeBlock, dict, trees, names)
                else pure (f, NEXUSStatus.InOtherBlock, dict, trees, names)
              else if word == "[" then
                pure (f, NEXUSStatus.InCommentInRoot, dict, trees, names)
              else pure (f, status, dict, trees, names)
          | NEXUSStatus.InCommentInRoot =>
              if word == "]" then pure (f, NEXUSStatus.Root, dict, trees, names)
              else pure (f, status, dict, trees, names)
          | NEXUSStatus.InOtherBlock =>
              if equalCI word "end" then pure (f, NEXUSStatus.Root, dict, trees, names)
              else if word == "[" then
                pure (f, NEXUSStatus.InCommentInOtherBlock, dict, trees, names)
              else pure (f, status, dict, trees, names)
          | NEXUSStatus.InCommentInOtherBlock =>
              if word == "]" then pure (f, NEXUSStatus.InOtherBlock, dict, trees, names)
              else pure (f, status, dict, trees, names)
          | NEXUSStatus.InTreeBlock =>
              if equalCI word "translate" then
                pure (f, NEXUSStatus.InTranslateStatement, dict, trees, names)
              else if equalCI word "tree" then
                pure (f, NEXUSStatus.InTreeStatement, dict, trees, names)
              else if equalCI word "end" then pure (f, NEXUSStatus.Root, dict, trees, names)
              else if word == "[" then
                pure (f, NEXUSStatus.InCommentInTreeBlock, dict, trees, names)
              else pure (f, status, dict, trees, names)
          | NEXUSStatus.InCommentInTreeBlock =>
              if word == "]" then pure (f, NEXUSStatus.InTreeBlock, dict, trees, names)
              else pure (f, status, dict, trees, names)
          | NEXUSStatus.InTranslateStatement =>
              if word == "[" then
                pure (f, NEXUSStatus.InCommentInTranslateStatement, dict, trees, names)
              else if word == ";" then pure (f, NEXUSStatus.InTreeBlock, dict, trees, names)
              else if word == "," then pure (f, status, dict, trees, names)
              else
                let (w2, _, f) := nextWord f
                pure (f, status, dictSet dict word w2, trees, names)
          | NEXUSStatus.InCommentInTranslateStatement =>
              if word == "]" then
                pure (f, NEXUSStatus.InTranslateStatement, dict, trees, names)
              else pure (f, status, dict, trees, names)
          | NEXUSStatus.InCommentInTreeStatementName =>
              if word == "]" then pure (f, NEXUSStatus.InTreeStatement, dict, trees, names)
              else pure (f, status, dict, trees, names)
          | NEXUSStatus.InTreeStatement =>
              if word == "[" then
                pure (f, NEXUSStatus.InCommentInTreeStatementName, dict, trees, names)
              else do
                let (tree, treeName, f, _) ← readTreeStatement f word dict
                pure (f, NEXUSStatus.InTreeBlock, dict, trees ++ [tree],
                  names ++ [treeName])
        let (word, eof, f) := nextWord f
        nexusLoop fuel f status dict trees names word eof

/-- `parseNEXUSFile` (read_nwka.cpp lines 1248-1562). -/
def parseNEXUSFile (source : List Char) : Except String (multiPhylo RD) :=
  let f : FStream := ⟨source, 0, false⟩
  let (word, eof, f) := nextWord f
  nexusLoop (2 * source.length + 8) f NEXUSStatus.Root [] [] [] word eof
/-! ## Claim C6: translate substitution -/

theorem mergeOneAttr_labels (t t' : phylo RD) (kv : String × AV RD)
    (h : mergeOneAttr t kv = .ok t') :
    t'.tipLabel = t.tipLabel ∧ t'.nodeLabel = t.nodeLabel := by
  obtain ⟨k, v⟩ := kv
  cases v <;>
  · simp only [mergeOneAttr] at h
    split at h <;>
    · obtain ⟨na, hna, h2⟩ := except_bind_ok_inv _ _ _ h
      injection h2 with h2
      subst h2
      exact ⟨rfl, rfl⟩

theorem mergeFold_labels (l : List (String × AV RD)) : ∀ (t t' : phylo RD),
    l.foldlM mergeOneAttr t = .ok t' →
    t'.tipLabel = t.tipLabel ∧ t'.nodeLabel = t.nodeLabel := by
  induction l with
  | nil =>
      intro t t' h
      rw [List.foldlM_nil] at h
      injection h with h
      subst h
      exact ⟨rfl, rfl⟩
  | cons kv rest ih =>
      intro t t' h
      rw [List.foldlM_cons] at h
      obtain ⟨t1, ht1, h2⟩ := except_bind_ok_inv _ _ _ h
      obtain ⟨e1, e2⟩ := mergeOneAttr_labels t t1 kv ht1
      obtain ⟨e3, e4⟩ := ih t1 t' h2
      exact ⟨e3.trans e1, e4.trans e2⟩

theorem mergePreAttrs_labels (t t' : phylo RD) (pre : List Char)
    (h : mergePreAttrs t pre = .ok t') :
    t'.tipLabel = t.tipLabel ∧ t'.nodeLabel = t.nodeLabel := by
  simp only [mergePreAttrs] at h
  split at h
  · obtain ⟨attrs, _, h2⟩ := except_bind_ok_inv _ _ _ h
    exact mergeFold_labels attrs t t' h2
  · injection h with h
    subst h
    exact ⟨rfl, rfl⟩

theorem substituteLabels_map (dict : List (String × String)) (labels : List String) :
    substituteLabels dict labels = labels.map (fun l =>
      if l != "" then (dictFind? dict l).getD l else l) := by
  unfold substituteLabels
  apply List.map_congr_left
  intro l _
  cases dictFind? dict l <;> rfl

/-- The NEXUS file of Scenario D: a Translate statement mapping 1 to Alpha
and 2 to Beta, and the tree payload `(1:1,2:2);`. -/
def exNexusC6 : String :=
  "#NEXUS\n\nBegin Trees;\n\tTranslate\n\t\t1 Alpha,\n\t\t2 Beta\n\t\t;\n\tTree tree1 = (1:1,2:2);\nEnd;\n"

set_option maxHeartbeats 4000000 in
/-- **Claim C6 (confirmed).**  Every tree produced by a NEXUS tree
statement has its tip and node labels obtained from the parsed tree by the
translate-dictionary substitution: each non-empty label that is exactly a
key of the dictionary is replaced by its mapped value, all others are kept.
In particular, the Scenario D file (translate 1 to Alpha, 2 to Beta, tree
`(1:1,2:2);`) decodes to one tree named tree1 with tip labels Alpha and
Beta and edge lengths 1 and 2. -/
theorem claim_C6 :
    (∀ (f : FStream) (word : String) (dict : List (String × String))
        (t : phylo RD) (nm : String) (f1 : FStream) (e1 : Bool),
      readTreeStatement f word dict = .ok (t, nm, f1, e1) →
      ∃ t0 : phylo RD,
        t.tipLabel = t0.tipLabel.map (fun l =>
          if l != "" then (dictFind? dict l).getD l else l) ∧
        t.nodeLabel = t0.nodeLabel.map (fun l =>
          if l != "" then (dictFind? dict l).getD l else l)) ∧
    (parseNEXUSFile exNexusC6.data).map (fun m =>
        (m.treeNames, m.trees.map fun t => (t.tipLabel, t.edgeLength)))
      = .ok (["tree1"], [(["Alpha", "Beta"], [RD.val 1, RD.val 2])]) := by
  constructor
  · intro f word dict t nm f1 e1 h
    delta readTreeStatement at h
    obtain ⟨p, hp, h⟩ := except_bind_ok_inv _ _ _ h
    obtain ⟨t2, ht2, h⟩ := except_bind_ok_inv _ _ _ h
    injection h with h
    injection h with h1 h2
    obtain ⟨e1, e2⟩ := mergePreAttrs_labels _ _ _ ht2
    refine ⟨attachTreeName p word, ?_, ?_⟩
    · rw [← h1, e1, ← substituteLabels_map]
    · rw [← h1, e2, ← substituteLabels_map]
  · decide

/-- **Claim C9 (confirmed).**  NEXUS label substitution through the
translate dictionary (`std::map<std::string, std::string>`) matches keys
exactly and case-sensitively: a label that is not character-for-character
equal to any key is left unchanged, even when it differs from a key only
in letter case — whereas attribute-name lookup (`attributeIndex` via
`equalCI`) matches names that differ only in letter case. -/
theorem claim_C9 (dict : List (String × String)) (label : String)
    (hnot : ∀ kv ∈ dict, kv.1 ≠ label) :
    substituteLabels dict [label] = [label] ∧
    (∀ (name1 name2 : String) (num : Bool), equalCI name1 name2 = true →
      attributeIndex [⟨name1, num⟩] ⟨name2, num⟩ = 0) := by
  constructor
  · have hfind : dictFind? dict label = none := by
      unfold dictFind?
      rw [List.find?_eq_none.mpr]
      · rfl
      · intro kv hkv
        simp [hnot kv hkv]
    simp [substituteLabels, hfind]
  · intro n1 n2 num he
    simp [attributeIndex, List.findIdx?, he]

/-- Witness for claim C9: with translate key "Alpha", the label "alpha"
(differing only in case) is left unchanged although `equalCI` equates the
two and attribute lookup would match them; the exact label "Alpha" is
substituted. -/
theorem claim_C9_witness :
    (∀ kv ∈ [("Alpha", "X")], kv.1 ≠ "alpha") ∧
    (substituteLabels [("Alpha", "X")] ["alpha"] = ["alpha"] ∧
      (∀ (name1 name2 : String) (num : Bool), equalCI name1 name2 = true →
        attributeIndex [⟨name1, num⟩] ⟨name2, num⟩ = 0)) ∧
    equalCI "alpha" "Alpha" = true ∧
    substituteLabels [("Alpha", "X")] ["Alpha"] = ["X"] :=
  ⟨by decide, claim_C9 [("Alpha", "X")] "alpha" (by decide), by decide, by decide⟩
/-! ## NWKA writer (write_nwka.cpp) -/

/-- An apostrophe as a string (NWKA quoting). -/
def aposS : String := String.mk [Char.ofNat 39]

/-- The attribute block `[name=value,...]` emitted by `appendNodeNWKA` for
one node (write_nwka.cpp lines 167-243 for tips, 316-393 for internal
nodes): one entry per kept attribute with a non-NaN numeric or non-empty
string value, strings quoted with apostrophes (or double quotes when the
value itself holds an apostrophe). -/
def nwkaEntries (attributes : List Attribute) (vecs : List (AttrVec Nat))
    (elemIdx : Nat) (keep : Attribute → Bool) : Except String (List String) :=
  (List.range attributes.length).foldlM
    (fun acc j => do
      let a := attributes.getD j ⟨"", false⟩
      if keep a then
        if a.IsNumeric then do
          let l ← (vecs.getD j (AttrVec.dvec [])).nums
          let v := l.getD elemIdx nanC
          if !isnanBits v then
            Except.ok (acc ++ [a.AttributeName ++ "=" ++ toStdString v])
          else Except.ok acc
        else do
          let l ← (vecs.getD j (AttrVec.svec [])).strs
          let v := l.getD elemIdx ""
          if v != "" then
            if !v.data.contains (Char.ofNat 39) then
              Except.ok (acc ++ [a.AttributeName ++ "=" ++ aposS ++ v ++ aposS])
            else Except.ok (acc ++ [a.AttributeName ++ "=\"" ++ v ++ "\""])
          else Except.ok acc
      else Except.ok acc)
    []

def nwkaAttrBlock (entries : List String) : String :=
  if entries.length > 0 then "[" ++ String.intercalate "," entries ++ "]" else ""

/-- `appendNodeNWKA` (write_nwka.cpp lines 142-400): serialise the subtree
rooted at DFS slot `nodeInd` in NWKA format.  Out-of-range vector reads
(undefined behaviour in the source) surface as defaults. -/
def appendNodeNWKA (tree : phylo Nat) (sortedParents : List Int)
    (sortedChildren : List (List Nat)) (sortedNodes : List Nat) :
    Nat → Nat → Except String String
  | 0, _ => .error "out of fuel"
  | fuel + 1, nodeInd =>
      if (sortedChildren.getD nodeInd []).length == 0 then do
        let node := sortedNodes.getD nodeInd 0
        let name := tree.tipLabel.getD (node - 1) ""
        let b := aposS ++ name ++ aposS
        let lengthAttributeIndex := attributeIndex tree.attributes ⟨"Length", true⟩
        let edgeLength ← if lengthAttributeIndex ≥ 0 then do
            let l ← (tree.tipAttributes.getD lengthAttributeIndex.toNat
              (AttrVec.dvec [])).nums
            Except.ok (l.getD (node - 1) nanC)
          else Except.ok nanC
        let b := if !isnanBits edgeLength then b ++ ":" ++ toStdString edgeLength else b
        let entries ← nwkaEntries tree.attributes tree.tipAttributes (node - 1)
          (fun a => !equalCI a.AttributeName NAMEATTRIBUTE &&
            !equalCI a.AttributeName LENGTHATTRIBUTE)
        let b := b ++ nwkaAttrBlock entries
        Except.ok (if sortedParents.getD nodeInd 0 < 0 then b ++ ";" else b)
      else do
        let parts ← (sortedChildren.getD nodeInd []).mapM
          (appendNodeNWKA tree sortedParents sortedChildren sortedNodes fuel)
        let b := "(" ++ String.intercalate "," parts ++ ")"
        let node := sortedNodes.getD nodeInd 0
        let elemIdx := node - tree.tipLabel.length - 1
        let nameAttributeIndex := attributeIndex tree.attributes ⟨"Name", false⟩
        let myName ← if nameAttributeIndex ≥ 0 then do
            let l ← (tree.nodeAttributes.getD nameAttributeIndex.toNat
              (AttrVec.svec [])).strs
            Except.ok (l.getD elemIdx "")
          else Except.ok ""
        let supportAttributeIndex := attributeIndex tree.attributes ⟨"Support", true⟩
        let mySupport ← if supportAttributeIndex ≥ 0 then do
            let l ← (tree.nodeAttributes.getD supportAttributeIndex.toNat
              (AttrVec.dvec [])).nums
            Except.ok (l.getD elemIdx nanC)
          else Except.ok nanC
        let lengthAttributeIndex := attributeIndex tree.attributes ⟨"Length", true⟩
        let edgeLength ← if lengthAttributeIndex ≥ 0 then do
            let l ← (tree.nodeAttributes.getD lengthAttributeIndex.toNat
              (AttrVec.dvec [])).nums
            Except.ok (l.getD elemIdx nanC)
          else Except.ok nanC
        let b := if myName != "" && isnanBits mySupport then
            b ++ aposS ++ myName ++ aposS
          else b
        let b := if !isnanBits mySupport then b ++ toStdString mySupport else b
        let b := if !isnanBits edgeLength then b ++ ":" ++ toStdString edgeLength else b
        let entries ← nwkaEntries tree.attributes tree.nodeAttributes elemIdx
          (fun a => (!equalCI a.AttributeName NAMEATTRIBUTE || !isnanBits mySupport) &&
            !equalCI a.AttributeName LENGTHATTRIBUTE &&
            !equalCI a.AttributeName SUPPORTATTRIBUTE)
        let b := b ++ nwkaAttrBlock entries
        Except.ok (if sortedParents.getD nodeInd 0 < 0 then b ++ ";" else b)

/-- `toString` with `nwka = true` (write_nwka.cpp lines 404-447): rebuild
the parent/child arrays from the 1-based edge list, find the root, sort the
nodes depth-first, and serialise from slot 0. -/
def toStringNWKA (fuel : Nat) (tree : phylo Nat) : Except String String := do
  let n := tree.Nnode + tree.tipLabel.length
  let cp := tree.edge.foldl
    (fun (acc : List (List Nat) × List Nat) e =>
      (acc.1.set (e.getD 0 0) (acc.1.getD (e.getD 0 0) [] ++ [e.getD 1 0]),
       acc.2.set (e.getD 1 0) (e.getD 0 0)))
    (List.replicate (n + 1) [], List.replicate (n + 1) 0)
  let children := cp.1
  let parents := cp.2
  let rootNode ← match ((List.range (n + 1)).drop 1).find? (fun i => parents.getD i 1 == 0) with
    | some i => Except.ok i
    | none => Except.error "no root found"
  let st0 : SortState :=
    { sortedParents := List.replicate n 0,
      sortedChildren := List.replicate n [],
      sortedNodes := List.replicate n 0,
      currIndex := 0 }
  let (st, _) ← addChildren children fuel st0 rootNode (-1)
  appendNodeNWKA tree st.sortedParents st.sortedChildren st.sortedNodes fuel 0

/-- `translateNames` (write_nwka.cpp lines 457-463): replace every tip
label by `to_string(map[label] + 1)`.  `operator[]` on
`std::map<std::string, int>` default-inserts 0 for a missing key, so with
an empty map every tip becomes "1"; the mutated map is returned. -/
def translateNames (tree : phylo Nat) (translation : List (String × Nat)) :
    phylo Nat × List (String × Nat) :=
  let lt := tree.tipLabel.foldl
    (fun (acc : List String × List (String × Nat)) l =>
      match acc.2.find? (fun kv => kv.1 == l) with
      | some kv => (acc.1 ++ [toString (kv.2 + 1)], acc.2)
      | none => (acc.1 ++ [toString (0 + 1)], acc.2 ++ [(l, 0)]))
    ([], translation)
  ({ tree with tipLabel := lt.1 }, lt.2)

/-- Insertion into `std::map<std::string, int>` in key order (byte-wise
`std::less<std::string>`), used when building the Translate table. -/
def simapInsert (m : List (String × Nat)) (k : String) (v : Nat) : List (String × Nat) :=
  match m with
  | [] => [(k, v)]
  | (k0, v0) :: rest =>
      if k < k0 then (k, v) :: (k0, v0) :: rest
      else if k0 < k then (k0, v0) :: simapInsert rest k v
      else (k0, v) :: rest

/-- `Rcpp_multiPhylo_to_nexus` (write_nwka.cpp lines 514-620): emit the
NEXUS file.  With `translate` set, a Taxa block and a Translate table are
emitted from the collected tip labels; the tree loop then calls
`translateNames` on every tree unconditionally, threading the same label
map. -/
def multiPhylo_to_nexus (fuel : Nat) (trees : multiPhylo Nat)
    (translate translateQuotes : Bool) : Except String String := do
  let hd := "#NEXUS\n\n"
  let tipLabels : List (String × Nat) :=
    if translate then
      (trees.trees.foldl
        (fun (acc : List (String × Nat) × Nat) tree =>
          tree.tipLabel.foldl
            (fun (acc : List (String × Nat) × Nat) label =>
              if acc.1.any (fun kv => kv.1 == label) then acc
              else (simapInsert acc.1 label acc.2, acc.2 + 1))
            acc)
        ([], 0)).1
    else []
  let index := tipLabels.length
  let hd := hd ++
    (if translate then
      "Begin Taxa;\n\tDimensions ntax=" ++ toString index ++ ";\n\tTaxLabels\n" ++
      String.join (tipLabels.map (fun kv =>
        if !translateQuotes then "\t\t" ++ kv.1 ++ "\n"
        else "\t\t" ++ aposS ++ kv.1 ++ aposS ++ "\n")) ++
      "\t\t;\nEnd;\n\nBegin Trees;\n\tTranslate\n" ++
      String.join ((List.range tipLabels.length).map (fun i =>
        let kv := tipLabels.getD i ("", 0)
        (if !translateQuotes then "\t\t" ++ toString (kv.2 + 1) ++ " " ++ kv.1
         else "\t\t" ++ toString (kv.2 + 1) ++ " " ++ aposS ++ kv.1 ++ aposS) ++
        (if i + 1 < index then ",\n" else "\n"))) ++
      "\t\t;\n"
    else "Begin Trees;\n")
  let bt ← (List.range trees.trees.length).foldlM
    (fun (acc : String × List (String × Nat)) i => do
      let tree := trees.trees.getD i
        ⟨0, nanC, [], [], [], [], [], [], [], false, false⟩
      let (tree, m) := translateNames tree acc.2
      let s ← toStringNWKA fuel tree
      Except.ok (acc.1 ++ "\tTree " ++ trees.treeNames.getD i "" ++ " = " ++ s ++ "\n", m))
    ("", tipLabels)
  Except.ok (hd ++ bt.1 ++ "End;\n")

/-- Failing input for claim C4: one tree with tips "A" and "B". -/
def exTreeC4 : phylo Nat :=
  { Nnode := 1, rootEdge := nanC, edge := [[3, 1], [3, 2]],
    tipLabel := ["A", "B"], nodeLabel := [],
    edgeLength := [nanC, nanC], tipAttributes := [AttrVec.svec ["A", "B"]],
    nodeAttributes := [AttrVec.svec [""]], attributes := [⟨"Name", false⟩],
    hasEdgeLength := false, hasNodeLabel := false }

def exCollC4 : multiPhylo Nat := { trees := [exTreeC4], treeNames := ["tree1"] }

/-- **Claim C4 (code bug).**  With translation disabled the emitted file
indeed has no Taxa block and no Translate statement (the output below
contains neither), but tip labels are NOT written literally: the tree loop
of `Rcpp_multiPhylo_to_nexus` calls `translateNames` unconditionally
(write_nwka.cpp line 613) with the label map left empty, and
`std::map::operator[]` default-inserts 0 for every missing key, so every
tip label of every tree is emitted as "1".  Here the tree with tips "A"
and "B" is written as `('1','1')`. -/
theorem claim_C4 :
    exCollC4.trees.map phylo.tipLabel = [["A", "B"]] ∧
    multiPhylo_to_nexus 100 exCollC4 false false
      = .ok ("#NEXUS\n\nBegin Trees;\n\tTree tree1 = ("
          ++ aposS ++ "1" ++ aposS ++ "," ++ aposS ++ "1" ++ aposS ++ ");\nEnd;\n") := by
  exact ⟨rfl, by decide⟩
/-! ## Claim C10: rootEdge and edgeLength invariants -/

theorem convertOneAttr_tipLabel_len (tc nc : Nat) (isTip : Bool) (ti ni : Nat)
    (acc acc' : List Attribute × List (AttrVec RD) × List (AttrVec RD) × List String)
    (kv : String × AV RD)
    (h : convertOneAttr tc nc isTip ti ni acc kv = .ok acc') :
    acc'.2.2.2.length = acc.2.2.2.length := by
  obtain ⟨k, v⟩ := kv
  cases v <;>
  · simp only [convertOneAttr] at h
    split at h <;>
    split at h <;>
    · obtain ⟨x, hx, h2⟩ := except_bind_ok_inv _ _ _ h
      injection h2 with h2
      subst h2
      cases hq : equalCI k NAMEATTRIBUTE <;> simp [hq]

theorem convertFold_tipLabel_len (l : List (String × AV RD)) (tc nc : Nat)
    (isTip : Bool) (ti ni : Nat) :
    ∀ acc acc', l.foldlM (convertOneAttr tc nc isTip ti ni) acc = .ok acc' →
    acc'.2.2.2.length = acc.2.2.2.length := by
  induction l with
  | nil =>
      intro acc acc' h
      rw [List.foldlM_nil] at h
      injection h with h
      subst h
      rfl
  | cons kv rest ih =>
      intro acc acc' h
      rw [List.foldlM_cons] at h
      obtain ⟨a1, ha1, h2⟩ := except_bind_ok_inv _ _ _ h
      exact (ih a1 acc' h2).trans (convertOneAttr_tipLabel_len _ _ _ _ _ _ _ _ ha1)

theorem convertNodes_tipLabel_len (idxs : List Nat) (ac : List (List Nat))
    (aa : List AttrMap) (tc nc : Nat) :
    ∀ acc acc', idxs.foldlM (convertNode ac aa tc nc) acc = .ok acc' →
    acc'.2.2.2.length = acc.2.2.2.length := by
  induction idxs with
  | nil =>
      intro acc acc' h
      rw [List.foldlM_nil] at h
      injection h with h
      subst h
      rfl
  | cons i rest ih =>
      intro acc acc' h
      rw [List.foldlM_cons] at h
      obtain ⟨a1, ha1, h2⟩ := except_bind_ok_inv _ _ _ h
      exact (ih a1 acc' h2).trans (convertFold_tipLabel_len _ _ _ _ _ _ _ _ ha1)

theorem convertToPhylo_inv (allParents : List Int) (allChildren : List (List Nat))
    (allAttributes : List AttrMap) (tipCount : Nat) (t : phylo RD)
    (h : convertToPhylo allParents allChildren allAttributes tipCount = .ok t) :
    t.rootEdge = (match lengthOf (allAttributes.getD 0 []) with
      | some x => x
      | none => RD.nan) ∧
    t.edge = (List.range (allParents.length - 1)).map (fun k =>
      if allParents.getD (k + 1) (-1) ≥ 0 then
        [corresp1 allChildren tipCount (allParents.getD (k + 1) (-1)).toNat - 1,
         corresp1 allChildren tipCount (k + 1) - 1]
      else []) ∧
    t.edgeLength = (List.range (allParents.length - 1)).map (fun k =>
      if allParents.getD (k + 1) (-1) ≥ 0 then
        match lengthOf (allAttributes.getD (k + 1) []) with
        | some x => x
        | none => RD.nan
      else RD.val 0) ∧
    t.Nnode = allParents.length - tipCount ∧
    t.tipLabel.length = tipCount := by
  delta convertToPhylo at h
  obtain ⟨res, hres, h⟩ := except_bind_ok_inv _ _ _ h
  obtain ⟨labels, hlab, h⟩ := except_bind_ok_inv _ _ _ h
  injection h with h
  subst h
  refine ⟨rfl, rfl, rfl, rfl, ?_⟩
  have hl := convertNodes_tipLabel_len (List.range allParents.length) allChildren
    allAttributes tipCount (allParents.length - tipCount) _ _ hres
  simpa using hl

theorem readTopoGo_inv (s : List Nat) : ∀ (fuel p cb idx : Nat) (parents : List Int)
    (counts added : List Nat) (currParent : Int) (tipCount : Nat)
    (res : List Int × List Nat × Nat × Nat × Nat × Nat),
    readTopoGo s fuel p cb idx parents counts added currParent tipCount = .ok res →
    tipCount = (counts.filter (fun c => c == 0)).length →
    ((0 ≤ currParent ∧ parents.length = counts.length + 1) ∨
      (currParent < 0 ∧ parents.length = counts.length)) →
    res.2.2.1 = (res.2.1.filter (fun c => c == 0)).length ∧
    res.1.length = res.2.1.length := by
  intro fuel
  induction fuel with
  | zero => intro _ _ _ _ _ _ _ _ _ h _ _; exact absurd h (by simp [readTopoGo])
  | succ fuel ih =>
      intro p cb idx parents counts added currParent tipCount res h htip hinv
      rw [readTopoGo] at h
      split at h
      · injection h with h
        subst h
        rcases hinv with ⟨hc, _⟩ | ⟨_, hl⟩
        · omega
        · exact ⟨htip, hl⟩
      · obtain ⟨q, hq, h⟩ := except_bind_ok_inv _ _ _ h
        obtain ⟨v, p1, cb1, idx1⟩ := q
        simp only [] at h
        rename_i hncp
        have hpl : parents.length = counts.length + 1 := by
          rcases hinv with ⟨_, hl⟩ | ⟨hneg, _⟩
          · exact hl
          · omega
        subst htip
        split at h
        · rename_i hge
          refine ih _ _ _ _ _ _ _ _ _ h ?_ ?_
          · cases hv : (v == 0) <;> simp [hv, List.filter_append]
          · left
            refine ⟨by omega, by simp; omega⟩
        · rename_i hlt
          refine ih _ _ _ _ _ _ _ _ _ h ?_ ?_
          · cases hv : (v == 0) <;> simp [hv, List.filter_append]
          · right
            refine ⟨by omega, by simp; omega⟩

theorem range_filter_getD (l : List Nat) (pred : Nat → Bool) :
    ((List.range l.length).filter (fun i => pred (l.getD i 0))).length
      = (l.filter pred).length := by
  induction l with
  | nil => simp
  | cons a t ih =>
      rw [List.length_cons, List.range_succ_eq_map]
      rw [List.filter_cons]
      simp only [List.filter_map, List.length_map]
      have hc : ((fun i => pred ((a :: t)[i]?.getD 0)) ∘ Nat.succ)
          = fun i => pred (t.getD i 0) := by
        funext i
        simp [List.getD_eq_getElem?_getD]
      rw [List.filter_cons]
      simp only [List.getD_cons_zero]
      simp only [List.getD_eq_getElem?_getD] at ih
      split <;> simp [hc, ih]

/-- Inversion of `readBinaryTree`: a successful decode factors through the
reader's own stages — the attribute table, the bit-packed topology
(`readTopoGo`), and the per-node attribute pass (`readNodesLoop`), whose
NaN-initialised `edgeLengths` table is written only when a node's "length"
attribute is read — and the assembled tree takes `rootEdge` from slot 0 of
that table and `edgeLength` from slots 1..n-1 in node order, with `edge`
slot `k` describing node `k + 1` through the tip/internal renumbering. -/
theorem readBinaryTree_inv (fuel : Nat) (s : List Nat) (p : Nat) (gn : Bool)
    (names : List String) (attrsIn : List Attribute) (t : phylo Nat) (p2 : Nat)
    (h : readBinaryTree fuel s p gn names attrsIn = .ok (t, p2)) :
    ∃ (numAttributes pA : Nat) (attrs : List Attribute) (pT b0 p3 : Nat)
      (pa : List Int) (counts : List Nat) (tipCount pp cbb idxx : Nat)
      (st : ReadAttrState) (p5 : Nat),
      rdInt s p = .ok (numAttributes, pA) ∧
      (if numAttributes > 0 then readAttrPairs s pA numAttributes
        else Except.ok (attrsIn, pA)) = .ok (attrs, pT) ∧
      rdByte s pT = .ok (b0, p3) ∧
      readTopoGo s fuel p3 b0 0 [-1] [] [0] 0 0
        = .ok (pa, counts, tipCount, pp, cbb, idxx) ∧
      readNodesLoop s attrs gn names (List.range pa.length)
        { edgeLengths := List.replicate pa.length nanC,
          nodeSupport := List.replicate pa.length nanC,
          nodeNames := List.replicate pa.length "",
          nodeAttributes := attrs.map fun a =>
            if a.IsNumeric then List.replicate pa.length (AV.d nanC)
            else List.replicate pa.length (AV.s "") }
        (if idxx == 0 then pp - 1 else pp) = .ok (st, p5) ∧
      t.rootEdge = st.edgeLengths.getD 0 nanC ∧
      t.edgeLength = (List.range (pa.length - 1)).map
        (fun k => st.edgeLengths.getD (k + 1) nanC) ∧
      t.edge = (List.range (pa.length - 1)).map (fun k =>
        [((List.range pa.length).map fun j =>
            if counts.getD j 0 == 0 then
              ((counts.take (j + 1)).filter (fun c => c == 0)).length - 1
            else
              tipCount + ((counts.take (j + 1)).filter (fun c => c != 0)).length - 1).getD
          (pa.getD (k + 1) (-1)).toNat 0,
         ((List.range pa.length).map fun j =>
            if counts.getD j 0 == 0 then
              ((counts.take (j + 1)).filter (fun c => c == 0)).length - 1
            else
              tipCount + ((counts.take (j + 1)).filter (fun c => c != 0)).length - 1).getD
          (k + 1) 0]) ∧
      t.Nnode + t.tipLabel.length = pa.length := by
  delta readBinaryTree at h
  obtain ⟨q1, h1, h⟩ := except_bind_ok_inv _ _ _ h
  obtain ⟨numAttributes, pA⟩ := q1
  simp only [] at h
  split at h
  all_goals
  rename_i hcond
  obtain ⟨q2, h2, h⟩ := except_bind_ok_inv _ _ _ h
  obtain ⟨attrsT, pT⟩ := q2
  simp only [] at h
  obtain ⟨q3, h3, h⟩ := except_bind_ok_inv _ _ _ h
  obtain ⟨b0, p3⟩ := q3
  simp only [] at h
  obtain ⟨q4, h4, h⟩ := except_bind_ok_inv _ _ _ h
  obtain ⟨parents, counts, tipCount, pp, cbb, idxx⟩ := q4
  simp only [] at h
  obtain ⟨q5, h5, h⟩ := except_bind_ok_inv _ _ _ h
  obtain ⟨st, p5⟩ := q5
  simp only [] at h
  obtain ⟨q6, h6, h⟩ := except_bind_ok_inv _ _ _ h
  obtain ⟨q7, h7, h⟩ := except_bind_ok_inv _ _ _ h
  obtain ⟨q8, h8, h⟩ := except_bind_ok_inv _ _ _ h
  injection h with h
  injection h with ht hp
  obtain ⟨hti, hpl⟩ := readTopoGo_inv s fuel _ _ _ _ _ _ _ _ _ h4 (by simp)
    (Or.inl ⟨by omega, by simp⟩)
  simp only [] at hti hpl
  refine ⟨numAttributes, pA, attrsT, pT, b0, p3, parents, counts, tipCount, pp, cbb,
    idxx, st, p5, h1, ?_, h3, h4, h5, ?_, ?_, ?_, ?_⟩
  · first
      | (rw [if_pos hcond]; exact h2)
      | (rw [if_neg hcond]; exact h2)
  · rw [← ht]
  · rw [← ht]
  · rw [← ht]
  · rw [← ht]
    have hfl : (((List.range counts.length).filter
        (fun i => counts.getD i 0 == 0)).length) = tipCount := by
      rw [hti]
      exact range_filter_getD counts (fun c => c == 0)
    have hle : tipCount ≤ counts.length := by
      rw [hti]
      exact List.length_filter_le _ _
    simp only [hpl, List.length_map, hfl]
    omega

/-- **Claim C10 (confirmed).**  Both decoders route the root's "Length"
away from the edge-length vector and into `rootEdge`, and give
`edgeLength` exactly one entry per non-root node, aligned with the edge
list.  For the NWKA converter: node `i ≥ 1` (the root is node 0) owns slot
`i - 1` of both `edge` and `edgeLength`; the slot holds the node's Length
attribute when present, numeric and non-NaN, and NaN otherwise, while
`rootEdge` holds node 0's Length under the same condition (NaN when absent
— the marshalling layer drops a NaN `rootEdge`).  For the binary reader:
the decode factors through its stages, and with `st` the result of the
per-node attribute pass `readNodesLoop` — whose `edgeLengths` table starts
as all-NaN and is written only by "length" attribute reads — the tree
takes `rootEdge` from `st.edgeLengths` slot 0 (the root node) and
`edgeLength` from slots 1..n-1 in node order, so the root's Length is
never stored in `edgeLength`, `edge` slot `k` likewise describes node
`k + 1`, and in both decoders `edgeLength` and `edge` have equal length,
one entry per non-root node. -/
theorem claim_C10 :
    (∀ (allParents : List Int) (allChildren : List (List Nat))
        (allAttributes : List AttrMap) (tipCount : Nat) (t : phylo RD),
      convertToPhylo allParents allChildren allAttributes tipCount = .ok t →
      t.rootEdge = (match lengthOf (allAttributes.getD 0 []) with
        | some x => x
        | none => RD.nan) ∧
      t.edge = (List.range (allParents.length - 1)).map (fun k =>
        if allParents.getD (k + 1) (-1) ≥ 0 then
          [corresp1 allChildren tipCount (allParents.getD (k + 1) (-1)).toNat - 1,
           corresp1 allChildren tipCount (k + 1) - 1]
        else []) ∧
      t.edgeLength = (List.range (allParents.length - 1)).map (fun k =>
        if allParents.getD (k + 1) (-1) ≥ 0 then
          match lengthOf (allAttributes.getD (k + 1) []) with
          | some x => x
          | none => RD.nan
        else RD.val 0) ∧
      t.edgeLength.length = t.edge.length ∧
      t.Nnode = allParents.length - tipCount ∧
      t.tipLabel.length = tipCount) ∧
    (∀ (fuel : Nat) (s : List Nat) (p : Nat) (gn : Bool) (names : List String)
        (attrsIn : List Attribute) (t : phylo Nat) (p2 : Nat),
      readBinaryTree fuel s p gn names attrsIn = .ok (t, p2) →
      ∃ (numAttributes pA : Nat) (attrs : List Attribute) (pT b0 p3 : Nat)
        (pa : List Int) (counts : List Nat) (tipCount pp cbb idxx : Nat)
        (st : ReadAttrState) (p5 : Nat),
        rdInt s p = .ok (numAttributes, pA) ∧
        (if numAttributes > 0 then readAttrPairs s pA numAttributes
          else Except.ok (attrsIn, pA)) = .ok (attrs, pT) ∧
        rdByte s pT = .ok (b0, p3) ∧
        readTopoGo s fuel p3 b0 0 [-1] [] [0] 0 0
          = .ok (pa, counts, tipCount, pp, cbb, idxx) ∧
        readNodesLoop s attrs gn names (List.range pa.length)
          { edgeLengths := List.replicate pa.length nanC,
            nodeSupport := List.replicate pa.length nanC,
            nodeNames := List.replicate pa.length "",
            nodeAttributes := attrs.map fun a =>
              if a.IsNumeric then List.replicate pa.length (AV.d nanC)
              else List.replicate pa.length (AV.s "") }
          (if idxx == 0 then pp - 1 else pp) = .ok (st, p5) ∧
        t.rootEdge = st.edgeLengths.getD 0 nanC ∧
        t.edgeLength = (List.range (pa.length - 1)).map
          (fun k => st.edgeLengths.getD (k + 1) nanC) ∧
        t.edge = (List.range (pa.length - 1)).map (fun k =>
          [((List.range pa.length).map fun j =>
              if counts.getD j 0 == 0 then
                ((counts.take (j + 1)).filter (fun c => c == 0)).length - 1
              else
                tipCount + ((counts.take (j + 1)).filter (fun c => c != 0)).length - 1).getD
            (pa.getD (k + 1) (-1)).toNat 0,
           ((List.range pa.length).map fun j =>
              if counts.getD j 0 == 0 then
                ((counts.take (j + 1)).filter (fun c => c == 0)).length - 1
              else
                tipCount + ((counts.take (j + 1)).filter (fun c => c != 0)).length - 1).getD
            (k + 1) 0]) ∧
        t.edgeLength.length = t.edge.length ∧
        t.Nnode + t.tipLabel.length = pa.length) := by
  constructor
  · intro allParents allChildren allAttributes tipCount t h
    obtain ⟨c1, c2, c3, c4, c5⟩ := convertToPhylo_inv allParents allChildren
      allAttributes tipCount t h
    exact ⟨c1, c2, c3, by rw [c2, c3]; simp, c4, c5⟩
  · intro fuel s p gn names attrsIn t p2 h
    obtain ⟨numAttributes, pA, attrs, pT, b0, p3, pa, counts, tipCount, pp, cbb,
      idxx, st, p5, e1, e2, e3, e4, e5, c1, c2, c3, c4⟩ :=
      readBinaryTree_inv fuel s p gn names attrsIn t p2 h
    exact ⟨numAttributes, pA, attrs, pT, b0, p3, pa, counts, tipCount, pp, cbb,
      idxx, st, p5, e1, e2, e3, e4, e5, c1, c2, c3, by rw [c2, c3]; simp, c4⟩
